import Mathlib

/-!
# The mDNS server-on-network registry of `src/server/ua_discovery_mdns_mjansson.c`

A shallow embedding of the registry kept in the file-static `mdnsPrivateData`:
the table of hash-bucket chains, the ordered list of entries, the record-id
counter, and the functions that mutate them (`mdns_record_add_or_get`,
`UA_DiscoveryManager_addEntryToServersOnNetwork`,
`UA_DiscoveryManager_removeEntryFromServersOnNetwork`, `query_callback`,
`UA_DiscoveryManager_clearServerOnNetwork`,
`UA_Discovery_updateMdnsForDiscoveryUrl`, ...).

Modelling conventions.

* A C `char` is a `Char`; the terminating NUL is `Char.ofNat 0`.  A buffer is
  the list of its bytes; the C string it holds is `cstr`, the bytes before the
  first NUL (the end of the list reads as a NUL).
* The name stored in an entry is the buffer `UA_String_copy` made: exactly the
  bytes of the name, no terminator.  Where the code reads that buffer as a C
  string (`UA_DiscoveryManager_clearServerOnNetwork`), the read runs on into the
  memory behind it; the bytes it finds there are an argument of the call.
* Heap objects of type `struct serverOnNetwork` live in `Registry.heap`, a map
  from addresses to objects; pointers are addresses (`Ptr`).  `UA_malloc` of an
  entry is a bump allocator (`Registry.heapNext`): a successful allocation
  returns an address that was never handed out before.
* The intrusive `LIST_ENTRY` list is the list of the addresses of its elements,
  head first; a bucket chain is the list of the `entry` pointers of its nodes,
  head first.
* Calls of the listener `dm->serverOnNetworkCallback` are recorded, in order, in
  `Registry.observed`.
* What the platform answers during one call (clocks, success of allocations) is
  an `Env`; the functions of the repository that are not part of this file
  (`UA_ByteString_hash`, `UA_parseEndpointUrl`) are the fields of `Deps`.
-/

set_option linter.dupNamespace false

namespace Mdns

/-! ## Strings -/

/-- A `UA_String` (length and data): the list of its bytes. -/
abbrev UA_String := List Char

/-- Address of a heap object. -/
abbrev Ptr := Nat

/-- The NUL byte. -/
def NUL : Char := Char.ofNat 0

/-- The C string held in a buffer: the bytes before the first NUL. -/
def cstr (s : List Char) : List Char := s.takeWhile (fun c => c != NUL)

/-- The libc `strncmp`: compares at most `n` bytes and stops after a NUL; the
end of a list reads as NUL.  The result is `0` exactly when the strings agree. -/
def strncmp : List Char → List Char → Nat → Int
  | _, _, 0 => 0
  | s1, s2, n + 1 =>
    let c1 := s1.headD NUL
    let c2 := s2.headD NUL
    if c1 ≠ c2 then (c1.toNat : Int) - (c2.toNat : Int)
    else if c1 = NUL then 0
    else strncmp s1.tail s2.tail n

/-- Whether `needle` starts at the front of `hay`. -/
def startsWith : List Char → List Char → Bool
  | [], _ => true
  | _ :: _, [] => false
  | n :: ns, h :: hs => n == h && startsWith ns hs

/-- The libc `strstr(hay, needle) != NULL` on C strings given as byte lists
without NUL. -/
def strstrFound (hay needle : List Char) : Bool :=
  match hay with
  | [] => startsWith needle []
  | h :: hs => startsWith needle (h :: hs) || strstrFound hs needle

/-- The `%d` conversion of `snprintf` for a non-negative value. -/
def decimal (n : Nat) : List Char := Nat.toDigits 10 n

/-! ## Data model -/

/-- `SERVER_ON_NETWORK_HASH_SIZE`. -/
def SERVER_ON_NETWORK_HASH_SIZE : Nat := 1000

/-- The status codes this file returns. -/
inductive UA_StatusCode where
  | GOOD
  | BADALREADYEXISTS
  | BADOUTOFMEMORY
  | BADNOTHINGTODO
  | BADARGUMENTSMISSING
deriving DecidableEq, Repr

/-- The public view `UA_ServerOnNetwork` of an entry. -/
structure UA_ServerOnNetwork where
  recordId : Nat
  serverName : UA_String
  discoveryUrl : UA_String
  serverCapabilities : List UA_String
deriving DecidableEq, Repr

/-- The value `UA_ServerOnNetwork_init` / `UA_ServerOnNetwork_clear` leave. -/
def UA_ServerOnNetwork_init : UA_ServerOnNetwork :=
  { recordId := 0, serverName := [], discoveryUrl := [], serverCapabilities := [] }

/-- The object `struct serverOnNetwork` (its list pointers are the position in
`Registry.serverOnNetwork`). -/
structure serverOnNetwork where
  serverOnNetwork : UA_ServerOnNetwork
  created : Int
  lastSeen : Int
  txtSet : Bool
  srvSet : Bool
  pathTmp : Option (List Char)
deriving DecidableEq, Repr

/-- One invocation of `dm->serverOnNetworkCallback`: the entry it was called
for, the contents of the view at that moment, and whether the call was made on
the removal path. -/
structure Observation where
  removal : Bool
  entry : Ptr
  view : UA_ServerOnNetwork
deriving DecidableEq, Repr

/-- The static `mdnsPrivateData` (type `mjansson_mdns_private`, without its two
socket descriptors, which no function below reads), the heap of entries and the
trace of listener calls. -/
structure Registry where
  serverOnNetworkHash : Nat → List Ptr
  serverOnNetwork : List Ptr
  selfMdnsRecord : UA_String
  serverOnNetworkRecordIdCounter : Nat
  serverOnNetworkRecordIdLastReset : Int
  heap : Ptr → Mdns.serverOnNetwork
  heapNext : Ptr
  observed : List Observation

/-- Contents of memory that was never written. -/
def blankEntry : serverOnNetwork :=
  { serverOnNetwork := UA_ServerOnNetwork_init, created := 0, lastSeen := 0,
    txtSet := false, srvSet := false, pathTmp := none }

/-- The initial value of `mdnsPrivateData`: no entry, counter `0`. -/
def mdnsPrivateData : Registry :=
  { serverOnNetworkHash := fun _ => []
    serverOnNetwork := []
    selfMdnsRecord := []
    serverOnNetworkRecordIdCounter := 0
    serverOnNetworkRecordIdLastReset := 0
    heap := fun _ => blankEntry
    heapNext := 1
    observed := [] }

/-- The part of `UA_DiscoveryManager` this file uses: whether a listener
(`serverOnNetworkCallback`) is registered. -/
structure UA_DiscoveryManager where
  serverOnNetworkCallback : Bool
deriving DecidableEq, Repr

/-- What the platform answers during one call of a function of this file: the
readings of the wall clock (`dateTime_now`) and of the monotonic clock
(`dateTime_nowMonotonic`) of the event loop, each taken as one value for the
duration of the call, and whether the allocations succeed: `UA_malloc` of the
entry, `UA_String_copy` of the server name, `UA_malloc` of the chain node, and
the copy of the payload (the discovery URL or the TXT path). -/
structure Env where
  dateTime_now : Int
  dateTime_nowMonotonic : Int
  mallocEntry : Bool
  copyServerName : Bool
  mallocHashEntry : Bool
  copyPayload : Bool
deriving DecidableEq, Repr

/-- Functions of the repository that this file calls and that are defined
elsewhere. `UA_ByteString_hash` is applied with initial value `0` to the bytes
of a C string; `UA_parseEndpointUrl` returns hostname, port and path, or
nothing when it rejects the URL. -/
structure Deps where
  UA_ByteString_hash : List Char → Nat
  UA_parseEndpointUrl : UA_String → Option (UA_String × Nat × UA_String)

/-- Pointwise update of a table or of the heap. -/
def setAt {α : Type} (f : Nat → α) (i : Nat) (v : α) : Nat → α :=
  fun j => if j = i then v else f j

/-- The bucket index of a domain name given as a C string buffer. -/
def hashIdx (P : Deps) (record : List Char) : Nat :=
  P.UA_ByteString_hash (cstr record) % SERVER_ON_NETWORK_HASH_SIZE

/-! ## Record store -/

/-- The test in the body of the `while(hash_entry)` loop of
`mdns_record_add_or_get`: `maxLen` is the smaller of the two lengths and the
names are compared by `strncmp` on `maxLen` bytes. -/
def namesAgree (entryName serverName : UA_String) : Bool :=
  let maxLen :=
    if serverName.length > entryName.length then entryName.length
    else serverName.length
  decide (strncmp entryName serverName maxLen = 0)

/-- The `while(hash_entry)` loop of `mdns_record_add_or_get`: the first node of
the chain whose entry has a `serverName` that agrees with the given one on the
first `min` of the two lengths bytes. -/
def chainSearch (heap : Ptr → serverOnNetwork) (serverName : UA_String) :
    List Ptr → Option Ptr
  | [] => none
  | p :: rest =>
    if namesAgree (heap p).serverOnNetwork.serverName serverName then some p
    else chainSearch heap serverName rest

/-- `UA_DiscoveryManager_addEntryToServersOnNetwork`: status, the pointer
written to `*addedEntry` (if any) and the new state. -/
def UA_DiscoveryManager_addEntryToServersOnNetwork (P : Deps) (env : Env)
    (st : Registry) (fqdnMdnsRecord : List Char) (serverName : UA_String) :
    UA_StatusCode × Option Ptr × Registry :=
  match chainSearch st.heap serverName
      (st.serverOnNetworkHash (hashIdx P fqdnMdnsRecord)) with
  | some entry => (.BADALREADYEXISTS, some entry, st)
  | none =>
    if !env.mallocEntry then (.BADOUTOFMEMORY, none, st)
    else if !env.copyServerName then (.BADOUTOFMEMORY, none, st)
    else
      let counter := (st.serverOnNetworkRecordIdCounter + 1) % 2 ^ 32
      let st1 : Registry :=
        { st with
          serverOnNetworkRecordIdCounter := counter
          serverOnNetworkRecordIdLastReset :=
            if counter = 0 then env.dateTime_now
            else st.serverOnNetworkRecordIdLastReset }
      if !env.mallocHashEntry then (.BADOUTOFMEMORY, none, st1)
      else
        let listEntry : Ptr := st.heapNext
        let obj : serverOnNetwork :=
          { serverOnNetwork :=
              { UA_ServerOnNetwork_init with
                recordId := st.serverOnNetworkRecordIdCounter
                serverName := serverName }
            created := env.dateTime_now
            lastSeen := env.dateTime_nowMonotonic
            txtSet := false
            srvSet := false
            pathTmp := none }
        let hashIdx := hashIdx P fqdnMdnsRecord
        (.GOOD, some listEntry,
          { st1 with
            heap := setAt st.heap listEntry obj
            heapNext := st.heapNext + 1
            serverOnNetworkHash :=
              setAt st.serverOnNetworkHash hashIdx
                (listEntry :: st.serverOnNetworkHash hashIdx)
            serverOnNetwork := listEntry :: st.serverOnNetwork })

/-- `mdns_record_add_or_get`: the entry found or created (if any) and the new
state. -/
def mdns_record_add_or_get (P : Deps) (env : Env) (st : Registry)
    (record : List Char) (serverName : UA_String) (createNew : Bool) :
    Option Ptr × Registry :=
  match chainSearch st.heap serverName
      (st.serverOnNetworkHash (hashIdx P record)) with
  | some entry => (some entry, st)
  | none =>
    if !createNew then (none, st)
    else
      match UA_DiscoveryManager_addEntryToServersOnNetwork P env st record serverName with
      | (.GOOD, listEntry, st1) => (listEntry, st1)
      | (_, _, st1) => (none, st1)

/-- `UA_DiscoveryManager_removeEntryFromServersOnNetwork`. -/
def UA_DiscoveryManager_removeEntryFromServersOnNetwork (P : Deps)
    (dm : UA_DiscoveryManager) (st : Registry) (fqdnMdnsRecord : List Char)
    (serverName : UA_String) : UA_StatusCode × Registry :=
  match chainSearch st.heap serverName
      (st.serverOnNetworkHash (hashIdx P fqdnMdnsRecord)) with
  | none => (.BADNOTHINGTODO, st)
  | some entry =>
    let hashIdx := hashIdx P fqdnMdnsRecord
    let chains := setAt st.serverOnNetworkHash hashIdx
      ((st.serverOnNetworkHash hashIdx).erase entry)
    let old := st.heap entry
    let notify := dm.serverOnNetworkCallback && old.srvSet
    let view : UA_ServerOnNetwork := { old.serverOnNetwork with recordId := 0 }
    (.GOOD,
      { st with
        serverOnNetworkHash := chains
        observed :=
          if notify then st.observed ++ [{ removal := true, entry := entry, view := view }]
          else st.observed
        serverOnNetwork := st.serverOnNetwork.erase entry
        heap := setAt st.heap entry
          { old with serverOnNetwork := UA_ServerOnNetwork_init, pathTmp := none } })

/-! ## Assembly of PTR / SRV / TXT answers -/

/-- The entry type handed to the record callback by the mDNS library. -/
inductive mdns_entry_type_t where
  | QUESTION
  | ANSWER
  | AUTHORITY
  | ADDITIONAL
deriving DecidableEq, Repr

/-- The record type `rtype` as far as `query_callback` tells values apart. -/
inductive mdns_record_type_t where
  | PTR
  | SRV
  | TXT
  | OTHER
deriving DecidableEq, Repr

/-- The result of `mdns_record_parse_srv`. -/
structure mdns_record_srv_t where
  priority : Nat
  weight : Nat
  port : Nat
  name : List Char
deriving DecidableEq, Repr

/-- One key/value pair returned by `mdns_record_parse_txt`. -/
structure mdns_record_txt_t where
  key : List Char
  value : List Char
deriving DecidableEq, Repr

/-- What the parsers of the mDNS library return for the datagram and offsets
passed to `query_callback`: the owner name (`mdns_string_extract`), the PTR
target (`mdns_record_parse_ptr`), the SRV data (`mdns_record_parse_srv`) and the
TXT pairs (`mdns_record_parse_txt`, before the limit of 32 is applied). -/
structure Datagram where
  fromname : List Char
  service : List Char
  srv : mdns_record_srv_t
  txt : List mdns_record_txt_t
deriving DecidableEq, Repr

/-- The URL `snprintf` composes in the SRV branch of `query_callback` with the
format `opc.tcp://%.*s:%d`: the target host up to its first NUL and the port in
decimal. -/
def srvUri (srv : mdns_record_srv_t) : List Char :=
  "opc.tcp://".toList ++ cstr srv.name ++ [':'] ++ decimal srv.port

/-- The body of the `for` loop of the TXT branch of `query_callback` for one
pair. -/
def txtPair (P : Deps) (env : Env) (fromname : List Char) (st : Registry)
    (t : mdns_record_txt_t) : Registry :=
  if t.key.length > 0 ∧ strncmp t.key "path".toList t.key.length = 0 then
    if t.value.length > 0 then
      match UA_DiscoveryManager_addEntryToServersOnNetwork P env st fromname fromname with
      | (.GOOD, some listEntry, st1) =>
        let old := st1.heap listEntry
        { st1 with
          heap := setAt st1.heap listEntry
            { old with
              pathTmp := if env.copyPayload then some t.value else none
              txtSet := true } }
      | (_, _, st1) => st1
    else st
  else st

/-- `query_callback` (it always returns `0`; the result is the new state). -/
def query_callback (P : Deps) (env : Env) (user_data : Option UA_DiscoveryManager)
    (entry : mdns_entry_type_t) (rtype : mdns_record_type_t) (data : Datagram)
    (st : Registry) : Registry :=
  match user_data with
  | none => st
  | some dm =>
    match rtype with
    | .PTR =>
      if entry ≠ .ANSWER then st
      else if !strstrFound (cstr data.fromname) "_opcua-tcp".toList then st
      else if data.service.length > 0 then
        match UA_DiscoveryManager_addEntryToServersOnNetwork P env st
            data.service data.service with
        | (.GOOD, some listEntry, st1) =>
          { st1 with
            heap := setAt st1.heap listEntry
              { st1.heap listEntry with txtSet := false, srvSet := false } }
        | (_, _, st1) => st1
      else st
    | .SRV =>
      if entry ≠ .ANSWER then st
      else if data.srv.name.length > 0 then
        let uriBuf := srvUri data.srv
        let uriLen := uriBuf.length
        if uriLen > 0 ∧ uriLen < 256 then
          match UA_DiscoveryManager_addEntryToServersOnNetwork P env st
              data.fromname data.fromname with
          | (.GOOD, some listEntry, st1) =>
            let old := st1.heap listEntry
            let new : serverOnNetwork :=
              { old with
                serverOnNetwork :=
                  { old.serverOnNetwork with
                    discoveryUrl := if env.copyPayload then uriBuf else [] }
                srvSet := true
                lastSeen := env.dateTime_nowMonotonic }
            { st1 with
              heap := setAt st1.heap listEntry new
              observed :=
                if dm.serverOnNetworkCallback then
                  st1.observed ++
                    [{ removal := false, entry := listEntry, view := new.serverOnNetwork }]
                else st1.observed }
          | (_, _, st1) => st1
        else st
      else st
    | .TXT =>
      if entry ≠ .ANSWER then st
      else (data.txt.take 32).foldl (txtPair P env data.fromname) st
    | .OTHER => st

/-! ## Clearing and traversal -/

/-- `LIST_NEXT` of the element `p` of the list: the element after the first
occurrence of `p`. -/
def LIST_NEXT (l : List Ptr) (p : Ptr) : Option Ptr :=
  match l.dropWhile (fun q => q != p) with
  | _ :: q :: _ => some q
  | _ => none

/-- The `LIST_FOREACH_SAFE` loop of `UA_DiscoveryManager_clearServerOnNetwork`:
`son` is the cursor, its successor is read before the body runs.  The body
passes the data of the entry name both as the C string `fqdnMdnsRecord` and as
the `UA_String`.  The name buffer was made by `UA_String_copy` and holds the
bytes of the name and no terminator, so the C string read from it goes on into
the memory behind the buffer until it meets a NUL: `past son` are the bytes
that lie behind the name of the entry `son` when the call is made.  When a
removal finds another entry than `son` and that entry is the successor read
before, the C code goes on with a pointer to freed memory; the model then reads
the object as the removal left it.  No theorem below rests on that case.  The
fourth argument bounds the number of iterations. -/
def clearLoop (P : Deps) (dm : UA_DiscoveryManager) (past : Ptr → List Char) :
    Nat → Option Ptr → Registry → Registry
  | 0, _, st => st
  | _ + 1, none, st => st
  | fuel + 1, some son, st =>
    let son_tmp := LIST_NEXT st.serverOnNetwork son
    let recordStr := (st.heap son).serverOnNetwork.serverName
    let st1 := (UA_DiscoveryManager_removeEntryFromServersOnNetwork P dm st
      (recordStr ++ past son) recordStr).2
    clearLoop P dm past fuel son_tmp st1

/-- `UA_DiscoveryManager_clearServerOnNetwork`; `past` as for `clearLoop`.  The
walk over the list makes at most one iteration per element, so the length of
the list on entry bounds it. -/
def UA_DiscoveryManager_clearServerOnNetwork (P : Deps)
    (dm : Option UA_DiscoveryManager) (past : Ptr → List Char) (st : Registry) :
    UA_StatusCode × Registry :=
  match dm with
  | none => (.BADARGUMENTSMISSING, st)
  | some dm =>
    let st1 := clearLoop P dm past st.serverOnNetwork.length st.serverOnNetwork.head? st
    (.GOOD,
      { st1 with
        selfMdnsRecord := []
        serverOnNetworkHash := fun i =>
          if i < SERVER_ON_NETWORK_HASH_SIZE then [] else st1.serverOnNetworkHash i })

/-- `UA_DiscoveryManager_getServerOnNetworkList`: the first entry, if any. -/
def UA_DiscoveryManager_getServerOnNetworkList (st : Registry) : Option Ptr :=
  st.serverOnNetwork.head?

/-- `UA_DiscoveryManager_getNextServerOnNetworkRecord`. -/
def UA_DiscoveryManager_getNextServerOnNetworkRecord (st : Registry)
    (current : Ptr) : Option Ptr :=
  LIST_NEXT st.serverOnNetwork current

/-- `UA_DiscoveryManager_getServerOnNetworkRecordIdCounter`. -/
def UA_DiscoveryManager_getServerOnNetworkRecordIdCounter
    (dm : Option UA_DiscoveryManager) (st : Registry) : Nat :=
  match dm with
  | none => 0
  | some _ => st.serverOnNetworkRecordIdCounter

/-- `UA_DiscoveryManager_resetServerOnNetworkRecordCounter`. -/
def UA_DiscoveryManager_resetServerOnNetworkRecordCounter (env : Env)
    (dm : Option UA_DiscoveryManager) (st : Registry) : UA_StatusCode × Registry :=
  match dm with
  | none => (.BADARGUMENTSMISSING, st)
  | some _ =>
    (.GOOD,
      { st with
        serverOnNetworkRecordIdCounter := 0
        serverOnNetworkRecordIdLastReset := env.dateTime_now })

/-- `UA_DiscoveryManager_getServerOnNetworkCounterResetTime`. -/
def UA_DiscoveryManager_getServerOnNetworkCounterResetTime
    (dm : Option UA_DiscoveryManager) (st : Registry) : Int :=
  match dm with
  | none => 0
  | some _ => st.serverOnNetworkRecordIdLastReset

/-! ## Announcer -/

/-- The name `snprintf` composes in `UA_Discovery_updateMdnsForDiscoveryUrl`
from the server name (`%.*s`) and the hostname buffer (`%s`). -/
def serviceDomain (serverName hostname : UA_String) : List Char :=
  cstr serverName ++ ['-'] ++ cstr hostname ++ "._opcua-tcp._tcp.local.".toList

/-- `UA_Discovery_updateMdnsForDiscoveryUrl`. -/
def UA_Discovery_updateMdnsForDiscoveryUrl (P : Deps) (env : Env)
    (dm : Option UA_DiscoveryManager) (st : Registry) (serverName : UA_String)
    (discoveryUrl : UA_String) (isOnline : Bool) : Registry :=
  match dm with
  | none => st
  | some dm =>
    if !isOnline then st
    else
      match P.UA_parseEndpointUrl discoveryUrl with
      | none => st
      | some (hostname, _, _) =>
        if hostname.length = 0 then st
        else if ¬ hostname.length < 256 then st
        else
          let serviceDomainBuf := serviceDomain serverName hostname
          let len := serviceDomainBuf.length
          if len > 0 ∧ len < 256 then
            match UA_DiscoveryManager_addEntryToServersOnNetwork P env st
                serviceDomainBuf serviceDomainBuf with
            | (.GOOD, some listEntry, st1) =>
              let old := st1.heap listEntry
              let new : serverOnNetwork :=
                { old with
                  serverOnNetwork :=
                    { old.serverOnNetwork with
                      discoveryUrl := if env.copyPayload then discoveryUrl else [] }
                  srvSet := true
                  txtSet := true }
              { st1 with
                heap := setAt st1.heap listEntry new
                observed :=
                  if dm.serverOnNetworkCallback then
                    st1.observed ++
                      [{ removal := false, entry := listEntry, view := new.serverOnNetwork }]
                  else st1.observed }
            | (_, _, st1) => st1
          else st

/-! ## Sequences of operations -/

/-- One operation on the registry.  `findOrInsert` is
`UA_DiscoveryManager_addEntryToServersOnNetwork` called the way every call site
of the file calls it: one buffer is both the domain name and the server name. -/
inductive Op where
  | answer (dm : Option UA_DiscoveryManager) (env : Env) (entry : mdns_entry_type_t)
      (rtype : mdns_record_type_t) (data : Datagram)
  | announce (dm : Option UA_DiscoveryManager) (env : Env) (serverName : UA_String)
      (discoveryUrl : UA_String) (isOnline : Bool)
  | findOrInsert (env : Env) (name : List Char)
  | remove (dm : UA_DiscoveryManager) (fqdnMdnsRecord : List Char) (serverName : UA_String)
  | clear (dm : Option UA_DiscoveryManager) (past : Ptr → List Char)
  | resetCounter (dm : Option UA_DiscoveryManager) (env : Env)

/-- The effect of one operation. -/
def step (P : Deps) (st : Registry) : Op → Registry
  | .answer dm env entry rtype data => query_callback P env dm entry rtype data st
  | .announce dm env serverName discoveryUrl isOnline =>
    UA_Discovery_updateMdnsForDiscoveryUrl P env dm st serverName discoveryUrl isOnline
  | .findOrInsert env name =>
    (UA_DiscoveryManager_addEntryToServersOnNetwork P env st name name).2.2
  | .remove dm fqdnMdnsRecord serverName =>
    (UA_DiscoveryManager_removeEntryFromServersOnNetwork P dm st fqdnMdnsRecord serverName).2
  | .clear dm past => (UA_DiscoveryManager_clearServerOnNetwork P dm past st).2
  | .resetCounter dm env => (UA_DiscoveryManager_resetServerOnNetworkRecordCounter env dm st).2

/-- The state after a sequence of operations. -/
def run (P : Deps) (st : Registry) (ops : List Op) : Registry :=
  ops.foldl (step P) st

/-! ## Invariant and named intermediate states -/

/-- The server name stored in the entry at `p`. -/
def nameOf (st : Registry) (p : Ptr) : UA_String :=
  (st.heap p).serverOnNetwork.serverName

/-- The bucket in which the call sites of the file put an entry: the index of
the C string held in its name buffer. -/
def bucketOf (P : Deps) (st : Registry) (p : Ptr) : Nat :=
  hashIdx P (nameOf st p)

/-- Lock-step of the ordered list and the bucket chains: no element occurs
twice in the list or in a chain, a chain holds exactly the elements of the list
that belong to its bucket, two different entries of one bucket have names that
the chain search tells apart, and every entry was handed out by the
allocator. -/
structure WF (P : Deps) (st : Registry) : Prop where
  list_nodup : st.serverOnNetwork.Nodup
  chain_nodup : ∀ i, (st.serverOnNetworkHash i).Nodup
  mem_chain : ∀ i p, p ∈ st.serverOnNetworkHash i ↔
    p ∈ st.serverOnNetwork ∧ bucketOf P st p = i
  apart : ∀ p ∈ st.serverOnNetwork, ∀ q ∈ st.serverOnNetwork, p ≠ q →
    bucketOf P st p = bucketOf P st q → namesAgree (nameOf st p) (nameOf st q) = false
  fresh : ∀ p ∈ st.serverOnNetwork, p < st.heapNext

/-- The state after lines 149-151 of
`UA_DiscoveryManager_addEntryToServersOnNetwork`: the counter advanced. -/
def bumped (env : Env) (st : Registry) : Registry :=
  { st with
    serverOnNetworkRecordIdCounter := (st.serverOnNetworkRecordIdCounter + 1) % 2 ^ 32
    serverOnNetworkRecordIdLastReset :=
      if (st.serverOnNetworkRecordIdCounter + 1) % 2 ^ 32 = 0 then env.dateTime_now
      else st.serverOnNetworkRecordIdLastReset }

/-- The object a successful creation writes. -/
def freshEntry (env : Env) (st : Registry) (serverName : UA_String) : serverOnNetwork :=
  { serverOnNetwork :=
      { UA_ServerOnNetwork_init with
        recordId := st.serverOnNetworkRecordIdCounter
        serverName := serverName }
    created := env.dateTime_now
    lastSeen := env.dateTime_nowMonotonic
    txtSet := false
    srvSet := false
    pathTmp := none }

/-- The state after a successful creation. -/
def inserted (P : Deps) (env : Env) (st : Registry) (fqdnMdnsRecord : List Char)
    (serverName : UA_String) : Registry :=
  { bumped env st with
    heap := setAt st.heap st.heapNext (freshEntry env st serverName)
    heapNext := st.heapNext + 1
    serverOnNetworkHash :=
      setAt st.serverOnNetworkHash (hashIdx P fqdnMdnsRecord)
        (st.heapNext :: st.serverOnNetworkHash (hashIdx P fqdnMdnsRecord))
    serverOnNetwork := st.heapNext :: st.serverOnNetwork }

/-- The state after a removal that found `entry`. -/
def removed (P : Deps) (dm : UA_DiscoveryManager) (st : Registry)
    (fqdnMdnsRecord : List Char) (entry : Ptr) : Registry :=
  { st with
    serverOnNetworkHash := setAt st.serverOnNetworkHash (hashIdx P fqdnMdnsRecord)
      ((st.serverOnNetworkHash (hashIdx P fqdnMdnsRecord)).erase entry)
    observed :=
      if dm.serverOnNetworkCallback && (st.heap entry).srvSet then
        st.observed ++ [{ removal := true, entry := entry,
                          view := { (st.heap entry).serverOnNetwork with recordId := 0 } }]
      else st.observed
    serverOnNetwork := st.serverOnNetwork.erase entry
    heap := setAt st.heap entry
      { st.heap entry with serverOnNetwork := UA_ServerOnNetwork_init, pathTmp := none } }

/-- The call the removal path makes to the listener for the entry at `p`: the
view of the entry with `recordId` overwritten by `0`. -/
def removalOf (st : Registry) (p : Ptr) : Observation :=
  { removal := true, entry := p,
    view := { (st.heap p).serverOnNetwork with recordId := 0 } }

/-- Every call recorded from the removal path carried `recordId = 0`. -/
def RemovalsZero (st : Registry) : Prop :=
  ∀ o ∈ st.observed, o.removal = true → o.view.recordId = 0

/-- The answers of a discovery of one peer: a PTR answer with the given owner
that points to the domain `d`, an SRV answer owned by `d` with target host `h`
and port `port`, and a TXT answer owned by `d` that carries `path=v`. -/
def discoverOnePeer (e1 e2 e3 : Env) (dm : UA_DiscoveryManager) (owner d h : List Char)
    (port : Nat) (v : List Char) : List Op :=
  [ .answer (some dm) e1 .ANSWER .PTR
      { fromname := owner, service := d, srv := ⟨0, 0, 0, []⟩, txt := [] },
    .answer (some dm) e2 .ANSWER .SRV
      { fromname := d, service := [], srv := ⟨0, 0, port, h⟩, txt := [] },
    .answer (some dm) e3 .ANSWER .TXT
      { fromname := d, service := [], srv := ⟨0, 0, 0, []⟩,
        txt := [{ key := "path".toList, value := v }] } ]

/-- The state a successful creation followed by the writes of the PTR branch
leaves. -/
def afterPtr (P : Deps) (env : Env) (st : Registry) (d : List Char) : Registry :=
  { inserted P env st d d with
    heap := setAt (inserted P env st d d).heap st.heapNext
      { (inserted P env st d d).heap st.heapNext with txtSet := false, srvSet := false } }

/-! ## Concrete inputs used in examples -/

/-- An environment in which every allocation succeeds. -/
def envOk (now mono : Int) : Env :=
  { dateTime_now := now, dateTime_nowMonotonic := mono, mallocEntry := true,
    copyServerName := true, mallocHashEntry := true, copyPayload := true }

/-- A discovery manager with a listener registered. -/
def dmListening : UA_DiscoveryManager := { serverOnNetworkCallback := true }

/-- A stand-in for `UA_parseEndpointUrl` that accepts `opc.tcp://host[:port][/path]`:
the hostname is what follows the scheme up to the first `:` or `/`, the port
defaults to 4840. -/
def sampleParse (url : UA_String) : Option (UA_String × Nat × UA_String) :=
  if startsWith "opc.tcp://".toList url then
    let rest := url.drop 10
    let afterHost := rest.dropWhile (fun c => c != ':' && c != '/')
    let port :=
      match afterHost with
      | ':' :: more =>
        (more.takeWhile Char.isDigit).foldl (fun n c => 10 * n + (c.toNat - 48)) 0
      | _ => 4840
    some (rest.takeWhile (fun c => c != ':' && c != '/'), port,
      afterHost.dropWhile (fun c => c != '/'))
  else none

/-- A stand-in for the functions defined outside the file: the hash is the sum
of the byte values. -/
def sampleDeps : Deps :=
  { UA_ByteString_hash := fun s => (s.map Char.toNat).sum
    UA_parseEndpointUrl := sampleParse }

/-- First call of the two insertions for one domain name with two different
server names: domain `x`, server name `a`, on the empty registry. -/
def twoNamesFirst : UA_StatusCode × Option Ptr × Registry :=
  UA_DiscoveryManager_addEntryToServersOnNetwork sampleDeps (envOk 0 0) mdnsPrivateData
    "x".toList "a".toList

/-- Second call: the same domain `x` with server name `b`. -/
def twoNamesSecond : UA_StatusCode × Option Ptr × Registry :=
  UA_DiscoveryManager_addEntryToServersOnNetwork sampleDeps (envOk 0 0) twoNamesFirst.2.2
    "x".toList "b".toList

/-- The state a successful creation followed by the writes of the announcer
leaves. -/
def afterAnnounce (P : Deps) (env : Env) (dm : UA_DiscoveryManager) (st : Registry)
    (name : List Char) (discoveryUrl : UA_String) : Registry :=
  { inserted P env st name name with
    heap := setAt (inserted P env st name name).heap st.heapNext
      { (inserted P env st name name).heap st.heapNext with
        serverOnNetwork :=
          { ((inserted P env st name name).heap st.heapNext).serverOnNetwork with
            discoveryUrl := if env.copyPayload then discoveryUrl else [] }
        srvSet := true
        txtSet := true }
    observed :=
      if dm.serverOnNetworkCallback then
        (inserted P env st name name).observed ++
          [{ removal := false, entry := st.heapNext,
             view :=
              { ((inserted P env st name name).heap st.heapNext).serverOnNetwork with
                discoveryUrl := if env.copyPayload then discoveryUrl else [] } }]
      else (inserted P env st name name).observed }

/-- The registry after one announcement of `srvX` at `opc.tcp://h:4841/X` on the
fresh registry, with a listener registered. -/
def announceFresh : Registry :=
  run sampleDeps mdnsPrivateData
    [.announce (some dmListening) (envOk 1 1) "srvX".toList "opc.tcp://h:4841/X".toList true]

/-- The fresh registry with the record-id counter preloaded to `0xFFFFFFFE`. -/
def preloaded : Registry :=
  { mdnsPrivateData with serverOnNetworkRecordIdCounter := 0xFFFFFFFE }

/-- Three creations in succession on the preloaded registry (names `a`, `b`,
`c`, wall clock 100, 200, 300). -/
def wrapFirst : UA_StatusCode × Option Ptr × Registry :=
  UA_DiscoveryManager_addEntryToServersOnNetwork sampleDeps (envOk 100 1) preloaded
    "a".toList "a".toList

/-- The second creation. -/
def wrapSecond : UA_StatusCode × Option Ptr × Registry :=
  UA_DiscoveryManager_addEntryToServersOnNetwork sampleDeps (envOk 200 2) wrapFirst.2.2
    "b".toList "b".toList

/-- The third creation. -/
def wrapThird : UA_StatusCode × Option Ptr × Registry :=
  UA_DiscoveryManager_addEntryToServersOnNetwork sampleDeps (envOk 300 3) wrapSecond.2.2
    "c".toList "c".toList

/-- Two creations in succession on the fresh registry: the first, name `a`. -/
def pairFirst : UA_StatusCode × Option Ptr × Registry :=
  UA_DiscoveryManager_addEntryToServersOnNetwork sampleDeps (envOk 1 1) mdnsPrivateData
    "a".toList "a".toList

/-- Two domain names of one bucket under `sampleDeps` (byte sums 97 and 1097),
the first a proper initial segment of the second. -/
def shortName : List Char := "a".toList

/-- The longer of the two names. -/
def longName : List Char := "adddddddddd".toList

/-- Insertion of `shortName` (as its own server name) on the empty registry. -/
def aliasFirst : UA_StatusCode × Option Ptr × Registry :=
  UA_DiscoveryManager_addEntryToServersOnNetwork sampleDeps (envOk 1 1) mdnsPrivateData
    shortName shortName

/-- Insertion of `longName` (as its own server name) after that. -/
def aliasSecond : UA_StatusCode × Option Ptr × Registry :=
  UA_DiscoveryManager_addEntryToServersOnNetwork sampleDeps (envOk 2 2) aliasFirst.2.2
    longName longName

/-- The registry after two successful creations on the empty registry, each
name used as its own server name. -/
def bothInserted (P : Deps) (env1 env2 : Env) (f1 f2 : List Char) : Registry :=
  inserted P env2 (inserted P env1 mdnsPrivateData f1 f1) f2 f2

/-- The state a successful creation followed by the writes of the SRV branch
leaves. -/
def afterSrv (P : Deps) (env : Env) (dm : UA_DiscoveryManager) (st : Registry)
    (name : List Char) (uri : UA_String) : Registry :=
  { inserted P env st name name with
    heap := setAt (inserted P env st name name).heap st.heapNext
      { (inserted P env st name name).heap st.heapNext with
        serverOnNetwork :=
          { ((inserted P env st name name).heap st.heapNext).serverOnNetwork with
            discoveryUrl := if env.copyPayload then uri else [] }
        srvSet := true
        lastSeen := env.dateTime_nowMonotonic }
    observed :=
      if dm.serverOnNetworkCallback then
        (inserted P env st name name).observed ++
          [{ removal := false, entry := st.heapNext,
             view :=
              { ((inserted P env st name name).heap st.heapNext).serverOnNetwork with
                discoveryUrl := if env.copyPayload then uri else [] } }]
      else (inserted P env st name name).observed }

/-- The fresh registry with `selfMdnsRecord` set to the given name. -/
def withSelf (n : UA_String) : Registry :=
  { mdnsPrivateData with selfMdnsRecord := n }

/-- Removal of `longName` from the registry that holds only the entry created
for `shortName`. -/
def aliasRemove : UA_StatusCode × Registry :=
  UA_DiscoveryManager_removeEntryFromServersOnNetwork sampleDeps dmListening aliasFirst.2.2
    longName longName

/-- The statement "the byte string `hay` contains the substring `needle`". -/
def Contains (hay needle : List Char) : Prop :=
  ∃ pre post, hay = pre ++ needle ++ post

/-- The service instance name as the specification writes it: server name, a
dash, the hostname and the service suffix. -/
def instanceName (s h : UA_String) : List Char :=
  s ++ ['-'] ++ h ++ "._opcua-tcp._tcp.local.".toList

/-- A hostname with a NUL byte in it. -/
def nulHost : UA_String := ['a', NUL, 'b']

/-- The URL `opc.tcp://` followed by `nulHost`. -/
def nulUrl : UA_String := "opc.tcp://".toList ++ nulHost

/-- The registry after announcing `srvX` at `nulUrl` on the fresh registry. -/
def announceNul : Registry :=
  UA_Discovery_updateMdnsForDiscoveryUrl sampleDeps (envOk 1 1) (some dmListening)
    mdnsPrivateData "srvX".toList nulUrl true

/-- The discovery URL as the specification writes it: `opc.tcp://`, the host,
a colon and the port in decimal. -/
def specUri (h : List Char) (port : Nat) : List Char :=
  "opc.tcp://".toList ++ h ++ [':'] ++ decimal port

/-- The registry that holds only the entry of `shortName`, after an SRV answer
owned by `longName` (target `bar.local`, port 4840). -/
def aliasSrv : Registry :=
  query_callback sampleDeps (envOk 5 5) (some dmListening) .ANSWER .SRV
    { fromname := longName, service := [], srv := ⟨0, 0, 4840, "bar.local".toList⟩,
      txt := [] }
    aliasFirst.2.2

/-- The test the TXT branch of `query_callback` applies to a key: it is not
empty and `strncmp(key, "path", key.length)` is `0`. -/
def keyAccepted (key : List Char) : Bool :=
  decide (key.length > 0 ∧ strncmp key "path".toList key.length = 0)

/-- A pair the TXT branch acts on: its key passes the test and its value is not
empty. -/
def txtConsumed (t : mdns_record_txt_t) : Bool :=
  keyAccepted t.key && decide (t.value.length > 0)

/-- The state a successful creation followed by the writes of the TXT branch
leaves. -/
def afterTxt (P : Deps) (env : Env) (st : Registry) (name : List Char) (v : List Char) :
    Registry :=
  { inserted P env st name name with
    heap := setAt (inserted P env st name name).heap st.heapNext
      { (inserted P env st name name).heap st.heapNext with
        pathTmp := if env.copyPayload then some v else none
        txtSet := true } }

/-- A TXT answer owned by `instanceA._opcua-tcp._tcp.local.` with the pairs
`version=1` and `path=/Server`. -/
def txtWithPath : Datagram :=
  { fromname := "instanceA._opcua-tcp._tcp.local.".toList, service := [],
    srv := ⟨0, 0, 0, []⟩,
    txt := [{ key := "version".toList, value := "1".toList },
            { key := "path".toList, value := "/Server".toList }] }

/-- The registry that holds only the entry of `shortName`, after a PTR answer
owned by `foo._opcua-tcp._tcp.local.` that points to `longName`. -/
def aliasPtr : Registry :=
  query_callback sampleDeps (envOk 5 5) (some dmListening) .ANSWER .PTR
    { fromname := "foo._opcua-tcp._tcp.local.".toList, service := longName,
      srv := ⟨0, 0, 0, []⟩, txt := [] }
    aliasFirst.2.2

/-- A PTR answer of a foreign service: owner `_printer._tcp.local.`, target
`laser._printer._tcp.local.`. -/
def printerPtr : Datagram :=
  { fromname := "_printer._tcp.local.".toList,
    service := "laser._printer._tcp.local.".toList, srv := ⟨0, 0, 0, []⟩, txt := [] }

/-- Every allocation of the call succeeds. -/
def Env.allocOk (env : Env) : Bool :=
  env.mallocEntry && env.copyServerName && env.mallocHashEntry && env.copyPayload

/-- The operation runs with every allocation succeeding. -/
def Op.allocOk : Op → Bool
  | .answer _ env _ _ _ => env.allocOk
  | .announce _ env _ _ _ => env.allocOk
  | .findOrInsert env _ => env.allocOk
  | .remove _ _ _ => true
  | .clear _ _ => true
  | .resetCounter _ _ => true

/-- Every live entry with `srvSet` has a non-empty `discoveryUrl`. -/
def SrvUrl (st : Registry) : Prop :=
  ∀ p ∈ st.serverOnNetwork, (st.heap p).srvSet = true →
    0 < (st.heap p).serverOnNetwork.discoveryUrl.length

/-- What is assumed of `UA_parseEndpointUrl`, which is defined outside the
file: the hostname it returns is a part of the URL, so it is not longer than
the URL. -/
def HostWithinUrl (P : Deps) : Prop :=
  ∀ url h port path, P.UA_parseEndpointUrl url = some (h, port, path) →
    h.length ≤ url.length

/-- The discovery of one peer by an SRV answer and a TXT answer, followed by an
announcement of the local server. -/
def srvThenAnnounce : List Op :=
  [ .answer (some dmListening) (envOk 1 1) .ANSWER .SRV
      { fromname := "instanceA._opcua-tcp._tcp.local.".toList, service := [],
        srv := ⟨0, 0, 4840, "bar.local".toList⟩, txt := [] },
    .answer (some dmListening) (envOk 2 2) .ANSWER .TXT txtWithPath,
    .announce (some dmListening) (envOk 3 3) "srvX".toList "opc.tcp://h:4841/X".toList true ]

/-- An SRV answer at monotonic time 20 that creates the entry of
`instanceA._opcua-tcp._tcp.local.`, then a TXT answer with `path=/Server` for
the same owner at monotonic time 30. -/
def staleOps : List Op :=
  [ .answer (some dmListening) (envOk 11 20) .ANSWER .SRV
      { fromname := "instanceA._opcua-tcp._tcp.local.".toList, service := [],
        srv := ⟨0, 0, 4840, "bar.local".toList⟩, txt := [] },
    .answer (some dmListening) (envOk 12 30) .ANSWER .TXT txtWithPath ]

/-- The registry after `staleOps`. -/
def stale : Registry := run sampleDeps mdnsPrivateData staleOps

/-- The comparison of names in the words of the specification: the two names
agree on their first `min` of the two lengths bytes. -/
def agreeOnMin (entryName serverName : UA_String) : Bool :=
  entryName.take (min serverName.length entryName.length)
    == serverName.take (min serverName.length entryName.length)

/-- The lookup in the words of the specification: the first entry, in chain
order, of the bucket of `f` whose `serverName` agrees with `s` on the first
`min` of the lengths bytes. -/
def specLookup (P : Deps) (st : Registry) (f : List Char) (s : UA_String) : Option Ptr :=
  (st.serverOnNetworkHash (hashIdx P f)).find? (fun p => agreeOnMin (nameOf st p) s)

/-- Three insertions on the empty registry, each name used as its own server
name; under `sampleDeps` the three names fall into one bucket.  The first:
`abzzzzzzz0`. -/
def tripFirst : UA_StatusCode × Option Ptr × Registry :=
  UA_DiscoveryManager_addEntryToServersOnNetwork sampleDeps (envOk 1 1) mdnsPrivateData
    "abzzzzzzz0".toList "abzzzzzzz0".toList

/-- The second: `aczzzzzzz/`. -/
def tripSecond : UA_StatusCode × Option Ptr × Registry :=
  UA_DiscoveryManager_addEntryToServersOnNetwork sampleDeps (envOk 2 2) tripFirst.2.2
    "aczzzzzzz/".toList "aczzzzzzz/".toList

/-- The third: `a`, a proper initial segment of both names. -/
def tripThird : UA_StatusCode × Option Ptr × Registry :=
  UA_DiscoveryManager_addEntryToServersOnNetwork sampleDeps (envOk 3 3) tripSecond.2.2
    "a".toList "a".toList

/-! ## Enumeration and unlinking -/

/-- Modelled from the spec: the enumeration a consumer of the registry makes,
`first()` and then `next(cursor)` for as long as the answer is not null.  The
second argument is the answer of the previous call; the first bounds the
number of calls of `next`.  The result is the sequence of entries visited once
an answer was null, and nothing when the bound was used up before that. -/
def traverse (st : Registry) : Nat → Option Ptr → Option (List Ptr)
  | _, none => some []
  | 0, some _ => none
  | fuel + 1, some cursor =>
    (traverse st fuel (UA_DiscoveryManager_getNextServerOnNetworkRecord st cursor)).map
      (fun visited => cursor :: visited)

/-- The ordered list runs from the entry created last to the entry created
first.  An entry is identified by the address it was allocated at, and the
allocator hands out increasing addresses (`heapNext`), so of two entries the
one with the larger address was created later. -/
def NewestFirst (st : Registry) : Prop :=
  st.serverOnNetwork.Pairwise (fun p q => q < p)

/-- The `while(hash_entry)` loop under `/* remove from hash */` in
`UA_DiscoveryManager_removeEntryFromServersOnNetwork`, on a chain given by the
entries its nodes reference.  The second argument holds the nodes already
passed (`prevEntry` is its last one), the third starts at `hash_entry`.  On a
node that references `entry` the node is unlinked, from the bucket head if
nothing was passed and from `prevEntry->next` otherwise, and the loop breaks.
The result tells whether `hash_entry` is a node when the loop ends (it is
`NULL` when the loop ran off the end of the chain) and gives the chain the
loop leaves. -/
def unlinkLoop (entry : Ptr) : List Ptr → List Ptr → Bool × List Ptr
  | passed, [] => (false, passed)
  | passed, node :: next =>
    if node = entry then (true, passed ++ next)
    else unlinkLoop entry (passed ++ [node]) next

/-- A third insertion after `tripSecond`, of the name `adzzzzzzz.`, which falls
into the bucket of the first two and compares equal to neither. -/
def tripOther : UA_StatusCode × Option Ptr × Registry :=
  UA_DiscoveryManager_addEntryToServersOnNetwork sampleDeps (envOk 3 3) tripSecond.2.2
    "adzzzzzzz.".toList "adzzzzzzz.".toList

/-- Behind every name buffer that the operation reads as a C string lies a NUL:
the read ends where the name ends. -/
def Op.terminated : Op → Prop
  | .clear _ past => ∀ p, past p = []
  | _ => True

/-- The part of the invariant that concerns the ordered list alone: no entry
occurs twice in it and every entry of it was handed out by the allocator. -/
structure ListOk (st : Registry) : Prop where
  list_nodup : st.serverOnNetwork.Nodup
  fresh : ∀ p ∈ st.serverOnNetwork, p < st.heapNext

/-- The answers of the platform when a creation fails at the allocation of its
chain node: the entry and the copy of its name are allocated, the node is
not. -/
def envNoNode (now mono : Int) : Env :=
  { dateTime_now := now, dateTime_nowMonotonic := mono, mallocEntry := true,
    copyServerName := true, mallocHashEntry := false, copyPayload := true }

/-- From `st` to `st'` the allocator did not go back, and if it handed out no
entry the record-id counter is what it was. -/
def CounterKept (st st' : Registry) : Prop :=
  st.heapNext ≤ st'.heapNext ∧
  (st'.heapNext = st.heapNext →
    st'.serverOnNetworkRecordIdCounter = st.serverOnNetworkRecordIdCounter)

/-- Memory in which the byte `x` and then a NUL lie behind every name
buffer. -/
def strayX : Ptr → List Char := fun _ => "x".toList

/-- The state `st` with `selfMdnsRecord` holding `n`. -/
def setSelf (n : UA_String) (st : Registry) : Registry :=
  { st with selfMdnsRecord := n }

/-- An SRV answer owned by `self._opcua-tcp._tcp.local.`, target `h.local`,
port 4840. -/
def srvOfSelf : Datagram :=
  { fromname := "self._opcua-tcp._tcp.local.".toList, service := [],
    srv := ⟨0, 0, 4840, "h.local".toList⟩, txt := [] }

/-! # Theorems -/

/-! ## Lemmas on strings and on the chain search -/

theorem strncmp_self (s : List Char) (n : Nat) : strncmp s s n = 0 := by
  induction n generalizing s with
  | zero => simp [strncmp]
  | succ n ih =>
    unfold strncmp
    simp [ih]

theorem char_sub_eq_zero {c1 c2 : Char} (h : (c1.toNat : Int) - (c2.toNat : Int) = 0) :
    c1 = c2 := by
  have h1 : c1.toNat = c2.toNat := by omega
  apply Char.ext
  apply UInt32.ext
  exact h1

theorem strncmp_comm (a b : List Char) (n : Nat) :
    strncmp a b n = 0 ↔ strncmp b a n = 0 := by
  induction n generalizing a b with
  | zero => simp [strncmp]
  | succ n ih =>
    unfold strncmp
    by_cases h : a.headD NUL = b.headD NUL
    · simp only [h, ne_eq, not_true_eq_false, if_false]
      by_cases h0 : b.headD NUL = NUL
      · rw [if_pos h0, if_pos h0]
      · rw [if_neg h0, if_neg h0]
        exact ih a.tail b.tail
    · have h' : ¬ b.headD NUL = a.headD NUL := fun e => h e.symm
      simp only [ne_eq, h, h', not_false_eq_true, if_true]
      constructor
      · intro e; exact absurd (char_sub_eq_zero e) h
      · intro e; exact absurd (char_sub_eq_zero e) h'

theorem namesAgree_self (s : UA_String) : namesAgree s s = true := by
  simp [namesAgree, strncmp_self]

theorem namesAgree_comm (a b : UA_String) : namesAgree a b = namesAgree b a := by
  have hlen : (if b.length > a.length then a.length else b.length)
      = (if a.length > b.length then b.length else a.length) := by
    split <;> split <;> omega
  simp only [namesAgree, hlen]
  exact decide_eq_decide.mpr (strncmp_comm _ _ _)

theorem chainSearch_eq_none {heap : Ptr → serverOnNetwork} {s : UA_String} {l : List Ptr} :
    chainSearch heap s l = none ↔
      ∀ p ∈ l, namesAgree (heap p).serverOnNetwork.serverName s = false := by
  induction l with
  | nil => simp [chainSearch]
  | cons q l ih =>
    unfold chainSearch
    by_cases h : namesAgree (heap q).serverOnNetwork.serverName s = true
    · simp [h]
    · simp only [Bool.not_eq_true] at h
      simp only [h, Bool.false_eq_true, if_false, ih, List.mem_cons, forall_eq_or_imp, true_and]

theorem chainSearch_some {heap : Ptr → serverOnNetwork} {s : UA_String} {l : List Ptr}
    {p : Ptr} (h : chainSearch heap s l = some p) :
    p ∈ l ∧ namesAgree (heap p).serverOnNetwork.serverName s = true := by
  induction l with
  | nil => simp [chainSearch] at h
  | cons q l ih =>
    unfold chainSearch at h
    by_cases hq : namesAgree (heap q).serverOnNetwork.serverName s = true
    · simp only [hq, if_true, Option.some.injEq] at h
      subst h
      exact ⟨List.mem_cons_self _ _, hq⟩
    · simp only [hq, if_false] at h
      exact ⟨List.mem_cons_of_mem _ (ih h).1, (ih h).2⟩

theorem chainSearch_congr {h1 h2 : Ptr → serverOnNetwork} {s : UA_String} {l : List Ptr}
    (h : ∀ p ∈ l, (h1 p).serverOnNetwork.serverName = (h2 p).serverOnNetwork.serverName) :
    chainSearch h1 s l = chainSearch h2 s l := by
  induction l with
  | nil => simp [chainSearch]
  | cons q l ih =>
    unfold chainSearch
    rw [h q (List.mem_cons_self _ _), ih (fun p hp => h p (List.mem_cons_of_mem _ hp))]

theorem chainSearch_unique {heap : Ptr → serverOnNetwork} {s : UA_String} {l : List Ptr}
    {p : Ptr} (hp : p ∈ l) (ha : namesAgree (heap p).serverOnNetwork.serverName s = true)
    (hu : ∀ q ∈ l, q ≠ p → namesAgree (heap q).serverOnNetwork.serverName s = false) :
    chainSearch heap s l = some p := by
  induction l with
  | nil => simp at hp
  | cons q l ih =>
    unfold chainSearch
    by_cases hqp : q = p
    · subst hqp; simp [ha]
    · have hq := hu q (List.mem_cons_self _ _) hqp
      simp only [hq, Bool.false_eq_true, if_false]
      have hp' : p ∈ l := by
        rcases List.mem_cons.mp hp with e | e
        · exact absurd e.symm hqp
        · exact e
      exact ih hp' (fun r hr hne => hu r (List.mem_cons_of_mem _ hr) hne)

/-! ## The three outcomes of an insertion -/

theorem addEntry_found {P : Deps} {env : Env} {st : Registry} {f : List Char}
    {s : UA_String} {e : Ptr}
    (h : chainSearch st.heap s (st.serverOnNetworkHash (hashIdx P f)) = some e) :
    UA_DiscoveryManager_addEntryToServersOnNetwork P env st f s
      = (.BADALREADYEXISTS, some e, st) := by
  simp [UA_DiscoveryManager_addEntryToServersOnNetwork, h]

theorem addEntry_new {P : Deps} {env : Env} {st : Registry} {f : List Char}
    {s : UA_String}
    (h : chainSearch st.heap s (st.serverOnNetworkHash (hashIdx P f)) = none) :
    UA_DiscoveryManager_addEntryToServersOnNetwork P env st f s =
      if env.mallocEntry = true ∧ env.copyServerName = true then
        if env.mallocHashEntry = true then (.GOOD, some st.heapNext, inserted P env st f s)
        else (.BADOUTOFMEMORY, none, bumped env st)
      else (.BADOUTOFMEMORY, none, st) := by
  unfold UA_DiscoveryManager_addEntryToServersOnNetwork
  rw [h]
  cases h1 : env.mallocEntry <;> cases h2 : env.copyServerName <;>
    cases h3 : env.mallocHashEntry <;> simp [inserted, bumped, freshEntry]

theorem removeEntry_none {P : Deps} {dm : UA_DiscoveryManager} {st : Registry}
    {f : List Char} {s : UA_String}
    (h : chainSearch st.heap s (st.serverOnNetworkHash (hashIdx P f)) = none) :
    UA_DiscoveryManager_removeEntryFromServersOnNetwork P dm st f s
      = (.BADNOTHINGTODO, st) := by
  simp [UA_DiscoveryManager_removeEntryFromServersOnNetwork, h]

theorem removeEntry_some {P : Deps} {dm : UA_DiscoveryManager} {st : Registry}
    {f : List Char} {s : UA_String} {e : Ptr}
    (h : chainSearch st.heap s (st.serverOnNetworkHash (hashIdx P f)) = some e) :
    UA_DiscoveryManager_removeEntryFromServersOnNetwork P dm st f s
      = (.GOOD, removed P dm st f e) := by
  simp [UA_DiscoveryManager_removeEntryFromServersOnNetwork, h, removed]

/-! ## Preservation of the lock-step invariant -/

theorem setAt_same {α : Type} (f : Nat → α) (i : Nat) (v : α) : setAt f i v i = v := by
  simp [setAt]

theorem setAt_ne {α : Type} (f : Nat → α) {i j : Nat} (v : α) (h : j ≠ i) :
    setAt f i v j = f j := by
  simp [setAt, h]

theorem WF_init (P : Deps) : WF P mdnsPrivateData := by
  constructor <;> simp [mdnsPrivateData]

theorem WF.congr {P : Deps} {st st' : Registry} (h : WF P st)
    (hh : st'.serverOnNetworkHash = st.serverOnNetworkHash)
    (hl : st'.serverOnNetwork = st.serverOnNetwork)
    (hn : ∀ p ∈ st.serverOnNetwork, nameOf st' p = nameOf st p)
    (hf : st.heapNext ≤ st'.heapNext) : WF P st' := by
  have hb : ∀ p ∈ st.serverOnNetwork, bucketOf P st' p = bucketOf P st p := by
    intro p hp; simp only [bucketOf, hn p hp]
  constructor
  · rw [hl]; exact h.list_nodup
  · rw [hh]; exact h.chain_nodup
  · intro i p
    rw [hh, hl, h.mem_chain i p]
    constructor
    · rintro ⟨h1, h2⟩; exact ⟨h1, by rw [hb p h1]; exact h2⟩
    · rintro ⟨h1, h2⟩; exact ⟨h1, by rw [← hb p h1]; exact h2⟩
  · intro p hp q hq hne hbk
    rw [hl] at hp hq
    rw [hb p hp, hb q hq] at hbk
    rw [hn p hp, hn q hq]
    exact h.apart p hp q hq hne hbk
  · intro p hp
    rw [hl] at hp
    exact Nat.lt_of_lt_of_le (h.fresh p hp) hf

theorem WF_bumped {P : Deps} {env : Env} {st : Registry} (h : WF P st) :
    WF P (bumped env st) :=
  h.congr rfl rfl (fun _ _ => rfl) (Nat.le_refl _)

theorem heapNext_not_mem {P : Deps} {st : Registry} (h : WF P st) :
    st.heapNext ∉ st.serverOnNetwork := fun hm =>
  Nat.lt_irrefl _ (h.fresh _ hm)

theorem nameOf_inserted_new {P : Deps} {env : Env} {st : Registry} {f : List Char}
    {s : UA_String} : nameOf (inserted P env st f s) st.heapNext = s := by
  simp [nameOf, inserted, setAt, freshEntry]

theorem nameOf_inserted_old {P : Deps} {env : Env} {st : Registry} {f : List Char}
    {s : UA_String} {p : Ptr} (hp : p ≠ st.heapNext) :
    nameOf (inserted P env st f s) p = nameOf st p := by
  simp [nameOf, inserted, setAt, hp]

theorem WF_inserted {P : Deps} {env : Env} {st : Registry} {s : UA_String} (h : WF P st)
    (hnone : chainSearch st.heap s (st.serverOnNetworkHash (hashIdx P s)) = none) :
    WF P (inserted P env st s s) := by
  have hfresh := heapNext_not_mem h
  have hold : ∀ p ∈ st.serverOnNetwork, p ≠ st.heapNext := fun p hp e => hfresh (e ▸ hp)
  have hbnew : bucketOf P (inserted P env st s s) st.heapNext = hashIdx P s := by
    simp only [bucketOf, nameOf_inserted_new]
  have hbold : ∀ p, p ≠ st.heapNext →
      bucketOf P (inserted P env st s s) p = bucketOf P st p := by
    intro p hp; simp only [bucketOf, nameOf_inserted_old hp]
  have hchain : ∀ i, (inserted P env st s s).serverOnNetworkHash i =
      if i = hashIdx P s then st.heapNext :: st.serverOnNetworkHash i
      else st.serverOnNetworkHash i := by
    intro i
    by_cases hi : i = hashIdx P s
    · subst hi; simp [inserted, setAt]
    · simp [inserted, setAt, hi]
  have hlist : (inserted P env st s s).serverOnNetwork = st.heapNext :: st.serverOnNetwork := rfl
  have hnotin : ∀ i, st.heapNext ∉ st.serverOnNetworkHash i := fun i hm =>
    hfresh ((h.mem_chain i _).1 hm).1
  have hnew_apart : ∀ q ∈ st.serverOnNetwork, bucketOf P st q = hashIdx P s →
      namesAgree (nameOf st q) s = false := by
    intro q hq hb
    exact chainSearch_eq_none.mp hnone q ((h.mem_chain _ q).2 ⟨hq, hb⟩)
  constructor
  · rw [hlist]; exact List.nodup_cons.mpr ⟨hfresh, h.list_nodup⟩
  · intro i
    rw [hchain i]
    split
    · exact List.nodup_cons.mpr ⟨hnotin i, h.chain_nodup i⟩
    · exact h.chain_nodup i
  · intro i p
    rw [hchain i, hlist]
    by_cases hp : p = st.heapNext
    · subst hp
      rw [hbnew]
      by_cases hi : i = hashIdx P s
      · simp [hi]
      · simp only [hi, if_false, List.mem_cons, true_or, true_and]
        constructor
        · intro hm; exact absurd hm (hnotin i)
        · intro e; exact absurd e.symm hi
    · rw [hbold p hp]
      have : p ∈ st.heapNext :: st.serverOnNetwork ↔ p ∈ st.serverOnNetwork := by
        simp [hp]
      rw [this, ← h.mem_chain i p]
      split
      · simp [hp]
      · rfl
  · intro p hp q hq hne hbk
    rw [hlist] at hp hq
    rcases List.mem_cons.mp hp with ep | hp' <;> rcases List.mem_cons.mp hq with eq | hq'
    · exact absurd (ep.trans eq.symm) hne
    · subst ep
      rw [hbnew, hbold q (hold q hq')] at hbk
      rw [nameOf_inserted_new, nameOf_inserted_old (hold q hq'), namesAgree_comm]
      exact hnew_apart q hq' hbk.symm
    · subst eq
      rw [hbnew, hbold p (hold p hp')] at hbk
      rw [nameOf_inserted_new, nameOf_inserted_old (hold p hp')]
      exact hnew_apart p hp' hbk
    · rw [hbold p (hold p hp'), hbold q (hold q hq')] at hbk
      rw [nameOf_inserted_old (hold p hp'), nameOf_inserted_old (hold q hq')]
      exact h.apart p hp' q hq' hne hbk
  · intro p hp
    rw [hlist] at hp
    show p < st.heapNext + 1
    rcases List.mem_cons.mp hp with e | hp'
    · rw [e]; exact Nat.lt_succ_self _
    · exact Nat.lt_succ_of_lt (h.fresh p hp')

theorem nameOf_removed_old {P : Deps} {dm : UA_DiscoveryManager} {st : Registry}
    {f : List Char} {e p : Ptr} (hp : p ≠ e) :
    nameOf (removed P dm st f e) p = nameOf st p := by
  simp [nameOf, removed, setAt, hp]

theorem WF_removed {P : Deps} {dm : UA_DiscoveryManager} {st : Registry} {f : List Char}
    {e : Ptr} (h : WF P st) (he : e ∈ st.serverOnNetworkHash (hashIdx P f)) :
    WF P (removed P dm st f e) := by
  have hel : e ∈ st.serverOnNetwork := ((h.mem_chain _ e).1 he).1
  have heb : bucketOf P st e = hashIdx P f := ((h.mem_chain _ e).1 he).2
  have hlist : (removed P dm st f e).serverOnNetwork = st.serverOnNetwork.erase e := rfl
  have hmem : ∀ p, p ∈ (removed P dm st f e).serverOnNetwork ↔ p ≠ e ∧ p ∈ st.serverOnNetwork := by
    intro p; rw [hlist]; exact h.list_nodup.mem_erase_iff
  have hbold : ∀ p, p ≠ e → bucketOf P (removed P dm st f e) p = bucketOf P st p := by
    intro p hp; simp only [bucketOf, nameOf_removed_old hp]
  have hchain : ∀ i, (removed P dm st f e).serverOnNetworkHash i =
      if i = hashIdx P f then (st.serverOnNetworkHash i).erase e
      else st.serverOnNetworkHash i := by
    intro i
    by_cases hi : i = hashIdx P f
    · subst hi; simp [removed, setAt]
    · simp [removed, setAt, hi]
  constructor
  · rw [hlist]; exact h.list_nodup.erase e
  · intro i
    rw [hchain i]
    split
    · exact (h.chain_nodup i).erase e
    · exact h.chain_nodup i
  · intro i p
    rw [hchain i, hmem p]
    by_cases hp : p = e
    · subst hp
      simp only [ne_eq, not_true_eq_false, false_and, iff_false]
      split
      · intro hm
        exact ((h.chain_nodup i).mem_erase_iff.1 hm).1 rfl
      · rename_i hi
        intro hm
        exact hi (((h.mem_chain i p).1 hm).2.symm.trans heb)
    · rw [hbold p hp]
      have hiff : (p ≠ e ∧ p ∈ st.serverOnNetwork) ∧ bucketOf P st p = i ↔
          p ∈ st.serverOnNetworkHash i := by
        rw [h.mem_chain i p]
        constructor
        · rintro ⟨⟨_, h1⟩, h2⟩; exact ⟨h1, h2⟩
        · rintro ⟨h1, h2⟩; exact ⟨⟨hp, h1⟩, h2⟩
      rw [hiff]
      split
      · exact List.mem_erase_of_ne hp
      · rfl
  · intro p hp q hq hne hbk
    have hp' := (hmem p).1 hp
    have hq' := (hmem q).1 hq
    rw [hbold p hp'.1, hbold q hq'.1] at hbk
    rw [nameOf_removed_old hp'.1, nameOf_removed_old hq'.1]
    exact h.apart p hp'.2 q hq'.2 hne hbk
  · intro p hp
    exact h.fresh p ((hmem p).1 hp).2

theorem addEntry_cases (P : Deps) (env : Env) (st : Registry) (f : List Char)
    (s : UA_String) :
    (∃ e, chainSearch st.heap s (st.serverOnNetworkHash (hashIdx P f)) = some e ∧
      UA_DiscoveryManager_addEntryToServersOnNetwork P env st f s
        = (.BADALREADYEXISTS, some e, st)) ∨
    (chainSearch st.heap s (st.serverOnNetworkHash (hashIdx P f)) = none ∧
      UA_DiscoveryManager_addEntryToServersOnNetwork P env st f s
        = (.BADOUTOFMEMORY, none, st)) ∨
    (chainSearch st.heap s (st.serverOnNetworkHash (hashIdx P f)) = none ∧
      UA_DiscoveryManager_addEntryToServersOnNetwork P env st f s
        = (.BADOUTOFMEMORY, none, bumped env st)) ∨
    (chainSearch st.heap s (st.serverOnNetworkHash (hashIdx P f)) = none ∧
      UA_DiscoveryManager_addEntryToServersOnNetwork P env st f s
        = (.GOOD, some st.heapNext, inserted P env st f s)) := by
  cases hs : chainSearch st.heap s (st.serverOnNetworkHash (hashIdx P f)) with
  | some e => exact Or.inl ⟨e, rfl, addEntry_found hs⟩
  | none =>
    right
    rw [addEntry_new hs]
    by_cases h1 : env.mallocEntry = true ∧ env.copyServerName = true
    · by_cases h3 : env.mallocHashEntry = true
      · right; right; simp [h1, h3]
      · right; left; simp [h1, h3]
    · left; simp [h1]

theorem WF_setHeap {P : Deps} {st : Registry} (h : WF P st) (p : Ptr)
    (e : serverOnNetwork) (obs : List Observation)
    (he : e.serverOnNetwork.serverName = nameOf st p) :
    WF P { st with heap := setAt st.heap p e, observed := obs } := by
  refine h.congr rfl rfl (fun q _ => ?_) (Nat.le_refl _)
  by_cases hq : q = p
  · subst hq; simp [nameOf, setAt, he]
  · simp [nameOf, setAt, hq]

theorem WF_addEntry {P : Deps} {env : Env} {st : Registry} {s : UA_String} (h : WF P st) :
    WF P (UA_DiscoveryManager_addEntryToServersOnNetwork P env st s s).2.2 := by
  rcases addEntry_cases P env st s s with ⟨e, _, hr⟩ | ⟨_, hr⟩ | ⟨_, hr⟩ | ⟨hs, hr⟩ <;> rw [hr]
  · exact h
  · exact h
  · exact WF_bumped h
  · exact WF_inserted h hs

theorem WF_removeEntry {P : Deps} {dm : UA_DiscoveryManager} {st : Registry}
    {f : List Char} {s : UA_String} (h : WF P st) :
    WF P (UA_DiscoveryManager_removeEntryFromServersOnNetwork P dm st f s).2 := by
  cases hs : chainSearch st.heap s (st.serverOnNetworkHash (hashIdx P f)) with
  | none => rw [removeEntry_none hs]; exact h
  | some e => rw [removeEntry_some hs]; exact WF_removed h (chainSearch_some hs).1

theorem WF_txtPair {P : Deps} {env : Env} {fromname : List Char} {st : Registry}
    {t : mdns_record_txt_t} (h : WF P st) : WF P (txtPair P env fromname st t) := by
  unfold txtPair
  split
  · split
    · rcases addEntry_cases P env st fromname fromname with
        ⟨e, _, hr⟩ | ⟨_, hr⟩ | ⟨_, hr⟩ | ⟨hs, hr⟩ <;> rw [hr]
      · exact h
      · exact h
      · exact WF_bumped h
      · exact WF_setHeap (WF_inserted h hs) _ _ _ rfl
    · exact h
  · exact h

theorem WF_foldl_txtPair {P : Deps} {env : Env} {fromname : List Char}
    (l : List mdns_record_txt_t) {st : Registry} (h : WF P st) :
    WF P (l.foldl (txtPair P env fromname) st) := by
  induction l generalizing st with
  | nil => exact h
  | cons t l ih => exact ih (WF_txtPair h)

theorem WF_query_callback {P : Deps} {env : Env} {dm : Option UA_DiscoveryManager}
    {entry : mdns_entry_type_t} {rtype : mdns_record_type_t} {data : Datagram}
    {st : Registry} (h : WF P st) : WF P (query_callback P env dm entry rtype data st) := by
  unfold query_callback
  cases dm with
  | none => exact h
  | some dm =>
    cases rtype with
    | PTR =>
      simp only
      split
      · exact h
      · split
        · exact h
        · split
          · rcases addEntry_cases P env st data.service data.service with
              ⟨e, _, hr⟩ | ⟨_, hr⟩ | ⟨_, hr⟩ | ⟨hs, hr⟩ <;> rw [hr]
            · exact h
            · exact h
            · exact WF_bumped h
            · exact WF_setHeap (WF_inserted h hs) _ _ _ rfl
          · exact h
    | SRV =>
      simp only
      split
      · exact h
      · split
        · split
          · rcases addEntry_cases P env st data.fromname data.fromname with
              ⟨e, _, hr⟩ | ⟨_, hr⟩ | ⟨_, hr⟩ | ⟨hs, hr⟩ <;> rw [hr]
            · exact h
            · exact h
            · exact WF_bumped h
            · exact WF_setHeap (WF_inserted h hs) _ _ _ rfl
          · exact h
        · exact h
    | TXT =>
      simp only
      split
      · exact h
      · exact WF_foldl_txtPair _ h
    | OTHER => exact h

theorem WF_announce {P : Deps} {env : Env} {dm : Option UA_DiscoveryManager}
    {st : Registry} {serverName discoveryUrl : UA_String} {isOnline : Bool} (h : WF P st) :
    WF P (UA_Discovery_updateMdnsForDiscoveryUrl P env dm st serverName discoveryUrl
      isOnline) := by
  unfold UA_Discovery_updateMdnsForDiscoveryUrl
  cases dm with
  | none => exact h
  | some dm =>
    simp only
    split
    · exact h
    · cases hp : P.UA_parseEndpointUrl discoveryUrl with
      | none => exact h
      | some r =>
        obtain ⟨hostname, port, path⟩ := r
        simp only
        split
        · exact h
        · split
          · exact h
          · split
            · rcases addEntry_cases P env st (serviceDomain serverName hostname)
                (serviceDomain serverName hostname) with
                ⟨e, _, hr⟩ | ⟨_, hr⟩ | ⟨_, hr⟩ | ⟨hs, hr⟩ <;> rw [hr]
              · exact h
              · exact h
              · exact WF_bumped h
              · exact WF_setHeap (WF_inserted h hs) _ _ _ rfl
            · exact h

/-! ## Clearing the registry -/

theorem chainSearch_self {P : Deps} {st : Registry} {p : Ptr} (h : WF P st)
    (hp : p ∈ st.serverOnNetwork) :
    chainSearch st.heap (nameOf st p)
      (st.serverOnNetworkHash (hashIdx P (nameOf st p))) = some p := by
  apply chainSearch_unique
  · exact (h.mem_chain _ p).2 ⟨hp, rfl⟩
  · exact namesAgree_self _
  · intro q hq hne
    have hq' := (h.mem_chain _ q).1 hq
    exact h.apart q hq'.1 p hp hne hq'.2

theorem LIST_NEXT_head (son : Ptr) (rest : List Ptr) :
    LIST_NEXT (son :: rest) son = rest.head? := by
  cases rest <;> simp [LIST_NEXT, List.dropWhile]

theorem removed_heap_old {P : Deps} {dm : UA_DiscoveryManager} {st : Registry}
    {f : List Char} {e p : Ptr} (hp : p ≠ e) :
    (removed P dm st f e).heap p = st.heap p := by
  simp [removed, setAt, hp]

theorem clearLoop_spec {P : Deps} {dm : UA_DiscoveryManager} {past : Ptr → List Char}
    (hpast : ∀ p, past p = []) :
    ∀ (n : Nat) (st : Registry), WF P st → st.serverOnNetwork.length ≤ n →
      (clearLoop P dm past n st.serverOnNetwork.head? st).serverOnNetwork = [] ∧
      WF P (clearLoop P dm past n st.serverOnNetwork.head? st) ∧
      (clearLoop P dm past n st.serverOnNetwork.head? st).observed =
        st.observed ++
          (if dm.serverOnNetworkCallback then
            (st.serverOnNetwork.filter (fun p => (st.heap p).srvSet)).map (removalOf st)
           else []) := by
  intro n
  induction n with
  | zero =>
    intro st h hlen
    have hnil : st.serverOnNetwork = [] := List.length_eq_zero.mp (Nat.le_zero.mp hlen)
    simp [clearLoop, hnil, h]
  | succ n ih =>
    intro st h hlen
    cases hl : st.serverOnNetwork with
    | nil => simp [clearLoop, hl, h]
    | cons son rest =>
      have hson : son ∈ st.serverOnNetwork := by rw [hl]; exact List.mem_cons_self _ _
      have hnd : (son :: rest).Nodup := hl ▸ h.list_nodup
      have hnotin : son ∉ rest := (List.nodup_cons.mp hnd).1
      have hsearch := chainSearch_self h hson
      have hrm := @removeEntry_some P dm st _ _ _ hsearch
      have hWF : WF P (removed P dm st (nameOf st son) son) :=
        WF_removed h (chainSearch_some hsearch).1
      have hlist : (removed P dm st (nameOf st son) son).serverOnNetwork = rest := by
        show st.serverOnNetwork.erase son = rest
        rw [hl]; exact List.erase_cons_head son rest
      have hlen' : (removed P dm st (nameOf st son) son).serverOnNetwork.length ≤ n := by
        rw [hlist]; rw [hl] at hlen; simpa using hlen
      have step : clearLoop P dm past (n + 1) (son :: rest).head? st =
          clearLoop P dm past n (removed P dm st (nameOf st son) son).serverOnNetwork.head?
            (removed P dm st (nameOf st son) son) := by
        simp only [List.head?_cons, clearLoop]
        have : (st.heap son).serverOnNetwork.serverName = nameOf st son := rfl
        rw [this, hpast son, List.append_nil, hrm, hlist, hl, LIST_NEXT_head]
      rw [step]
      obtain ⟨h1, h2, h3⟩ := ih _ hWF hlen'
      refine ⟨h1, h2, ?_⟩
      rw [h3, hlist]
      have hheap : ∀ p ∈ rest, (removed P dm st (nameOf st son) son).heap p = st.heap p :=
        fun p hp => removed_heap_old (fun e => hnotin (e ▸ hp))
      have hfilter : rest.filter (fun p => ((removed P dm st (nameOf st son) son).heap p).srvSet)
          = rest.filter (fun p => (st.heap p).srvSet) :=
        List.filter_congr (fun p hp => by rw [hheap p hp])
      have hmap : ∀ l : List Ptr, (∀ p ∈ l, p ∈ rest) →
          l.map (removalOf (removed P dm st (nameOf st son) son)) = l.map (removalOf st) := by
        intro l hsub
        apply List.map_congr_left
        intro p hp
        simp only [removalOf, hheap p (hsub p hp)]
      rw [hfilter, hmap _ (fun p hp => (List.mem_filter.mp hp).1)]
      have hobs : (removed P dm st (nameOf st son) son).observed =
          if (dm.serverOnNetworkCallback && (st.heap son).srvSet) = true then
            st.observed ++ [removalOf st son]
          else st.observed := rfl
      rw [hobs]
      cases hcb : dm.serverOnNetworkCallback <;> cases hsrv : (st.heap son).srvSet <;>
        simp [List.filter_cons, hsrv]

theorem clear_spec {P : Deps} {dm : UA_DiscoveryManager} {past : Ptr → List Char}
    {st : Registry} (hpast : ∀ p, past p = []) (h : WF P st) :
    (UA_DiscoveryManager_clearServerOnNetwork P (some dm) past st).1 = .GOOD ∧
    (UA_DiscoveryManager_clearServerOnNetwork P (some dm) past st).2.serverOnNetwork = [] ∧
    (∀ i, (UA_DiscoveryManager_clearServerOnNetwork P (some dm) past st).2.serverOnNetworkHash i
      = []) ∧
    (UA_DiscoveryManager_clearServerOnNetwork P (some dm) past st).2.observed =
      st.observed ++
        (if dm.serverOnNetworkCallback then
          (st.serverOnNetwork.filter (fun p => (st.heap p).srvSet)).map (removalOf st)
         else []) := by
  obtain ⟨h1, h2, h3⟩ := @clearLoop_spec P dm past hpast _ st h (Nat.le_refl _)
  refine ⟨rfl, h1, ?_, h3⟩
  intro i
  show (if i < SERVER_ON_NETWORK_HASH_SIZE then [] else _) = []
  split
  · rfl
  · apply List.eq_nil_iff_forall_not_mem.mpr
    intro p hp
    have := ((h2.mem_chain i p).1 hp).1
    rw [h1] at this
    exact absurd this (List.not_mem_nil _)

theorem WF_clear {P : Deps} {dm : Option UA_DiscoveryManager} {past : Ptr → List Char}
    {st : Registry} (hpast : ∀ p, past p = []) (h : WF P st) :
    WF P (UA_DiscoveryManager_clearServerOnNetwork P dm past st).2 := by
  cases dm with
  | none => exact h
  | some dm =>
    obtain ⟨_, h1, h2, _⟩ := @clear_spec P dm past st hpast h
    constructor
    · rw [h1]; exact List.nodup_nil
    · intro i; rw [h2 i]; exact List.nodup_nil
    · intro i p; rw [h1, h2 i]; simp
    · intro p hp; rw [h1] at hp; exact absurd hp (List.not_mem_nil _)
    · intro p hp; rw [h1] at hp; exact absurd hp (List.not_mem_nil _)

theorem WF_resetCounter {P : Deps} {env : Env} {dm : Option UA_DiscoveryManager}
    {st : Registry} (h : WF P st) :
    WF P (UA_DiscoveryManager_resetServerOnNetworkRecordCounter env dm st).2 := by
  cases dm with
  | none => exact h
  | some dm => exact h.congr rfl rfl (fun _ _ => rfl) (Nat.le_refl _)

theorem WF_step {P : Deps} {st : Registry} (op : Op) (hop : op.terminated) (h : WF P st) :
    WF P (step P st op) := by
  cases op with
  | answer dm env entry rtype data => exact WF_query_callback h
  | announce dm env serverName discoveryUrl isOnline => exact WF_announce h
  | findOrInsert env name => exact WF_addEntry h
  | remove dm f s => exact WF_removeEntry h
  | clear dm past => exact WF_clear hop h
  | resetCounter dm env => exact WF_resetCounter h

theorem WF_run_from {P : Deps} (ops : List Op) {st : Registry}
    (hops : ∀ op ∈ ops, op.terminated) (h : WF P st) : WF P (run P st ops) := by
  induction ops generalizing st with
  | nil => exact h
  | cons op ops ih =>
    exact ih (fun o ho => hops o (List.mem_cons_of_mem _ ho))
      (WF_step op (hops op (List.mem_cons_self _ _)) h)

theorem WF_run (P : Deps) (ops : List Op) (hops : ∀ op ∈ ops, op.terminated) :
    WF P (run P mdnsPrivateData ops) :=
  WF_run_from ops hops (WF_init P)

theorem WF.listOk {P : Deps} {st : Registry} (h : WF P st) : ListOk st :=
  ⟨h.list_nodup, h.fresh⟩

/-! ## An entry that is found is left alone -/

theorem addEntry_good {P : Deps} {env : Env} {st st' : Registry} {f : List Char}
    {s : UA_String} {p : Ptr}
    (h : UA_DiscoveryManager_addEntryToServersOnNetwork P env st f s = (.GOOD, some p, st')) :
    p = st.heapNext ∧ st' = inserted P env st f s ∧
      chainSearch st.heap s (st.serverOnNetworkHash (hashIdx P f)) = none := by
  rcases addEntry_cases P env st f s with ⟨e, _, hr⟩ | ⟨_, hr⟩ | ⟨_, hr⟩ | ⟨hs, hr⟩ <;>
    rw [hr] at h <;> simp only [Prod.mk.injEq, reduceCtorEq, false_and] at h
  obtain ⟨_, hp, hst⟩ := h
  exact ⟨(Option.some.inj hp).symm, hst.symm, hs⟩

theorem chainSearch_inserted {P : Deps} {env : Env} {st : Registry} {f : List Char}
    {s s2 : UA_String} (h : namesAgree s s2 = true) :
    chainSearch (inserted P env st f s).heap s2
      ((inserted P env st f s).serverOnNetworkHash (hashIdx P f)) = some st.heapNext := by
  simp [inserted, setAt, chainSearch, freshEntry, h]

theorem txtPair_existing {P : Deps} {env : Env} {fromname : List Char} {st : Registry}
    {p : Ptr} (t : mdns_record_txt_t)
    (h : chainSearch st.heap fromname (st.serverOnNetworkHash (hashIdx P fromname)) = some p) :
    txtPair P env fromname st t = st := by
  unfold txtPair
  rw [addEntry_found h]
  split
  · split <;> rfl
  · rfl

theorem foldl_txtPair_existing {P : Deps} {env : Env} {fromname : List Char}
    {st : Registry} {p : Ptr} (l : List mdns_record_txt_t)
    (h : chainSearch st.heap fromname (st.serverOnNetworkHash (hashIdx P fromname)) = some p) :
    l.foldl (txtPair P env fromname) st = st := by
  induction l with
  | nil => rfl
  | cons t l ih => rw [List.foldl_cons, txtPair_existing t h, ih]

theorem query_callback_existing {P : Deps} {env : Env} {dm : Option UA_DiscoveryManager}
    {entry : mdns_entry_type_t} {rtype : mdns_record_type_t} {data : Datagram}
    {st : Registry} {p : Ptr} (hrt : rtype ≠ .PTR)
    (h : chainSearch st.heap data.fromname
      (st.serverOnNetworkHash (hashIdx P data.fromname)) = some p) :
    query_callback P env dm entry rtype data st = st := by
  unfold query_callback
  cases dm with
  | none => rfl
  | some dm =>
    cases rtype with
    | PTR => exact absurd rfl hrt
    | SRV =>
      simp only
      rw [addEntry_found h]
      split
      · rfl
      · split
        · split <;> rfl
        · rfl
    | TXT =>
      simp only
      split
      · rfl
      · exact foldl_txtPair_existing _ h
    | OTHER => rfl

theorem announce_existing {P : Deps} {env : Env} {dm : Option UA_DiscoveryManager}
    {st : Registry} {serverName discoveryUrl : UA_String} {isOnline : Bool}
    (h : ∀ hostname port path,
      P.UA_parseEndpointUrl discoveryUrl = some (hostname, port, path) →
      ∃ p, chainSearch st.heap (serviceDomain serverName hostname)
        (st.serverOnNetworkHash (hashIdx P (serviceDomain serverName hostname))) = some p) :
    UA_Discovery_updateMdnsForDiscoveryUrl P env dm st serverName discoveryUrl isOnline
      = st := by
  unfold UA_Discovery_updateMdnsForDiscoveryUrl
  cases dm with
  | none => rfl
  | some dm =>
    simp only
    split
    · rfl
    · cases hp : P.UA_parseEndpointUrl discoveryUrl with
      | none => rfl
      | some r =>
        obtain ⟨hostname, port, path⟩ := r
        obtain ⟨p, hs⟩ := h hostname port path hp
        simp only
        rw [addEntry_found hs]
        split
        · rfl
        · split
          · rfl
          · split <;> rfl

/-! ## Claims -/

theorem run_three (P : Deps) (st : Registry) (a b c : Op) :
    run P st [a, b, c] = step P (step P (step P st a) b) c := rfl

theorem ptr_creates {P : Deps} {env : Env} {dm : UA_DiscoveryManager} {st : Registry}
    {data : Datagram}
    (hown : strstrFound (cstr data.fromname) "_opcua-tcp".toList = true)
    (hd : data.service.length > 0)
    (hnone : chainSearch st.heap data.service
      (st.serverOnNetworkHash (hashIdx P data.service)) = none)
    (ha : env.mallocEntry = true) (hb : env.copyServerName = true)
    (hc : env.mallocHashEntry = true) :
    query_callback P env (some dm) .ANSWER .PTR data st = afterPtr P env st data.service := by
  unfold query_callback
  simp only [ne_eq, not_true_eq_false, if_false, hown, Bool.not_true, Bool.false_eq_true, hd,
    if_true, addEntry_new hnone, ha, hb, hc, and_self]
  rfl

theorem chainSearch_afterPtr {P : Deps} {env : Env} {st : Registry} {d : List Char} :
    chainSearch (afterPtr P env st d).heap d
      ((afterPtr P env st d).serverOnNetworkHash (hashIdx P d)) = some st.heapNext := by
  simp [afterPtr, inserted, setAt, chainSearch, freshEntry, namesAgree_self]

/-- C1 (as the code behaves): on the empty registry with a listener registered,
a PTR answer (owner containing `_opcua-tcp`, non-empty target `d`), then an SRV
answer owned by `d`, then a TXT answer owned by `d` with `path=v` leave exactly
one entry, but the SRV and TXT answers find the entry the PTR answer created,
get `BadAlreadyExists` and are dropped: the entry has `srvSet` and `txtSet`
false, an empty `discoveryUrl`, no `pathTmp`, and the listener was never
called. -/
theorem C1_ptr_srv_txt_leaves_entry_incomplete (P : Deps) (e1 e2 e3 : Env)
    (dm : UA_DiscoveryManager) (owner d h v : List Char) (port : Nat)
    (hown : strstrFound (cstr owner) "_opcua-tcp".toList = true) (hd : d.length > 0)
    (ha : e1.mallocEntry = true) (hb : e1.copyServerName = true)
    (hc : e1.mallocHashEntry = true) :
    (run P mdnsPrivateData (discoverOnePeer e1 e2 e3 dm owner d h port v)).serverOnNetwork
        = [1] ∧
      ((run P mdnsPrivateData (discoverOnePeer e1 e2 e3 dm owner d h port v)).heap 1).srvSet
        = false ∧
      ((run P mdnsPrivateData (discoverOnePeer e1 e2 e3 dm owner d h port v)).heap 1).txtSet
        = false ∧
      ((run P mdnsPrivateData (discoverOnePeer e1 e2 e3 dm owner d h port v)).heap
        1).serverOnNetwork.discoveryUrl = [] ∧
      ((run P mdnsPrivateData (discoverOnePeer e1 e2 e3 dm owner d h port v)).heap 1).pathTmp
        = none ∧
      (run P mdnsPrivateData (discoverOnePeer e1 e2 e3 dm owner d h port v)).observed = [] := by
  have hrun : run P mdnsPrivateData (discoverOnePeer e1 e2 e3 dm owner d h port v)
      = afterPtr P e1 mdnsPrivateData d := by
    have h1 : step P mdnsPrivateData (.answer (some dm) e1 .ANSWER .PTR
        { fromname := owner, service := d, srv := ⟨0, 0, 0, []⟩, txt := [] })
        = afterPtr P e1 mdnsPrivateData d := by
      simp only [step]
      exact ptr_creates hown hd (by simp [mdnsPrivateData, chainSearch]) ha hb hc
    have h2 : step P (afterPtr P e1 mdnsPrivateData d) (.answer (some dm) e2 .ANSWER .SRV
        { fromname := d, service := [], srv := ⟨0, 0, port, h⟩, txt := [] })
        = afterPtr P e1 mdnsPrivateData d := by
      simp only [step]
      exact query_callback_existing (by decide) chainSearch_afterPtr
    have h3 : step P (afterPtr P e1 mdnsPrivateData d) (.answer (some dm) e3 .ANSWER .TXT
        { fromname := d, service := [], srv := ⟨0, 0, 0, []⟩,
          txt := [{ key := "path".toList, value := v }] })
        = afterPtr P e1 mdnsPrivateData d := by
      simp only [step]
      exact query_callback_existing (by decide) chainSearch_afterPtr
    rw [discoverOnePeer, run_three, h1, h2, h3]
  rw [hrun]
  simp [afterPtr, inserted, setAt, freshEntry, mdnsPrivateData, bumped, UA_ServerOnNetwork_init]

/-- Witness for C1: the scenario of the specification (PTR
`foo._opcua-tcp._tcp.local.` to `instanceA._opcua-tcp._tcp.local.`, SRV to
`bar.local:4840`, TXT `path=/Server`). -/
theorem C1_ptr_srv_txt_leaves_entry_incomplete_witness :
    (run sampleDeps mdnsPrivateData
        (discoverOnePeer (envOk 10 20) (envOk 11 21) (envOk 12 22) dmListening
          "foo._opcua-tcp._tcp.local.".toList "instanceA._opcua-tcp._tcp.local.".toList
          "bar.local".toList 4840 "/Server".toList)).serverOnNetwork = [1] ∧
      ((run sampleDeps mdnsPrivateData
        (discoverOnePeer (envOk 10 20) (envOk 11 21) (envOk 12 22) dmListening
          "foo._opcua-tcp._tcp.local.".toList "instanceA._opcua-tcp._tcp.local.".toList
          "bar.local".toList 4840 "/Server".toList)).heap 1).srvSet = false ∧
      ((run sampleDeps mdnsPrivateData
        (discoverOnePeer (envOk 10 20) (envOk 11 21) (envOk 12 22) dmListening
          "foo._opcua-tcp._tcp.local.".toList "instanceA._opcua-tcp._tcp.local.".toList
          "bar.local".toList 4840 "/Server".toList)).heap 1).txtSet = false ∧
      ((run sampleDeps mdnsPrivateData
        (discoverOnePeer (envOk 10 20) (envOk 11 21) (envOk 12 22) dmListening
          "foo._opcua-tcp._tcp.local.".toList "instanceA._opcua-tcp._tcp.local.".toList
          "bar.local".toList 4840 "/Server".toList)).heap 1).serverOnNetwork.discoveryUrl = [] ∧
      ((run sampleDeps mdnsPrivateData
        (discoverOnePeer (envOk 10 20) (envOk 11 21) (envOk 12 22) dmListening
          "foo._opcua-tcp._tcp.local.".toList "instanceA._opcua-tcp._tcp.local.".toList
          "bar.local".toList 4840 "/Server".toList)).heap 1).pathTmp = none ∧
      (run sampleDeps mdnsPrivateData
        (discoverOnePeer (envOk 10 20) (envOk 11 21) (envOk 12 22) dmListening
          "foo._opcua-tcp._tcp.local.".toList "instanceA._opcua-tcp._tcp.local.".toList
          "bar.local".toList 4840 "/Server".toList)).observed = [] :=
  C1_ptr_srv_txt_leaves_entry_incomplete sampleDeps (envOk 10 20) (envOk 11 21) (envOk 12 22)
    dmListening "foo._opcua-tcp._tcp.local.".toList "instanceA._opcua-tcp._tcp.local.".toList
    "bar.local".toList "/Server".toList 4840 (by decide) (by decide) rfl rfl rfl

/-- C2 fails as stated: on the empty registry, inserting domain `x` with server
name `a` and then domain `x` with server name `b` creates a second entry; the
second call returns `Good` and another entry, and the list grows from one to
two elements. -/
theorem C2_counterexample :
    ¬ (twoNamesSecond.2.1 = twoNamesFirst.2.1 ∧
        twoNamesSecond.1 = UA_StatusCode.BADALREADYEXISTS ∧
        twoNamesSecond.2.2.serverOnNetwork.length
          = twoNamesFirst.2.2.serverOnNetwork.length) := by
  decide

/-- C2 (amended): for every registry state, domain name `f` and server names
`s1`, `s2`, if the first insertion returns an entry (it does not fail for lack
of memory) and either the same server name is passed again, or the first call
created the entry and `s2` agrees with `s1` on the first `min` of their lengths
bytes, then the second insertion returns the same entry, reports
`BadAlreadyExists`, and leaves the registry, hence the length of the ordered
list, as the first call left it. -/
theorem C2_findOrInsert_twice_same_entry (P : Deps) (env1 env2 : Env) (st : Registry)
    (f : List Char) (s1 s2 : UA_String)
    (h1 : (UA_DiscoveryManager_addEntryToServersOnNetwork P env1 st f s1).1
      ≠ UA_StatusCode.BADOUTOFMEMORY)
    (h2 : s2 = s1 ∨
      ((UA_DiscoveryManager_addEntryToServersOnNetwork P env1 st f s1).1 = UA_StatusCode.GOOD
        ∧ namesAgree s1 s2 = true)) :
    (UA_DiscoveryManager_addEntryToServersOnNetwork P env2
        (UA_DiscoveryManager_addEntryToServersOnNetwork P env1 st f s1).2.2 f s2).2.1
      = (UA_DiscoveryManager_addEntryToServersOnNetwork P env1 st f s1).2.1 ∧
    (UA_DiscoveryManager_addEntryToServersOnNetwork P env2
        (UA_DiscoveryManager_addEntryToServersOnNetwork P env1 st f s1).2.2 f s2).1
      = UA_StatusCode.BADALREADYEXISTS ∧
    (UA_DiscoveryManager_addEntryToServersOnNetwork P env2
        (UA_DiscoveryManager_addEntryToServersOnNetwork P env1 st f s1).2.2 f s2).2.2
      = (UA_DiscoveryManager_addEntryToServersOnNetwork P env1 st f s1).2.2 ∧
    (UA_DiscoveryManager_addEntryToServersOnNetwork P env2
        (UA_DiscoveryManager_addEntryToServersOnNetwork P env1 st f s1).2.2 f
          s2).2.2.serverOnNetwork.length
      = (UA_DiscoveryManager_addEntryToServersOnNetwork P env1 st f
          s1).2.2.serverOnNetwork.length := by
  rcases addEntry_cases P env1 st f s1 with ⟨e, hs, hr⟩ | ⟨_, hr⟩ | ⟨_, hr⟩ | ⟨hs, hr⟩
  · rw [hr] at h2 ⊢
    have hs2 : s2 = s1 := by
      rcases h2 with h | ⟨h, _⟩
      · exact h
      · exact UA_StatusCode.noConfusion h
    subst hs2
    simp only [addEntry_found hs, and_self]
  · rw [hr] at h1; exact absurd rfl h1
  · rw [hr] at h1; exact absurd rfl h1
  · rw [hr]
    have hag : namesAgree s1 s2 = true := by
      rcases h2 with h | ⟨_, h⟩
      · rw [h]; exact namesAgree_self s1
      · exact h
    simp only [addEntry_found (chainSearch_inserted hag), and_self]

/-- Witness for C2 (amended): domain `x` with server name `a`, twice, on the
empty registry. -/
theorem C2_findOrInsert_twice_same_entry_witness :
    (UA_DiscoveryManager_addEntryToServersOnNetwork sampleDeps (envOk 0 0)
        (UA_DiscoveryManager_addEntryToServersOnNetwork sampleDeps (envOk 0 0) mdnsPrivateData
          "x".toList "a".toList).2.2 "x".toList "a".toList).2.1
      = (UA_DiscoveryManager_addEntryToServersOnNetwork sampleDeps (envOk 0 0) mdnsPrivateData
          "x".toList "a".toList).2.1 ∧
    (UA_DiscoveryManager_addEntryToServersOnNetwork sampleDeps (envOk 0 0)
        (UA_DiscoveryManager_addEntryToServersOnNetwork sampleDeps (envOk 0 0) mdnsPrivateData
          "x".toList "a".toList).2.2 "x".toList "a".toList).1
      = UA_StatusCode.BADALREADYEXISTS ∧
    (UA_DiscoveryManager_addEntryToServersOnNetwork sampleDeps (envOk 0 0)
        (UA_DiscoveryManager_addEntryToServersOnNetwork sampleDeps (envOk 0 0) mdnsPrivateData
          "x".toList "a".toList).2.2 "x".toList "a".toList).2.2
      = (UA_DiscoveryManager_addEntryToServersOnNetwork sampleDeps (envOk 0 0) mdnsPrivateData
          "x".toList "a".toList).2.2 ∧
    (UA_DiscoveryManager_addEntryToServersOnNetwork sampleDeps (envOk 0 0)
        (UA_DiscoveryManager_addEntryToServersOnNetwork sampleDeps (envOk 0 0) mdnsPrivateData
          "x".toList "a".toList).2.2 "x".toList "a".toList).2.2.serverOnNetwork.length
      = (UA_DiscoveryManager_addEntryToServersOnNetwork sampleDeps (envOk 0 0) mdnsPrivateData
          "x".toList "a".toList).2.2.serverOnNetwork.length :=
  C2_findOrInsert_twice_same_entry sampleDeps (envOk 0 0) (envOk 0 0) mdnsPrivateData
    "x".toList "a".toList "a".toList (by decide) (Or.inl rfl)

theorem run_two (P : Deps) (st : Registry) (a b : Op) :
    run P st [a, b] = step P (step P st a) b := rfl

theorem run_one (P : Deps) (st : Registry) (a : Op) : run P st [a] = step P st a := rfl

theorem serviceDomain_length_pos (serverName hostname : UA_String) :
    0 < (serviceDomain serverName hostname).length := by
  simp [serviceDomain]

theorem announce_creates {P : Deps} {env : Env} {dm : UA_DiscoveryManager} {st : Registry}
    {serverName discoveryUrl host path : UA_String} {port : Nat}
    (hparse : P.UA_parseEndpointUrl discoveryUrl = some (host, port, path))
    (hhost : 0 < host.length) (hhost256 : host.length < 256)
    (hname : (serviceDomain serverName host).length < 256)
    (hnone : chainSearch st.heap (serviceDomain serverName host)
      (st.serverOnNetworkHash (hashIdx P (serviceDomain serverName host))) = none)
    (ha : env.mallocEntry = true) (hb : env.copyServerName = true)
    (hc : env.mallocHashEntry = true) :
    UA_Discovery_updateMdnsForDiscoveryUrl P env (some dm) st serverName discoveryUrl true
      = afterAnnounce P env dm st (serviceDomain serverName host) discoveryUrl := by
  unfold UA_Discovery_updateMdnsForDiscoveryUrl
  have h0 : ¬ host.length = 0 := by omega
  simp only [Bool.not_true, Bool.false_eq_true, if_false, hparse, h0, hhost256,
    not_true_eq_false, serviceDomain_length_pos, hname, gt_iff_lt, and_self, if_true,
    addEntry_new hnone, ha, hb, hc]
  rfl

theorem chainSearch_afterAnnounce {P : Deps} {env : Env} {dm : UA_DiscoveryManager}
    {st : Registry} {name : List Char} {url : UA_String} :
    chainSearch (afterAnnounce P env dm st name url).heap name
      ((afterAnnounce P env dm st name url).serverOnNetworkHash (hashIdx P name))
      = some st.heapNext := by
  simp [afterAnnounce, inserted, setAt, chainSearch, freshEntry, namesAgree_self]

/-- C3 (as the code behaves): with a listener registered and allocation
succeeding, announcing the same valid `(serverName, discoveryUrl)` twice on the
empty registry leaves exactly one entry, but the second announcement finds that
entry, gets `BadAlreadyExists` and does nothing: the listener has been called
once, not twice. -/
theorem C3_second_announce_not_notified (P : Deps) (env1 env2 : Env)
    (dm : UA_DiscoveryManager) (serverName discoveryUrl host path : UA_String) (port : Nat)
    (hcb : dm.serverOnNetworkCallback = true)
    (hparse : P.UA_parseEndpointUrl discoveryUrl = some (host, port, path))
    (hhost : 0 < host.length) (hhost256 : host.length < 256)
    (hname : (serviceDomain serverName host).length < 256)
    (ha : env1.mallocEntry = true) (hb : env1.copyServerName = true)
    (hc : env1.mallocHashEntry = true) :
    (run P mdnsPrivateData
        [.announce (some dm) env1 serverName discoveryUrl true,
         .announce (some dm) env2 serverName discoveryUrl true]).serverOnNetwork.length = 1 ∧
    (run P mdnsPrivateData
        [.announce (some dm) env1 serverName discoveryUrl true,
         .announce (some dm) env2 serverName discoveryUrl true]).observed.length = 1 := by
  have h1 : step P mdnsPrivateData (.announce (some dm) env1 serverName discoveryUrl true)
      = afterAnnounce P env1 dm mdnsPrivateData (serviceDomain serverName host)
          discoveryUrl := by
    simp only [step]
    exact announce_creates hparse hhost hhost256 hname
      (by simp [mdnsPrivateData, chainSearch]) ha hb hc
  have h2 : step P
      (afterAnnounce P env1 dm mdnsPrivateData (serviceDomain serverName host) discoveryUrl)
      (.announce (some dm) env2 serverName discoveryUrl true)
      = afterAnnounce P env1 dm mdnsPrivateData (serviceDomain serverName host)
          discoveryUrl := by
    simp only [step]
    apply announce_existing
    intro hostname port' path' hp
    rw [hparse] at hp
    have hh : host = hostname := by
      have := Option.some.inj hp
      exact congrArg Prod.fst this
    subst hh
    exact ⟨_, chainSearch_afterAnnounce⟩
  rw [run_two, h1, h2]
  simp [afterAnnounce, inserted, bumped, mdnsPrivateData, hcb]

/-- Witness for C3: server name `srvX`, URL `opc.tcp://h:4841/X`. -/
theorem C3_second_announce_not_notified_witness :
    (run sampleDeps mdnsPrivateData
        [.announce (some dmListening) (envOk 1 1) "srvX".toList "opc.tcp://h:4841/X".toList true,
         .announce (some dmListening) (envOk 2 2) "srvX".toList "opc.tcp://h:4841/X".toList
           true]).serverOnNetwork.length = 1 ∧
    (run sampleDeps mdnsPrivateData
        [.announce (some dmListening) (envOk 1 1) "srvX".toList "opc.tcp://h:4841/X".toList true,
         .announce (some dmListening) (envOk 2 2) "srvX".toList "opc.tcp://h:4841/X".toList
           true]).observed.length = 1 :=
  C3_second_announce_not_notified sampleDeps (envOk 1 1) (envOk 2 2) dmListening
    "srvX".toList "opc.tcp://h:4841/X".toList "h".toList "/X".toList 4841 rfl (by decide)
    (by decide) (by decide) (by decide) rfl rfl rfl

/-! ## The payload of removal calls -/

theorem RemovalsZero_of_eq {st st' : Registry} (h : RemovalsZero st)
    (he : st'.observed = st.observed) : RemovalsZero st' := by
  unfold RemovalsZero; rw [he]; exact h

theorem RemovalsZero_append {st st' : Registry} {o : Observation} (h : RemovalsZero st)
    (he : st'.observed = st.observed ++ [o]) (ho : o.removal = true → o.view.recordId = 0) :
    RemovalsZero st' := by
  unfold RemovalsZero
  rw [he]
  intro x hx
  rcases List.mem_append.mp hx with hx | hx
  · exact h x hx
  · rw [List.mem_singleton.mp hx]; exact ho

theorem RemovalsZero_ite {st st' : Registry} {o : Observation} {c : Bool}
    (h : RemovalsZero st)
    (he : st'.observed = if c = true then st.observed ++ [o] else st.observed)
    (ho : o.removal = true → o.view.recordId = 0) : RemovalsZero st' := by
  cases c
  · exact RemovalsZero_of_eq h (by simpa using he)
  · exact RemovalsZero_append h (by simpa using he) ho

theorem addEntry_observed (P : Deps) (env : Env) (st : Registry) (f : List Char)
    (s : UA_String) :
    (UA_DiscoveryManager_addEntryToServersOnNetwork P env st f s).2.2.observed
      = st.observed := by
  rcases addEntry_cases P env st f s with ⟨e, _, hr⟩ | ⟨_, hr⟩ | ⟨_, hr⟩ | ⟨_, hr⟩ <;>
    rw [hr] <;> rfl

theorem RemovalsZero_removeEntry {P : Deps} {dm : UA_DiscoveryManager} {st : Registry}
    {f : List Char} {s : UA_String} (h : RemovalsZero st) :
    RemovalsZero (UA_DiscoveryManager_removeEntryFromServersOnNetwork P dm st f s).2 := by
  cases hs : chainSearch st.heap s (st.serverOnNetworkHash (hashIdx P f)) with
  | none => rw [removeEntry_none hs]; exact h
  | some e =>
    rw [removeEntry_some hs]
    exact RemovalsZero_ite h rfl (fun _ => rfl)

theorem RemovalsZero_txtPair {P : Deps} {env : Env} {fromname : List Char} {st : Registry}
    {t : mdns_record_txt_t} (h : RemovalsZero st) :
    RemovalsZero (txtPair P env fromname st t) := by
  unfold txtPair
  split
  · split
    · rcases addEntry_cases P env st fromname fromname with
        ⟨e, _, hr⟩ | ⟨_, hr⟩ | ⟨_, hr⟩ | ⟨hs, hr⟩ <;> rw [hr] <;>
        exact RemovalsZero_of_eq h rfl
    · exact h
  · exact h

theorem RemovalsZero_foldl_txtPair {P : Deps} {env : Env} {fromname : List Char}
    (l : List mdns_record_txt_t) {st : Registry} (h : RemovalsZero st) :
    RemovalsZero (l.foldl (txtPair P env fromname) st) := by
  induction l generalizing st with
  | nil => exact h
  | cons t l ih => exact ih (RemovalsZero_txtPair h)

theorem RemovalsZero_query_callback {P : Deps} {env : Env}
    {dm : Option UA_DiscoveryManager} {entry : mdns_entry_type_t}
    {rtype : mdns_record_type_t} {data : Datagram} {st : Registry} (h : RemovalsZero st) :
    RemovalsZero (query_callback P env dm entry rtype data st) := by
  unfold query_callback
  cases dm with
  | none => exact h
  | some dm =>
    cases rtype with
    | PTR =>
      simp only
      split
      · exact h
      · split
        · exact h
        · split
          · rcases addEntry_cases P env st data.service data.service with
              ⟨e, _, hr⟩ | ⟨_, hr⟩ | ⟨_, hr⟩ | ⟨hs, hr⟩ <;> rw [hr] <;>
              exact RemovalsZero_of_eq h rfl
          · exact h
    | SRV =>
      simp only
      split
      · exact h
      · split
        · split
          · rcases addEntry_cases P env st data.fromname data.fromname with
              ⟨e, _, hr⟩ | ⟨_, hr⟩ | ⟨_, hr⟩ | ⟨hs, hr⟩ <;> rw [hr]
            · exact h
            · exact h
            · exact RemovalsZero_of_eq h rfl
            · exact RemovalsZero_ite h rfl (fun hf => Bool.noConfusion hf)
          · exact h
        · exact h
    | TXT =>
      simp only
      split
      · exact h
      · exact RemovalsZero_foldl_txtPair _ h
    | OTHER => exact h

theorem RemovalsZero_announce {P : Deps} {env : Env} {dm : Option UA_DiscoveryManager}
    {st : Registry} {serverName discoveryUrl : UA_String} {isOnline : Bool}
    (h : RemovalsZero st) :
    RemovalsZero (UA_Discovery_updateMdnsForDiscoveryUrl P env dm st serverName discoveryUrl
      isOnline) := by
  unfold UA_Discovery_updateMdnsForDiscoveryUrl
  cases dm with
  | none => exact h
  | some dm =>
    simp only
    split
    · exact h
    · cases hp : P.UA_parseEndpointUrl discoveryUrl with
      | none => exact h
      | some r =>
        obtain ⟨hostname, port, path⟩ := r
        simp only
        split
        · exact h
        · split
          · exact h
          · split
            · rcases addEntry_cases P env st (serviceDomain serverName hostname)
                (serviceDomain serverName hostname) with
                ⟨e, _, hr⟩ | ⟨_, hr⟩ | ⟨_, hr⟩ | ⟨hs, hr⟩ <;> rw [hr]
              · exact h
              · exact h
              · exact RemovalsZero_of_eq h rfl
              · exact RemovalsZero_ite h rfl (fun hf => Bool.noConfusion hf)
            · exact h

theorem RemovalsZero_clearLoop {P : Deps} {dm : UA_DiscoveryManager}
    {past : Ptr → List Char} :
    ∀ (n : Nat) (son : Option Ptr) (st : Registry), RemovalsZero st →
      RemovalsZero (clearLoop P dm past n son st) := by
  intro n
  induction n with
  | zero => intro son st h; exact h
  | succ n ih =>
    intro son st h
    cases son with
    | none => exact h
    | some son =>
      simp only [clearLoop]
      exact ih _ _ (RemovalsZero_removeEntry h)

theorem RemovalsZero_step {P : Deps} {st : Registry} (op : Op) (h : RemovalsZero st) :
    RemovalsZero (step P st op) := by
  cases op with
  | answer dm env entry rtype data => exact RemovalsZero_query_callback h
  | announce dm env serverName discoveryUrl isOnline => exact RemovalsZero_announce h
  | findOrInsert env name => exact RemovalsZero_of_eq h (addEntry_observed _ _ _ _ _)
  | remove dm f s => exact RemovalsZero_removeEntry h
  | clear dm past =>
    cases dm with
    | none => exact h
    | some dm =>
      exact RemovalsZero_of_eq
        (@RemovalsZero_clearLoop P dm past _ st.serverOnNetwork.head? st h) rfl
  | resetCounter dm env =>
    cases dm with
    | none => exact h
    | some dm => exact RemovalsZero_of_eq h rfl

theorem RemovalsZero_run_from {P : Deps} (ops : List Op) {st : Registry}
    (h : RemovalsZero st) : RemovalsZero (run P st ops) := by
  induction ops generalizing st with
  | nil => exact h
  | cons op ops ih => exact ih (RemovalsZero_step op h)

/-- C4 (as the code behaves): the removal path marks its call to the listener
by `recordId` 0, and in every state reachable from the initial registry every
call from the removal path carried 0; but `recordId` is read from the counter
before the counter is advanced and the counter starts at 0, so the first entry
announced on a fresh registry (valid URL, listener registered, allocation
succeeding) is a live entry with `recordId` 0, not 1, and the one call the
listener received for it is a change call that carries `recordId` 0. -/
theorem C4_first_entry_has_record_id_zero (P : Deps) (ops : List Op) (env : Env)
    (dm : UA_DiscoveryManager) (serverName discoveryUrl host path : UA_String) (port : Nat)
    (hcb : dm.serverOnNetworkCallback = true)
    (hparse : P.UA_parseEndpointUrl discoveryUrl = some (host, port, path))
    (hhost : 0 < host.length) (hhost256 : host.length < 256)
    (hname : (serviceDomain serverName host).length < 256)
    (ha : env.mallocEntry = true) (hb : env.copyServerName = true)
    (hc : env.mallocHashEntry = true) :
    (UA_Discovery_updateMdnsForDiscoveryUrl P env (some dm) mdnsPrivateData serverName
      discoveryUrl true).serverOnNetwork = [1] ∧
    ((UA_Discovery_updateMdnsForDiscoveryUrl P env (some dm) mdnsPrivateData serverName
      discoveryUrl true).heap 1).serverOnNetwork.recordId = 0 ∧
    (UA_Discovery_updateMdnsForDiscoveryUrl P env (some dm) mdnsPrivateData serverName
      discoveryUrl true).observed.map (fun o => (o.removal, o.entry, o.view.recordId))
      = [(false, 1, 0)] ∧
    (∀ o ∈ (run P mdnsPrivateData ops).observed, o.removal = true → o.view.recordId = 0) := by
  have h := @announce_creates P env dm mdnsPrivateData serverName discoveryUrl host path port
    hparse hhost hhost256 hname (by simp [mdnsPrivateData, chainSearch]) ha hb hc
  rw [h]
  refine ⟨rfl, ?_, ?_, RemovalsZero_run_from ops (fun o ho => absurd ho (List.not_mem_nil o))⟩
  · simp [afterAnnounce, inserted, setAt, freshEntry, mdnsPrivateData]
  · simp [afterAnnounce, inserted, setAt, freshEntry, mdnsPrivateData, bumped, hcb]

/-- Witness for C4: the announcement of `srvX` at `opc.tcp://h:4841/X`; the
sequence of operations is that announcement followed by a clear. -/
theorem C4_first_entry_has_record_id_zero_witness :
    (UA_Discovery_updateMdnsForDiscoveryUrl sampleDeps (envOk 1 1) (some dmListening)
      mdnsPrivateData "srvX".toList "opc.tcp://h:4841/X".toList true).serverOnNetwork = [1] ∧
    ((UA_Discovery_updateMdnsForDiscoveryUrl sampleDeps (envOk 1 1) (some dmListening)
      mdnsPrivateData "srvX".toList "opc.tcp://h:4841/X".toList true).heap
        1).serverOnNetwork.recordId = 0 ∧
    (UA_Discovery_updateMdnsForDiscoveryUrl sampleDeps (envOk 1 1) (some dmListening)
      mdnsPrivateData "srvX".toList "opc.tcp://h:4841/X".toList true).observed.map
        (fun o => (o.removal, o.entry, o.view.recordId)) = [(false, 1, 0)] ∧
    (∀ o ∈ (run sampleDeps mdnsPrivateData
        [.announce (some dmListening) (envOk 1 1) "srvX".toList "opc.tcp://h:4841/X".toList
           true,
         .clear (some dmListening) (fun _ => [])]).observed,
      o.removal = true → o.view.recordId = 0) :=
  C4_first_entry_has_record_id_zero sampleDeps
    [.announce (some dmListening) (envOk 1 1) "srvX".toList "opc.tcp://h:4841/X".toList true,
     .clear (some dmListening) (fun _ => [])]
    (envOk 1 1) dmListening "srvX".toList "opc.tcp://h:4841/X".toList "h".toList "/X".toList
    4841 rfl (by decide) (by decide) (by decide) (by decide) rfl rfl rfl

/-! ## The record-id counter -/

theorem inserted_recordId (P : Deps) (env : Env) (st : Registry) (f : List Char)
    (s : UA_String) :
    ((inserted P env st f s).heap st.heapNext).serverOnNetwork.recordId
      = st.serverOnNetworkRecordIdCounter := by
  simp [inserted, setAt, freshEntry]

theorem inserted_counter (P : Deps) (env : Env) (st : Registry) (f : List Char)
    (s : UA_String) :
    (inserted P env st f s).serverOnNetworkRecordIdCounter
      = (st.serverOnNetworkRecordIdCounter + 1) % 2 ^ 32 := rfl

theorem inserted_lastReset (P : Deps) (env : Env) (st : Registry) (f : List Char)
    (s : UA_String) :
    (inserted P env st f s).serverOnNetworkRecordIdLastReset
      = if (st.serverOnNetworkRecordIdCounter + 1) % 2 ^ 32 = 0 then env.dateTime_now
        else st.serverOnNetworkRecordIdLastReset := rfl

theorem run_append (P : Deps) (st : Registry) (ops ops' : List Op) :
    run P st (ops ++ ops') = run P (run P st ops) ops' := by
  simp [run, List.foldl_append]

/-- The preloaded registry is a state the code reaches: `0xFFFFFFFE` insertions
that fail at the allocation of the chain node advance the counter (line 149
precedes the allocation, and nothing takes the increment back) and leave
everything else as it was. -/
theorem counter_reachable (P : Deps) (name : List Char) :
    ∀ k : Nat, run P mdnsPrivateData (List.replicate k (Op.findOrInsert (envNoNode 0 0) name))
      = { mdnsPrivateData with serverOnNetworkRecordIdCounter := k % 2 ^ 32 } := by
  intro k
  induction k with
  | zero => rfl
  | succ k ih =>
    rw [List.replicate_succ', run_append, ih, run_one]
    simp only [step]
    rw [addEntry_new (by simp [mdnsPrivateData, chainSearch])]
    simp only [envNoNode, and_self, if_true, Bool.false_eq_true, if_false, bumped,
      mdnsPrivateData, Nat.add_mod, Nat.mod_mod, ite_self]

theorem preloaded_reachable (P : Deps) :
    run P mdnsPrivateData
      (List.replicate 0xFFFFFFFE (Op.findOrInsert (envNoNode 0 0) "x".toList)) = preloaded :=
  counter_reachable P "x".toList 0xFFFFFFFE

/-- C5 (as the code behaves): with the counter at `0xFFFFFFFE` and three
creations that succeed in succession, the first entry gets `recordId`
`0xFFFFFFFE` and leaves the counter at `0xFFFFFFFF` and the reset time
untouched; the second gets `0xFFFFFFFF`, after it the counter reads 0 and the
reset time is the wall-clock time of that creation; but the third entry is
assigned `recordId` 0, the mark of the removal path, and not 1: `recordId` is
read before the counter is advanced and nothing skips 0; it is the counter that
reads 1 afterwards. -/
theorem C5_counter_wraps_to_zero (P : Deps) (env1 env2 env3 : Env)
    (st st1 st2 st3 : Registry) (f1 f2 f3 : List Char) (s1 s2 s3 : UA_String)
    (p1 p2 p3 : Ptr)
    (hc : st.serverOnNetworkRecordIdCounter = 0xFFFFFFFE)
    (h1 : UA_DiscoveryManager_addEntryToServersOnNetwork P env1 st f1 s1
      = (.GOOD, some p1, st1))
    (h2 : UA_DiscoveryManager_addEntryToServersOnNetwork P env2 st1 f2 s2
      = (.GOOD, some p2, st2))
    (h3 : UA_DiscoveryManager_addEntryToServersOnNetwork P env3 st2 f3 s3
      = (.GOOD, some p3, st3)) :
    (st1.heap p1).serverOnNetwork.recordId = 0xFFFFFFFE ∧
    st1.serverOnNetworkRecordIdCounter = 0xFFFFFFFF ∧
    st1.serverOnNetworkRecordIdLastReset = st.serverOnNetworkRecordIdLastReset ∧
    (st2.heap p2).serverOnNetwork.recordId = 0xFFFFFFFF ∧
    st2.serverOnNetworkRecordIdCounter = 0 ∧
    st2.serverOnNetworkRecordIdLastReset = env2.dateTime_now ∧
    (st3.heap p3).serverOnNetwork.recordId = 0 ∧
    st3.serverOnNetworkRecordIdCounter = 1 := by
  obtain ⟨hp1, hst1, _⟩ := addEntry_good h1
  obtain ⟨hp2, hst2, _⟩ := addEntry_good h2
  obtain ⟨hp3, hst3, _⟩ := addEntry_good h3
  have c1 : st1.serverOnNetworkRecordIdCounter = 0xFFFFFFFF := by
    rw [hst1, inserted_counter, hc]; rfl
  have c2 : st2.serverOnNetworkRecordIdCounter = 0 := by
    rw [hst2, inserted_counter, c1]; rfl
  refine ⟨?_, c1, ?_, ?_, c2, ?_, ?_, ?_⟩
  · rw [hst1, hp1, inserted_recordId, hc]
  · rw [hst1, inserted_lastReset, hc]; rfl
  · rw [hst2, hp2, inserted_recordId, c1]
  · rw [hst2, inserted_lastReset, c1]; rfl
  · rw [hst3, hp3, inserted_recordId, c2]
  · rw [hst3, inserted_counter, c2]; rfl

/-- Witness for C5: names `a`, `b`, `c` on the preloaded registry. -/
theorem C5_counter_wraps_to_zero_witness :
    (wrapFirst.2.2.heap 1).serverOnNetwork.recordId = 0xFFFFFFFE ∧
    wrapFirst.2.2.serverOnNetworkRecordIdCounter = 0xFFFFFFFF ∧
    wrapFirst.2.2.serverOnNetworkRecordIdLastReset
      = preloaded.serverOnNetworkRecordIdLastReset ∧
    (wrapSecond.2.2.heap 2).serverOnNetwork.recordId = 0xFFFFFFFF ∧
    wrapSecond.2.2.serverOnNetworkRecordIdCounter = 0 ∧
    wrapSecond.2.2.serverOnNetworkRecordIdLastReset = (envOk 200 2).dateTime_now ∧
    (wrapThird.2.2.heap 3).serverOnNetwork.recordId = 0 ∧
    wrapThird.2.2.serverOnNetworkRecordIdCounter = 1 :=
  C5_counter_wraps_to_zero sampleDeps (envOk 100 1) (envOk 200 2) (envOk 300 3)
    preloaded wrapFirst.2.2 wrapSecond.2.2 wrapThird.2.2
    "a".toList "b".toList "c".toList "a".toList "b".toList "c".toList 1 2 3
    rfl rfl rfl rfl

theorem CounterKept.trans {a b c : Registry} (h1 : CounterKept a b) (h2 : CounterKept b c) :
    CounterKept a c := by
  refine ⟨Nat.le_trans h1.1 h2.1, fun h => ?_⟩
  have hab : b.heapNext = a.heapNext := Nat.le_antisymm (h ▸ h2.1) h1.1
  rw [h2.2 (h.trans hab.symm), h1.2 hab]

theorem removals_of_entry (st : Registry) (q : Ptr → Bool) (p : Ptr) :
    ∀ (l : List Ptr), l.Nodup →
      (((l.filter q).map (removalOf st)).filter (fun o => o.entry == p)) =
        if p ∈ l ∧ q p = true then [removalOf st p] else [] := by
  intro l
  induction l with
  | nil => intro _; simp
  | cons a l ih =>
    intro hnd
    have hal : a ∉ l := (List.nodup_cons.mp hnd).1
    have ih' := ih (List.nodup_cons.mp hnd).2
    by_cases hap : a = p
    · subst hap
      have hnot : ¬ (a ∈ l ∧ q a = true) := fun h => hal h.1
      rw [if_neg hnot] at ih'
      cases hq : q a
      · simp [List.filter_cons, hq, ih']
      · simp [List.filter_cons, hq, ih', removalOf]
    · have hne : (a == p) = false := by simpa using hap
      have hpa : p ≠ a := fun e => hap e.symm
      have hmem : (p ∈ a :: l ∧ q p = true) ↔ (p ∈ l ∧ q p = true) := by
        simp [hpa]
      cases hq : q a
      · simp only [List.filter_cons, hq, Bool.false_eq_true, if_false, ih', hmem]
      · simp only [List.filter_cons, hq, if_true, List.map_cons, removalOf, hne,
          Bool.false_eq_true, if_false]
        rw [if_congr hmem rfl rfl]
        exact ih'

/-- What `clear()` does when every read of a name as a C string ends where the
name ends (in the operations that led to the state and in the call itself): it
returns `Good`, leaves the ordered list and every bucket chain empty, and the
calls it makes to the listener are, when one is registered, exactly one removal
call with `recordId` 0 for each entry that had `srvSet` true (in list order),
and none for the entries with `srvSet` false. -/
theorem clear_of_terminated (P : Deps) (ops : List Op) (dm : UA_DiscoveryManager)
    (past : Ptr → List Char) (hops : ∀ op ∈ ops, op.terminated) (hpast : ∀ p, past p = []) :
    (UA_DiscoveryManager_clearServerOnNetwork P (some dm) past (run P mdnsPrivateData ops)).1
      = UA_StatusCode.GOOD ∧
    (UA_DiscoveryManager_clearServerOnNetwork P (some dm) past
      (run P mdnsPrivateData ops)).2.serverOnNetwork = [] ∧
    (∀ i, (UA_DiscoveryManager_clearServerOnNetwork P (some dm) past
        (run P mdnsPrivateData ops)).2.serverOnNetworkHash i = []) ∧
    (UA_DiscoveryManager_clearServerOnNetwork P (some dm) past
      (run P mdnsPrivateData ops)).2.observed =
        (run P mdnsPrivateData ops).observed ++
          (if dm.serverOnNetworkCallback then
            ((run P mdnsPrivateData ops).serverOnNetwork.filter
              (fun p => ((run P mdnsPrivateData ops).heap p).srvSet)).map
              (removalOf (run P mdnsPrivateData ops))
           else []) ∧
    (run P mdnsPrivateData ops).serverOnNetwork.Nodup ∧
    (∀ p ∈ (run P mdnsPrivateData ops).serverOnNetwork,
      (((UA_DiscoveryManager_clearServerOnNetwork P (some dm) past
          (run P mdnsPrivateData ops)).2.observed.drop
            (run P mdnsPrivateData ops).observed.length).filter (fun o => o.entry == p)) =
        (if dm.serverOnNetworkCallback = true ∧
            ((run P mdnsPrivateData ops).heap p).srvSet = true then
          [{ removal := true, entry := p,
             view := { ((run P mdnsPrivateData ops).heap p).serverOnNetwork with
                       recordId := 0 } }]
         else [])) := by
  have hWF := WF_run P ops hops
  obtain ⟨h1, h2, h3, h4⟩ := @clear_spec P dm past _ hpast hWF
  refine ⟨h1, h2, h3, h4, hWF.list_nodup, ?_⟩
  intro p hp
  rw [h4, List.drop_left]
  cases hcb : dm.serverOnNetworkCallback
  · simp
  · simp only [if_true, true_and]
    rw [removals_of_entry _ _ p _ hWF.list_nodup]
    simp only [hp, true_and]
    rfl

theorem LIST_NEXT_mem {l : List Ptr} {p q : Ptr} (h : LIST_NEXT l p = some q) : q ∈ l := by
  unfold LIST_NEXT at h
  have hsub := List.dropWhile_sublist (fun r => r != p) (l := l)
  cases hd : l.dropWhile (fun r => r != p) with
  | nil => rw [hd] at h; simp at h
  | cons a t =>
    cases t with
    | nil => rw [hd] at h; simp at h
    | cons b t =>
      rw [hd] at h hsub
      have hq : b = q := by simpa using h
      subst hq
      exact hsub.subset (List.mem_cons_of_mem _ (List.mem_cons_self _ _))

theorem clearLoop_all_miss {P : Deps} {dm : UA_DiscoveryManager} {past : Ptr → List Char}
    {st : Registry}
    (hmiss : ∀ p ∈ st.serverOnNetwork,
      chainSearch st.heap (nameOf st p)
        (st.serverOnNetworkHash (hashIdx P (nameOf st p ++ past p))) = none) :
    ∀ (n : Nat) (son : Option Ptr), (∀ p, son = some p → p ∈ st.serverOnNetwork) →
      clearLoop P dm past n son st = st := by
  intro n
  induction n with
  | zero => intro son _; rfl
  | succ n ih =>
    intro son hson
    cases son with
    | none => rfl
    | some son =>
      have hm := hmiss son (hson son rfl)
      have hrm : UA_DiscoveryManager_removeEntryFromServersOnNetwork P dm st
          ((st.heap son).serverOnNetwork.serverName ++ past son)
          (st.heap son).serverOnNetwork.serverName = (.BADNOTHINGTODO, st) :=
        removeEntry_none hm
      simp only [clearLoop, hrm]
      exact ih _ (fun p hp => LIST_NEXT_mem hp)

theorem clear_all_miss {P : Deps} {dm : UA_DiscoveryManager} {past : Ptr → List Char}
    {st : Registry}
    (hmiss : ∀ p ∈ st.serverOnNetwork,
      chainSearch st.heap (nameOf st p)
        (st.serverOnNetworkHash (hashIdx P (nameOf st p ++ past p))) = none) :
    UA_DiscoveryManager_clearServerOnNetwork P (some dm) past st
      = (.GOOD,
          { st with
            selfMdnsRecord := []
            serverOnNetworkHash := fun i =>
              if i < SERVER_ON_NETWORK_HASH_SIZE then [] else st.serverOnNetworkHash i }) := by
  unfold UA_DiscoveryManager_clearServerOnNetwork
  simp only
  rw [clearLoop_all_miss hmiss _ _ (fun p hp => List.mem_of_mem_head? hp)]

/-- C7 (as the code behaves): `clear()` passes the name buffer of each entry to
the removal as a C string, and the buffer holds no terminator, so the removal
hashes the name together with the bytes `past p` that lie behind it.  Whenever
for each entry the chain of the bucket so computed holds no entry that compares
equal to its name, every removal returns `BadNothingToDo`: `clear()` returns
`Good` and has emptied the 1000 chains, but the ordered list is what it was,
every entry is as it was, and the listener received no call, also for the
entries with `srvSet` true. -/
theorem C7_clear_leaves_missed_entries (P : Deps) (dm : UA_DiscoveryManager)
    (past : Ptr → List Char) (st : Registry)
    (hmiss : ∀ p ∈ st.serverOnNetwork,
      chainSearch st.heap (nameOf st p)
        (st.serverOnNetworkHash (hashIdx P (nameOf st p ++ past p))) = none) :
    (UA_DiscoveryManager_clearServerOnNetwork P (some dm) past st).1 = UA_StatusCode.GOOD ∧
    (UA_DiscoveryManager_clearServerOnNetwork P (some dm) past st).2.serverOnNetwork
      = st.serverOnNetwork ∧
    (∀ i, i < SERVER_ON_NETWORK_HASH_SIZE →
      (UA_DiscoveryManager_clearServerOnNetwork P (some dm) past st).2.serverOnNetworkHash i
        = []) ∧
    (UA_DiscoveryManager_clearServerOnNetwork P (some dm) past st).2.observed = st.observed ∧
    (UA_DiscoveryManager_clearServerOnNetwork P (some dm) past st).2.heap = st.heap := by
  rw [clear_all_miss hmiss]
  refine ⟨rfl, rfl, ?_, rfl, rfl⟩
  intro i hi
  simp only [hi, if_true]

/-- Witness for C7: the registry after the announcement of `srvX` at
`opc.tcp://h:4841/X`, with a listener registered, holds one entry, which has
`srvSet` true; behind its name lies the byte `x`. -/
theorem C7_clear_leaves_missed_entries_witness :
    (announceFresh.serverOnNetwork = [1] ∧ (announceFresh.heap 1).srvSet = true ∧
      dmListening.serverOnNetworkCallback = true) ∧
    (UA_DiscoveryManager_clearServerOnNetwork sampleDeps (some dmListening) strayX
      announceFresh).1 = UA_StatusCode.GOOD ∧
    (UA_DiscoveryManager_clearServerOnNetwork sampleDeps (some dmListening) strayX
      announceFresh).2.serverOnNetwork = announceFresh.serverOnNetwork ∧
    (∀ i, i < SERVER_ON_NETWORK_HASH_SIZE →
      (UA_DiscoveryManager_clearServerOnNetwork sampleDeps (some dmListening) strayX
        announceFresh).2.serverOnNetworkHash i = []) ∧
    (UA_DiscoveryManager_clearServerOnNetwork sampleDeps (some dmListening) strayX
      announceFresh).2.observed = announceFresh.observed ∧
    (UA_DiscoveryManager_clearServerOnNetwork sampleDeps (some dmListening) strayX
      announceFresh).2.heap = announceFresh.heap :=
  ⟨by decide,
    C7_clear_leaves_missed_entries sampleDeps dmListening strayX announceFresh (by decide)⟩

/-! ## Counting the nodes of the chains -/

theorem hashIdx_lt (P : Deps) (record : List Char) :
    hashIdx P record < SERVER_ON_NETWORK_HASH_SIZE :=
  Nat.mod_lt _ (by decide)

theorem chain_length_eq_filter {P : Deps} {st : Registry} (h : WF P st) (i : Nat) :
    (st.serverOnNetworkHash i).length
      = (st.serverOnNetwork.filter (fun p => bucketOf P st p == i)).length := by
  apply List.Perm.length_eq
  apply (List.perm_ext_iff_of_nodup (h.chain_nodup i) (h.list_nodup.filter _)).2
  intro p
  rw [h.mem_chain i p, List.mem_filter]
  simp

theorem sum_filter_length (b : Ptr → Nat) (n : Nat) :
    ∀ (l : List Ptr), (∀ p ∈ l, b p < n) →
      Finset.sum (Finset.range n) (fun i => (l.filter (fun p => b p == i)).length)
        = l.length := by
  intro l
  induction l with
  | nil => intro _; simp
  | cons a l ih =>
    intro hb
    have ha : b a < n := hb a (List.mem_cons_self _ _)
    have hl := ih (fun p hp => hb p (List.mem_cons_of_mem _ hp))
    have hstep : ∀ i, ((a :: l).filter (fun p => b p == i)).length
        = (if b a = i then 1 else 0) + (l.filter (fun p => b p == i)).length := by
      intro i
      by_cases hi : b a = i
      · simp [List.filter_cons, hi]; omega
      · simp [List.filter_cons, hi]
    simp only [hstep, Finset.sum_add_distrib, hl, Finset.sum_ite_eq, Finset.mem_range, ha,
      if_true, List.length_cons]
    omega

/-- Lock-step of list and chains when every read of a name as a C string ends
where the name ends: after every such sequence of operations from the empty
registry the length of the ordered list equals the sum of the lengths of the
1000 bucket chains, and every live entry is referenced by exactly one node of
exactly one bucket chain. -/
theorem lock_step_of_terminated (P : Deps) (ops : List Op)
    (hops : ∀ op ∈ ops, op.terminated) :
    (run P mdnsPrivateData ops).serverOnNetwork.length =
      Finset.sum (Finset.range SERVER_ON_NETWORK_HASH_SIZE)
        (fun i => ((run P mdnsPrivateData ops).serverOnNetworkHash i).length) ∧
    (∀ p ∈ (run P mdnsPrivateData ops).serverOnNetwork,
      ∃ i, i < SERVER_ON_NETWORK_HASH_SIZE ∧
        ((run P mdnsPrivateData ops).serverOnNetworkHash i).count p = 1 ∧
        ∀ j, j ≠ i → ((run P mdnsPrivateData ops).serverOnNetworkHash j).count p = 0) := by
  have hWF := WF_run P ops hops
  constructor
  · simp only [chain_length_eq_filter hWF]
    exact (sum_filter_length _ _ _ (fun p _ => hashIdx_lt P _)).symm
  · intro p hp
    refine ⟨bucketOf P (run P mdnsPrivateData ops) p, hashIdx_lt P _, ?_, ?_⟩
    · exact List.count_eq_one_of_mem (hWF.chain_nodup _) ((hWF.mem_chain _ p).2 ⟨hp, rfl⟩)
    · intro j hj
      apply List.count_eq_zero_of_not_mem
      intro hm
      exact hj ((hWF.mem_chain j p).1 hm).2.symm

theorem created_then_clear {P : Deps} {env : Env} {dm : UA_DiscoveryManager}
    {name : List Char} {past : Ptr → List Char}
    (ha : env.mallocEntry = true) (hb : env.copyServerName = true)
    (hc : env.mallocHashEntry = true)
    (hne : hashIdx P (name ++ past 1) ≠ hashIdx P name) :
    run P mdnsPrivateData [.findOrInsert env name, .clear (some dm) past]
      = { inserted P env mdnsPrivateData name name with
          selfMdnsRecord := []
          serverOnNetworkHash := fun _ => [] } := by
  have h1 : step P mdnsPrivateData (.findOrInsert env name)
      = inserted P env mdnsPrivateData name name := by
    simp only [step]
    rw [addEntry_new (by simp [mdnsPrivateData, chainSearch])]
    simp [ha, hb, hc]
  have hmiss : ∀ p ∈ (inserted P env mdnsPrivateData name name).serverOnNetwork,
      chainSearch (inserted P env mdnsPrivateData name name).heap
        (nameOf (inserted P env mdnsPrivateData name name) p)
        ((inserted P env mdnsPrivateData name name).serverOnNetworkHash
          (hashIdx P (nameOf (inserted P env mdnsPrivateData name name) p ++ past p)))
        = none := by
    intro p hp
    have hp1 : p = 1 := by simpa [inserted, mdnsPrivateData] using hp
    subst hp1
    have hn : nameOf (inserted P env mdnsPrivateData name name) 1 = name :=
      @nameOf_inserted_new P env mdnsPrivateData name name
    rw [hn]
    have hchain : (inserted P env mdnsPrivateData name name).serverOnNetworkHash
        (hashIdx P (name ++ past 1)) = [] := by
      simp [inserted, setAt, hne, mdnsPrivateData]
    rw [hchain]
    rfl
  rw [run_two, h1]
  simp only [step]
  rw [clear_all_miss hmiss]
  have hfun : (fun i => if i < SERVER_ON_NETWORK_HASH_SIZE then []
      else (inserted P env mdnsPrivateData name name).serverOnNetworkHash i)
      = (fun _ => ([] : List Ptr)) := by
    funext i
    by_cases hi : i < SERVER_ON_NETWORK_HASH_SIZE
    · simp [hi]
    · have hidx : i ≠ hashIdx P name := fun e => hi (e ▸ hashIdx_lt P name)
      simp [hi, inserted, setAt, hidx, mdnsPrivateData]
  simp only [hfun]

/-- C8 (as the code behaves): an entry is created on the empty registry and
`clear()` follows; behind the name buffer lie bytes with which the name hashes
to another bucket than without them.  The removal inside `clear()` looks into
that other bucket, finds nothing and leaves the entry in the ordered list, and
`clear()` then empties every chain: the list has one element, the chains
together have none, and no chain node references the live entry. -/
theorem C8_clear_breaks_lock_step (P : Deps) (env : Env) (dm : UA_DiscoveryManager)
    (name : List Char) (past : Ptr → List Char)
    (ha : env.mallocEntry = true) (hb : env.copyServerName = true)
    (hc : env.mallocHashEntry = true)
    (hne : hashIdx P (name ++ past 1) ≠ hashIdx P name) :
    (run P mdnsPrivateData
      [.findOrInsert env name, .clear (some dm) past]).serverOnNetwork = [1] ∧
    (run P mdnsPrivateData
      [.findOrInsert env name, .clear (some dm) past]).serverOnNetwork.length = 1 ∧
    Finset.sum (Finset.range SERVER_ON_NETWORK_HASH_SIZE)
      (fun i => ((run P mdnsPrivateData
        [.findOrInsert env name, .clear (some dm) past]).serverOnNetworkHash i).length) = 0 ∧
    (∀ i, ((run P mdnsPrivateData
      [.findOrInsert env name, .clear (some dm) past]).serverOnNetworkHash i).count 1 = 0) := by
  rw [created_then_clear ha hb hc hne]
  refine ⟨rfl, rfl, ?_, ?_⟩
  · simp
  · intro i
    simp

/-- Witness for C8: the name `a` under the byte-sum hash, with the byte `x`
behind its buffer. -/
theorem C8_clear_breaks_lock_step_witness :
    (run sampleDeps mdnsPrivateData
      [.findOrInsert (envOk 1 1) "a".toList,
       .clear (some dmListening) strayX]).serverOnNetwork = [1] ∧
    (run sampleDeps mdnsPrivateData
      [.findOrInsert (envOk 1 1) "a".toList,
       .clear (some dmListening) strayX]).serverOnNetwork.length = 1 ∧
    Finset.sum (Finset.range SERVER_ON_NETWORK_HASH_SIZE)
      (fun i => ((run sampleDeps mdnsPrivateData
        [.findOrInsert (envOk 1 1) "a".toList,
         .clear (some dmListening) strayX]).serverOnNetworkHash i).length) = 0 ∧
    (∀ i, ((run sampleDeps mdnsPrivateData
      [.findOrInsert (envOk 1 1) "a".toList,
       .clear (some dmListening) strayX]).serverOnNetworkHash i).count 1 = 0) :=
  C8_clear_breaks_lock_step sampleDeps (envOk 1 1) dmListening "a".toList strayX
    rfl rfl rfl (by decide)

/-! ## Two names in one bucket -/

theorem add_or_get_lookup (P : Deps) (env : Env) (st : Registry) (record : List Char)
    (serverName : UA_String) :
    mdns_record_add_or_get P env st record serverName false
      = (chainSearch st.heap serverName (st.serverOnNetworkHash (hashIdx P record)), st) := by
  unfold mdns_record_add_or_get
  cases chainSearch st.heap serverName (st.serverOnNetworkHash (hashIdx P record)) <;> rfl

/-! ## Answers owned by the local record -/

theorem srv_creates {P : Deps} {env : Env} {dm : UA_DiscoveryManager} {st : Registry}
    {data : Datagram}
    (hh : data.srv.name.length > 0) (hlen : (srvUri data.srv).length < 256)
    (hnone : chainSearch st.heap data.fromname
      (st.serverOnNetworkHash (hashIdx P data.fromname)) = none)
    (ha : env.mallocEntry = true) (hb : env.copyServerName = true)
    (hc : env.mallocHashEntry = true) :
    query_callback P env (some dm) .ANSWER .SRV data st
      = afterSrv P env dm st data.fromname (srvUri data.srv) := by
  unfold query_callback
  have hpos : 0 < (srvUri data.srv).length := by simp [srvUri]
  simp only [ne_eq, not_true_eq_false, if_false, hh, if_true, gt_iff_lt, hlen, hpos,
    and_self, addEntry_new hnone, ha, hb, hc]
  rfl

theorem addEntry_setSelf (P : Deps) (env : Env) (st : Registry) (f : List Char)
    (s n : UA_String) :
    UA_DiscoveryManager_addEntryToServersOnNetwork P env (setSelf n st) f s
      = ((UA_DiscoveryManager_addEntryToServersOnNetwork P env st f s).1,
         (UA_DiscoveryManager_addEntryToServersOnNetwork P env st f s).2.1,
         setSelf n (UA_DiscoveryManager_addEntryToServersOnNetwork P env st f s).2.2) := by
  unfold UA_DiscoveryManager_addEntryToServersOnNetwork
  simp only [setSelf]
  cases chainSearch st.heap s (st.serverOnNetworkHash (hashIdx P f)) with
  | some e => rfl
  | none =>
    cases env.mallocEntry <;> cases env.copyServerName <;> cases env.mallocHashEntry <;> rfl

theorem txtPair_setSelf (P : Deps) (env : Env) (fromname : List Char) (st : Registry)
    (t : mdns_record_txt_t) (n : UA_String) :
    txtPair P env fromname (setSelf n st) t = setSelf n (txtPair P env fromname st t) := by
  unfold txtPair
  rw [addEntry_setSelf]
  rcases UA_DiscoveryManager_addEntryToServersOnNetwork P env st fromname fromname with
    ⟨code, optr, st1⟩
  by_cases h1 : t.key.length > 0 ∧ strncmp t.key "path".toList t.key.length = 0 <;>
    by_cases h2 : t.value.length > 0 <;>
    simp only [h1, h2, if_true, if_false] <;>
    first
      | rfl
      | (cases code <;> cases optr <;> rfl)

theorem foldl_txtPair_setSelf (P : Deps) (env : Env) (fromname : List Char) (n : UA_String) :
    ∀ (l : List mdns_record_txt_t) (st : Registry),
      l.foldl (txtPair P env fromname) (setSelf n st)
        = setSelf n (l.foldl (txtPair P env fromname) st) := by
  intro l
  induction l with
  | nil => intro st; rfl
  | cons t l ih =>
    intro st
    rw [List.foldl_cons, List.foldl_cons, txtPair_setSelf, ih]

theorem query_callback_setSelf (P : Deps) (env : Env) (dm : Option UA_DiscoveryManager)
    (entry : mdns_entry_type_t) (rtype : mdns_record_type_t) (data : Datagram)
    (st : Registry) (n : UA_String) :
    query_callback P env dm entry rtype data (setSelf n st)
      = setSelf n (query_callback P env dm entry rtype data st) := by
  unfold query_callback
  cases dm with
  | none => rfl
  | some dm =>
    cases rtype with
    | PTR =>
      simp only
      rw [addEntry_setSelf]
      rcases UA_DiscoveryManager_addEntryToServersOnNetwork P env st data.service
        data.service with ⟨code, optr, st1⟩
      by_cases h1 : entry = .ANSWER <;>
        by_cases h2 : (!strstrFound (cstr data.fromname) "_opcua-tcp".toList) = true <;>
        by_cases h3 : data.service.length > 0 <;>
        simp only [ne_eq, h1, h2, h3, not_true_eq_false, not_false_eq_true, if_true,
          if_false] <;>
        first
          | rfl
          | (cases code <;> cases optr <;> rfl)
    | SRV =>
      simp only
      rw [addEntry_setSelf]
      rcases UA_DiscoveryManager_addEntryToServersOnNetwork P env st data.fromname
        data.fromname with ⟨code, optr, st1⟩
      by_cases h1 : entry = .ANSWER <;>
        by_cases h2 : data.srv.name.length > 0 <;>
        by_cases h3 : (srvUri data.srv).length > 0 ∧ (srvUri data.srv).length < 256 <;>
        (simp only [ne_eq, h1, h2, h3, not_true_eq_false, not_false_eq_true, if_true,
          if_false]
         try (cases code <;> cases optr <;> rfl))
    | TXT =>
      simp only
      rw [foldl_txtPair_setSelf]
      by_cases h1 : entry = .ANSWER <;>
        simp only [ne_eq, h1, not_true_eq_false, not_false_eq_true, if_true, if_false]
    | OTHER => rfl

theorem self_query_callback (P : Deps) (env : Env) (dm : Option UA_DiscoveryManager)
    (entry : mdns_entry_type_t) (rtype : mdns_record_type_t) (data : Datagram)
    (st : Registry) :
    (query_callback P env dm entry rtype data st).selfMdnsRecord = st.selfMdnsRecord := by
  have h : query_callback P env dm entry rtype data st
      = setSelf st.selfMdnsRecord (query_callback P env dm entry rtype data st) :=
    query_callback_setSelf P env dm entry rtype data st st.selfMdnsRecord
  rw [h]
  rfl

theorem self_announce (P : Deps) (env : Env) (dm : Option UA_DiscoveryManager)
    (st : Registry) (serverName discoveryUrl : UA_String) (isOnline : Bool) :
    (UA_Discovery_updateMdnsForDiscoveryUrl P env dm st serverName discoveryUrl
      isOnline).selfMdnsRecord = st.selfMdnsRecord := by
  unfold UA_Discovery_updateMdnsForDiscoveryUrl
  cases dm with
  | none => rfl
  | some dm =>
    simp only
    split
    · rfl
    · cases hp : P.UA_parseEndpointUrl discoveryUrl with
      | none => rfl
      | some r =>
        obtain ⟨hostname, port, path⟩ := r
        simp only
        split
        · rfl
        · split
          · rfl
          · split
            · rcases addEntry_cases P env st (serviceDomain serverName hostname)
                (serviceDomain serverName hostname) with
                ⟨e, _, hr⟩ | ⟨_, hr⟩ | ⟨_, hr⟩ | ⟨hs, hr⟩ <;> rw [hr] <;> rfl
            · rfl

theorem self_step (P : Deps) (st : Registry) (op : Op) :
    (step P st op).selfMdnsRecord = st.selfMdnsRecord ∨
    (step P st op).selfMdnsRecord = [] := by
  cases op with
  | answer dm env entry rtype data => exact Or.inl (self_query_callback _ _ _ _ _ _ _)
  | announce dm env serverName discoveryUrl isOnline =>
    exact Or.inl (self_announce _ _ _ _ _ _ _)
  | findOrInsert env name =>
    left
    simp only [step]
    rcases addEntry_cases P env st name name with
      ⟨e, _, hr⟩ | ⟨_, hr⟩ | ⟨_, hr⟩ | ⟨hs, hr⟩ <;> rw [hr] <;> rfl
  | remove dm f s =>
    left
    simp only [step]
    cases hs : chainSearch st.heap s (st.serverOnNetworkHash (hashIdx P f)) with
    | none => rw [removeEntry_none hs]
    | some e => rw [removeEntry_some hs]; rfl
  | clear dm past =>
    cases dm with
    | none => exact Or.inl rfl
    | some dm => exact Or.inr rfl
  | resetCounter dm env =>
    cases dm with
    | none => exact Or.inl rfl
    | some dm => exact Or.inl rfl

theorem self_run (P : Deps) (ops : List Op) :
    ∀ (st : Registry), st.selfMdnsRecord = [] → (run P st ops).selfMdnsRecord = [] := by
  induction ops with
  | nil => intro st h; exact h
  | cons op ops ih =>
    intro st h
    apply ih
    rcases self_step P st op with h' | h'
    · rw [h', h]
    · exact h'

/-- C10 fails as stated: on the empty registry whose `selfMdnsRecord` is
`self._opcua-tcp._tcp.local.`, an SRV answer with that owner name (target
`h.local`, port 4840) does not leave the list as it was and does call the
listener. -/
theorem C10_counterexample :
    (withSelf "self._opcua-tcp._tcp.local.".toList).selfMdnsRecord = srvOfSelf.fromname ∧
    (withSelf "self._opcua-tcp._tcp.local.".toList).serverOnNetwork = [] ∧
    ¬ ((query_callback sampleDeps (envOk 1 1) (some dmListening) .ANSWER .SRV srvOfSelf
        (withSelf "self._opcua-tcp._tcp.local.".toList)).serverOnNetwork
      = (withSelf "self._opcua-tcp._tcp.local.".toList).serverOnNetwork) ∧
    ¬ ((query_callback sampleDeps (envOk 1 1) (some dmListening) .ANSWER .SRV srvOfSelf
        (withSelf "self._opcua-tcp._tcp.local.".toList)).observed = []) := by
  decide

/-- C10 (amended): no operation of the file assigns `selfMdnsRecord`: in every
state reached from the initial registry it is empty.  `query_callback` does not
read it: for every state and every PTR, SRV or TXT answer, the answer is
processed the same whatever `selfMdnsRecord` holds, also when it holds the
owner name of the answer.  In particular, on the otherwise empty registry whose
`selfMdnsRecord` is `n`, with a listener registered and allocation succeeding,
an SRV answer whose owner name is `n` (non-empty target host, URL shorter than
256 bytes) creates an entry named `n` with `srvSet` true, and the listener is
called once. -/
theorem C10_self_record_is_not_consulted (P : Deps) (ops : List Op) (env0 env : Env)
    (dm0 : Option UA_DiscoveryManager) (dm : UA_DiscoveryManager)
    (entry : mdns_entry_type_t) (rtype : mdns_record_type_t) (data : Datagram)
    (st : Registry) (n : UA_String) (srv : mdns_record_srv_t) (service : List Char)
    (txt : List mdns_record_txt_t)
    (hcb : dm.serverOnNetworkCallback = true)
    (hh : srv.name.length > 0) (hlen : (srvUri srv).length < 256)
    (ha : env.mallocEntry = true) (hb : env.copyServerName = true)
    (hc : env.mallocHashEntry = true) :
    (run P mdnsPrivateData ops).selfMdnsRecord = [] ∧
    query_callback P env0 dm0 entry rtype data (setSelf n st)
      = setSelf n (query_callback P env0 dm0 entry rtype data st) ∧
    (withSelf n).selfMdnsRecord = n ∧
    (query_callback P env (some dm) .ANSWER .SRV
      { fromname := n, service := service, srv := srv, txt := txt }
      (withSelf n)).serverOnNetwork = [1] ∧
    ((query_callback P env (some dm) .ANSWER .SRV
      { fromname := n, service := service, srv := srv, txt := txt }
      (withSelf n)).heap 1).serverOnNetwork.serverName = n ∧
    ((query_callback P env (some dm) .ANSWER .SRV
      { fromname := n, service := service, srv := srv, txt := txt }
      (withSelf n)).heap 1).srvSet = true ∧
    (query_callback P env (some dm) .ANSWER .SRV
      { fromname := n, service := service, srv := srv, txt := txt }
      (withSelf n)).observed.length = 1 := by
  have hs : query_callback P env (some dm) .ANSWER .SRV
      { fromname := n, service := service, srv := srv, txt := txt } (withSelf n)
      = afterSrv P env dm (withSelf n) n (srvUri srv) :=
    srv_creates hh hlen (by simp [withSelf, mdnsPrivateData, chainSearch]) ha hb hc
  refine ⟨self_run P ops _ rfl, query_callback_setSelf _ _ _ _ _ _ _ _, ?_⟩
  rw [hs]
  simp [afterSrv, inserted, bumped, withSelf, mdnsPrivateData, setAt, freshEntry, hcb]

/-- Witness for C10 (amended): the operations `staleOps`; the registry they
leave, with `selfMdnsRecord` holding `self._opcua-tcp._tcp.local.`, and the SRV
answer owned by that name; and the same answer on the otherwise empty
registry. -/
theorem C10_self_record_is_not_consulted_witness :
    (run sampleDeps mdnsPrivateData staleOps).selfMdnsRecord = [] ∧
    query_callback sampleDeps (envOk 7 7) (some dmListening) .ANSWER .SRV srvOfSelf
        (setSelf "self._opcua-tcp._tcp.local.".toList stale)
      = setSelf "self._opcua-tcp._tcp.local.".toList
          (query_callback sampleDeps (envOk 7 7) (some dmListening) .ANSWER .SRV srvOfSelf
            stale) ∧
    (withSelf "self._opcua-tcp._tcp.local.".toList).selfMdnsRecord
      = "self._opcua-tcp._tcp.local.".toList ∧
    (query_callback sampleDeps (envOk 1 1) (some dmListening) .ANSWER .SRV
      { fromname := "self._opcua-tcp._tcp.local.".toList, service := [],
        srv := ⟨0, 0, 4840, "h.local".toList⟩, txt := [] }
      (withSelf "self._opcua-tcp._tcp.local.".toList)).serverOnNetwork = [1] ∧
    ((query_callback sampleDeps (envOk 1 1) (some dmListening) .ANSWER .SRV
      { fromname := "self._opcua-tcp._tcp.local.".toList, service := [],
        srv := ⟨0, 0, 4840, "h.local".toList⟩, txt := [] }
      (withSelf "self._opcua-tcp._tcp.local.".toList)).heap 1).serverOnNetwork.serverName
      = "self._opcua-tcp._tcp.local.".toList ∧
    ((query_callback sampleDeps (envOk 1 1) (some dmListening) .ANSWER .SRV
      { fromname := "self._opcua-tcp._tcp.local.".toList, service := [],
        srv := ⟨0, 0, 4840, "h.local".toList⟩, txt := [] }
      (withSelf "self._opcua-tcp._tcp.local.".toList)).heap 1).srvSet = true ∧
    (query_callback sampleDeps (envOk 1 1) (some dmListening) .ANSWER .SRV
      { fromname := "self._opcua-tcp._tcp.local.".toList, service := [],
        srv := ⟨0, 0, 4840, "h.local".toList⟩, txt := [] }
      (withSelf "self._opcua-tcp._tcp.local.".toList)).observed.length = 1 :=
  C10_self_record_is_not_consulted sampleDeps staleOps (envOk 7 7) (envOk 1 1)
    (some dmListening) dmListening .ANSWER .SRV srvOfSelf stale
    "self._opcua-tcp._tcp.local.".toList ⟨0, 0, 4840, "h.local".toList⟩ [] [] rfl
    (by decide) (by decide) rfl rfl rfl

/-! ## Removal of a name that matches nothing -/

/-- C11 fails as stated: the registry holds one entry, created for the domain
name `a`; no entry was ever created for `adddddddddd`, which falls into the
same bucket.  Removing `adddddddddd` does not return `BadNothingToDo`: the
lookup matches the entry of `a`, the call returns `Good` and the list is
empty afterwards. -/
theorem C11_counterexample :
    aliasFirst.2.2.serverOnNetwork = [1] ∧
    nameOf aliasFirst.2.2 1 = shortName ∧
    shortName ≠ longName ∧
    ¬ (aliasRemove.1 = UA_StatusCode.BADNOTHINGTODO) ∧
    aliasRemove.1 = UA_StatusCode.GOOD ∧
    ¬ (aliasRemove.2.serverOnNetwork = aliasFirst.2.2.serverOnNetwork) ∧
    aliasRemove.2.serverOnNetwork = [] := by
  decide

/-- C11 (amended): for every registry state, a removal for `(f, s)` such that
the chain of the bucket of `f` holds no entry whose `serverName` compares equal
to `s` on the first `min` of the two lengths bytes (in particular when that
chain is empty) returns `BadNothingToDo` and returns the registry as it was:
the ordered list, every chain, every field of every entry and the trace of
listener calls are unchanged. -/
theorem C11_remove_without_match_is_noop (P : Deps) (dm : UA_DiscoveryManager)
    (st : Registry) (f : List Char) (s : UA_String)
    (h : ∀ p ∈ st.serverOnNetworkHash (hashIdx P f), namesAgree (nameOf st p) s = false) :
    UA_DiscoveryManager_removeEntryFromServersOnNetwork P dm st f s
      = (UA_StatusCode.BADNOTHINGTODO, st) :=
  removeEntry_none (chainSearch_eq_none.mpr h)

/-- Witness for C11 (amended): the registry holds the entry of `ab`; `ba` has
the same bucket and differs in the first byte. -/
theorem C11_remove_without_match_is_noop_witness :
    UA_DiscoveryManager_removeEntryFromServersOnNetwork sampleDeps dmListening
      (inserted sampleDeps (envOk 1 1) mdnsPrivateData "ab".toList "ab".toList)
      "ba".toList "ba".toList
      = (UA_StatusCode.BADNOTHINGTODO,
          inserted sampleDeps (envOk 1 1) mdnsPrivateData "ab".toList "ab".toList) :=
  C11_remove_without_match_is_noop sampleDeps dmListening
    (inserted sampleDeps (envOk 1 1) mdnsPrivateData "ab".toList "ab".toList)
    "ba".toList "ba".toList (by decide)

/-! ## The announcer -/

theorem cstr_of_noNul {s : List Char} (h : NUL ∉ s) : cstr s = s := by
  unfold cstr
  apply List.takeWhile_eq_self_iff.mpr
  intro c hc
  simp only [bne_iff_ne, ne_eq]
  intro e
  exact h (e ▸ hc)

theorem announce_offline (P : Deps) (env : Env) (dm : Option UA_DiscoveryManager)
    (st : Registry) (serverName discoveryUrl : UA_String) :
    UA_Discovery_updateMdnsForDiscoveryUrl P env dm st serverName discoveryUrl false = st := by
  unfold UA_Discovery_updateMdnsForDiscoveryUrl
  cases dm <;> rfl

theorem announce_rejected {P : Deps} {env : Env} {dm : Option UA_DiscoveryManager}
    {st : Registry} {serverName discoveryUrl host path : UA_String} {port : Nat}
    {isOnline : Bool}
    (hparse : P.UA_parseEndpointUrl discoveryUrl = some (host, port, path))
    (h : host.length = 0 ∨ ¬ (serviceDomain serverName host).length < 256) :
    UA_Discovery_updateMdnsForDiscoveryUrl P env dm st serverName discoveryUrl isOnline
      = st := by
  unfold UA_Discovery_updateMdnsForDiscoveryUrl
  cases dm with
  | none => rfl
  | some dm =>
    simp only [hparse]
    split
    · rfl
    · split
      · rfl
      · split
        · rfl
        · rename_i h0 h256
          rcases h with h | h
          · exact absurd h h0
          · have : ¬ ((serviceDomain serverName host).length > 0 ∧
                (serviceDomain serverName host).length < 256) := fun hc => h hc.2
            simp only [this, if_false]

/-- C12 fails as stated: the server name `srvX` has no NUL byte and the URL
`opc.tcp://a<NUL>b` parses to the hostname `a<NUL>b`, yet the entry the
announcement creates is not named `srvX-a<NUL>b._opcua-tcp._tcp.local.`: the
hostname is printed as a C string, and the entry is named
`srvX-a._opcua-tcp._tcp.local.`. -/
theorem C12_counterexample :
    NUL ∉ "srvX".toList ∧
    sampleDeps.UA_parseEndpointUrl nulUrl = some (nulHost, 4840, []) ∧
    announceNul.serverOnNetwork = [1] ∧
    ¬ (nameOf announceNul 1 = instanceName "srvX".toList nulHost) ∧
    nameOf announceNul 1 = "srvX-a._opcua-tcp._tcp.local.".toList := by
  decide

/-- C12 (amended): for every server name `s` and hostname `h` without NUL
bytes and every discovery URL that parses to hostname `h`, on a registry in
which the lookup of the synthesized name `s ++ "-" ++ h ++
"._opcua-tcp._tcp.local."` finds nothing, with allocation succeeding: announcing
with `isOnline = true` creates exactly one entry exactly when `h` is non-empty
and the name is at most 255 bytes long, and otherwise returns the registry
(with its counter and trace of listener calls) unchanged; `isOnline = false`
always returns it unchanged.  The created entry is the new head of the ordered
list and of the chain of the bucket of the name, is named by that name, has
`discoveryUrl` equal to the given URL, `srvSet` and `txtSet` true, and the
listener, if one is registered, is called exactly once, for that entry. -/
theorem C12_announce_creates_iff_name_fits (P : Deps) (env : Env)
    (dm : UA_DiscoveryManager) (st : Registry) (s discoveryUrl h path : UA_String)
    (port : Nat)
    (hparse : P.UA_parseEndpointUrl discoveryUrl = some (h, port, path))
    (hs : NUL ∉ s) (hh : NUL ∉ h)
    (hnone : chainSearch st.heap (instanceName s h)
      (st.serverOnNetworkHash (hashIdx P (instanceName s h))) = none)
    (ha : env.mallocEntry = true) (hb : env.copyServerName = true)
    (hc : env.mallocHashEntry = true) (hd : env.copyPayload = true) :
    UA_Discovery_updateMdnsForDiscoveryUrl P env (some dm) st s discoveryUrl true
      = (if h ≠ [] ∧ (instanceName s h).length ≤ 255 then
          afterAnnounce P env dm st (instanceName s h) discoveryUrl
         else st) ∧
    UA_Discovery_updateMdnsForDiscoveryUrl P env (some dm) st s discoveryUrl false = st ∧
    (afterAnnounce P env dm st (instanceName s h) discoveryUrl).serverOnNetwork
      = st.heapNext :: st.serverOnNetwork ∧
    (afterAnnounce P env dm st (instanceName s h) discoveryUrl).serverOnNetworkHash
        (hashIdx P (instanceName s h))
      = st.heapNext :: st.serverOnNetworkHash (hashIdx P (instanceName s h)) ∧
    ((afterAnnounce P env dm st (instanceName s h) discoveryUrl).heap
        st.heapNext).serverOnNetwork.serverName = instanceName s h ∧
    ((afterAnnounce P env dm st (instanceName s h) discoveryUrl).heap
        st.heapNext).serverOnNetwork.discoveryUrl = discoveryUrl ∧
    ((afterAnnounce P env dm st (instanceName s h) discoveryUrl).heap st.heapNext).srvSet
      = true ∧
    ((afterAnnounce P env dm st (instanceName s h) discoveryUrl).heap st.heapNext).txtSet
      = true ∧
    (afterAnnounce P env dm st (instanceName s h) discoveryUrl).observed
      = st.observed ++
        (if dm.serverOnNetworkCallback = true then
          [{ removal := false, entry := st.heapNext,
             view := ((afterAnnounce P env dm st (instanceName s h) discoveryUrl).heap
               st.heapNext).serverOnNetwork }]
         else []) := by
  have hname : serviceDomain s h = instanceName s h := by
    simp only [serviceDomain, instanceName, cstr_of_noNul hs, cstr_of_noNul hh]
  have hlenEq : (instanceName s h).length = s.length + 1 + h.length + 23 := by
    simp [instanceName]; omega
  refine ⟨?_, announce_offline _ _ _ _ _ _, ?_, ?_, ?_, ?_, ?_, ?_, ?_⟩
  · by_cases hcond : h ≠ [] ∧ (instanceName s h).length ≤ 255
    · rw [if_pos hcond]
      have hpos : 0 < h.length := List.length_pos.mpr hcond.1
      have h256 : h.length < 256 := by omega
      have hfit : (serviceDomain s h).length < 256 := by rw [hname]; omega
      rw [announce_creates hparse hpos h256 hfit (by rw [hname]; exact hnone) ha hb hc, hname]
    · rw [if_neg hcond]
      apply announce_rejected hparse
      by_cases hnil : h = []
      · left; rw [hnil]; rfl
      · right
        rw [hname]
        intro hlt
        exact hcond ⟨hnil, by omega⟩
  · rfl
  · simp [afterAnnounce, inserted, setAt]
  · simp [afterAnnounce, inserted, setAt, freshEntry]
  · simp [afterAnnounce, inserted, setAt, freshEntry, hd]
  · simp [afterAnnounce, inserted, setAt]
  · simp [afterAnnounce, inserted, setAt]
  · cases hcb : dm.serverOnNetworkCallback <;>
      simp [afterAnnounce, inserted, bumped, setAt, hcb]

/-- Witness for C12 (amended): server name `srvX`, URL `opc.tcp://h:4841/X` on
the fresh registry. -/
theorem C12_announce_creates_iff_name_fits_witness :
    UA_Discovery_updateMdnsForDiscoveryUrl sampleDeps (envOk 1 1) (some dmListening) mdnsPrivateData "srvX".toList "opc.tcp://h:4841/X".toList true
      = (if "h".toList ≠ [] ∧ (instanceName "srvX".toList "h".toList).length ≤ 255 then
          afterAnnounce sampleDeps (envOk 1 1) dmListening mdnsPrivateData (instanceName "srvX".toList "h".toList) "opc.tcp://h:4841/X".toList
         else mdnsPrivateData) ∧
    UA_Discovery_updateMdnsForDiscoveryUrl sampleDeps (envOk 1 1) (some dmListening) mdnsPrivateData "srvX".toList "opc.tcp://h:4841/X".toList false = mdnsPrivateData ∧
    (afterAnnounce sampleDeps (envOk 1 1) dmListening mdnsPrivateData (instanceName "srvX".toList "h".toList) "opc.tcp://h:4841/X".toList).serverOnNetwork
      = mdnsPrivateData.heapNext :: mdnsPrivateData.serverOnNetwork ∧
    (afterAnnounce sampleDeps (envOk 1 1) dmListening mdnsPrivateData (instanceName "srvX".toList "h".toList) "opc.tcp://h:4841/X".toList).serverOnNetworkHash
        (hashIdx sampleDeps (instanceName "srvX".toList "h".toList))
      = mdnsPrivateData.heapNext :: mdnsPrivateData.serverOnNetworkHash (hashIdx sampleDeps (instanceName "srvX".toList "h".toList)) ∧
    ((afterAnnounce sampleDeps (envOk 1 1) dmListening mdnsPrivateData (instanceName "srvX".toList "h".toList) "opc.tcp://h:4841/X".toList).heap
        mdnsPrivateData.heapNext).serverOnNetwork.serverName = instanceName "srvX".toList "h".toList ∧
    ((afterAnnounce sampleDeps (envOk 1 1) dmListening mdnsPrivateData (instanceName "srvX".toList "h".toList) "opc.tcp://h:4841/X".toList).heap
        mdnsPrivateData.heapNext).serverOnNetwork.discoveryUrl = "opc.tcp://h:4841/X".toList ∧
    ((afterAnnounce sampleDeps (envOk 1 1) dmListening mdnsPrivateData (instanceName "srvX".toList "h".toList) "opc.tcp://h:4841/X".toList).heap mdnsPrivateData.heapNext).srvSet
      = true ∧
    ((afterAnnounce sampleDeps (envOk 1 1) dmListening mdnsPrivateData (instanceName "srvX".toList "h".toList) "opc.tcp://h:4841/X".toList).heap mdnsPrivateData.heapNext).txtSet
      = true ∧
    (afterAnnounce sampleDeps (envOk 1 1) dmListening mdnsPrivateData (instanceName "srvX".toList "h".toList) "opc.tcp://h:4841/X".toList).observed
      = mdnsPrivateData.observed ++
        (if dmListening.serverOnNetworkCallback = true then
          [{ removal := false, entry := mdnsPrivateData.heapNext,
             view := ((afterAnnounce sampleDeps (envOk 1 1) dmListening mdnsPrivateData (instanceName "srvX".toList "h".toList) "opc.tcp://h:4841/X".toList).heap
               mdnsPrivateData.heapNext).serverOnNetwork }]
         else []) :=
  C12_announce_creates_iff_name_fits sampleDeps (envOk 1 1) dmListening mdnsPrivateData
    "srvX".toList "opc.tcp://h:4841/X".toList "h".toList "/X".toList 4841 rfl (by decide)
    (by decide) rfl rfl rfl rfl rfl

/-! ## SRV answers -/

theorem srv_rejected {P : Deps} {env : Env} {dm : Option UA_DiscoveryManager}
    {entry : mdns_entry_type_t} {st : Registry} {data : Datagram}
    (h : ¬ (srvUri data.srv).length < 256) :
    query_callback P env dm entry .SRV data st = st := by
  unfold query_callback
  cases dm with
  | none => rfl
  | some dm =>
    simp only
    split
    · rfl
    · split
      · have : ¬ ((srvUri data.srv).length > 0 ∧ (srvUri data.srv).length < 256) :=
          fun hc => h hc.2
        simp only [this, if_false]
      · rfl

/-- C13 fails as stated: the registry holds one entry, named `a`; the owner
name `adddddddddd` has no entry.  An SRV answer with that owner, target host
`bar.local` and port 4840 (a URL far shorter than 256 bytes) creates no entry
and the registered listener is not called: the lookup matches the entry of `a`
and the answer is dropped. -/
theorem C13_counterexample :
    aliasFirst.2.2.serverOnNetwork = [1] ∧
    nameOf aliasFirst.2.2 1 = shortName ∧
    shortName ≠ longName ∧
    (specUri "bar.local".toList 4840).length < 256 ∧
    aliasSrv.serverOnNetwork = [1] ∧
    nameOf aliasSrv 1 = shortName ∧
    (aliasSrv.heap 1).srvSet = false ∧
    aliasSrv.observed = [] := by
  decide

/-- C13 (amended): for every SRV answer with a non-empty target host `h`
without NUL bytes and port `p`, whose owner name is matched by no entry of the
chain of its bucket (no entry there compares equal to it on the first `min` of
the lengths bytes), with allocation succeeding: if the string
`"opc.tcp://" ++ h ++ ":" ++ decimal(p)` is shorter than 256 bytes, a new entry
is created, named by the owner name, with `discoveryUrl` exactly that string,
`srvSet` true and `txtSet` false, and a registered listener is called exactly
once, for that entry; if the string is 256 bytes or longer, the registry, with
its counter and trace of listener calls, is returned unchanged. -/
theorem C13_srv_creates_iff_url_fits (P : Deps) (env : Env) (dm : UA_DiscoveryManager)
    (st : Registry) (owner service h : List Char) (txt : List mdns_record_txt_t)
    (priority weight port : Nat)
    (hh : h.length > 0) (hnul : NUL ∉ h)
    (hnone : chainSearch st.heap owner (st.serverOnNetworkHash (hashIdx P owner)) = none)
    (ha : env.mallocEntry = true) (hb : env.copyServerName = true)
    (hc : env.mallocHashEntry = true) (hd : env.copyPayload = true) :
    query_callback P env (some dm) .ANSWER .SRV
        { fromname := owner, service := service, srv := ⟨priority, weight, port, h⟩,
          txt := txt } st
      = (if (specUri h port).length < 256 then afterSrv P env dm st owner (specUri h port)
         else st) ∧
    (afterSrv P env dm st owner (specUri h port)).serverOnNetwork
      = st.heapNext :: st.serverOnNetwork ∧
    (afterSrv P env dm st owner (specUri h port)).serverOnNetworkHash (hashIdx P owner)
      = st.heapNext :: st.serverOnNetworkHash (hashIdx P owner) ∧
    ((afterSrv P env dm st owner (specUri h port)).heap st.heapNext).serverOnNetwork.serverName
      = owner ∧
    ((afterSrv P env dm st owner (specUri h port)).heap
        st.heapNext).serverOnNetwork.discoveryUrl = specUri h port ∧
    ((afterSrv P env dm st owner (specUri h port)).heap st.heapNext).srvSet = true ∧
    ((afterSrv P env dm st owner (specUri h port)).heap st.heapNext).txtSet = false ∧
    (afterSrv P env dm st owner (specUri h port)).observed
      = st.observed ++
        (if dm.serverOnNetworkCallback = true then
          [{ removal := false, entry := st.heapNext,
             view := ((afterSrv P env dm st owner (specUri h port)).heap
               st.heapNext).serverOnNetwork }]
         else []) := by
  have huri : srvUri ⟨priority, weight, port, h⟩ = specUri h port := by
    simp only [srvUri, specUri, cstr_of_noNul hnul]
  refine ⟨?_, ?_, ?_, ?_, ?_, ?_, ?_, ?_⟩
  · by_cases hfit : (specUri h port).length < 256
    · rw [if_pos hfit]
      have := @srv_creates P env dm st
        { fromname := owner, service := service, srv := ⟨priority, weight, port, h⟩,
          txt := txt } hh (by rw [huri]; exact hfit) hnone ha hb hc
      rw [this, huri]
    · rw [if_neg hfit]
      exact srv_rejected (by rw [huri]; exact hfit)
  · rfl
  · simp [afterSrv, inserted, setAt]
  · simp [afterSrv, inserted, setAt, freshEntry]
  · simp [afterSrv, inserted, setAt, freshEntry, hd]
  · simp [afterSrv, inserted, setAt]
  · simp [afterSrv, inserted, setAt, freshEntry]
  · cases hcb : dm.serverOnNetworkCallback <;>
      simp [afterSrv, inserted, bumped, setAt, hcb]

/-- Witness for C13 (amended): an SRV answer owned by
`instanceA._opcua-tcp._tcp.local.` with target `bar.local` and port 4840, on the
fresh registry. -/
theorem C13_srv_creates_iff_url_fits_witness :
    query_callback sampleDeps (envOk 1 1) (some dmListening) .ANSWER .SRV
        { fromname := "instanceA._opcua-tcp._tcp.local.".toList, service := [], srv := ⟨0, 0, 4840, "bar.local".toList⟩,
          txt := [] } mdnsPrivateData
      = (if (specUri "bar.local".toList 4840).length < 256 then afterSrv sampleDeps (envOk 1 1) dmListening mdnsPrivateData "instanceA._opcua-tcp._tcp.local.".toList (specUri "bar.local".toList 4840)
         else mdnsPrivateData) ∧
    (afterSrv sampleDeps (envOk 1 1) dmListening mdnsPrivateData "instanceA._opcua-tcp._tcp.local.".toList (specUri "bar.local".toList 4840)).serverOnNetwork
      = mdnsPrivateData.heapNext :: mdnsPrivateData.serverOnNetwork ∧
    (afterSrv sampleDeps (envOk 1 1) dmListening mdnsPrivateData "instanceA._opcua-tcp._tcp.local.".toList (specUri "bar.local".toList 4840)).serverOnNetworkHash (hashIdx sampleDeps "instanceA._opcua-tcp._tcp.local.".toList)
      = mdnsPrivateData.heapNext :: mdnsPrivateData.serverOnNetworkHash (hashIdx sampleDeps "instanceA._opcua-tcp._tcp.local.".toList) ∧
    ((afterSrv sampleDeps (envOk 1 1) dmListening mdnsPrivateData "instanceA._opcua-tcp._tcp.local.".toList (specUri "bar.local".toList 4840)).heap mdnsPrivateData.heapNext).serverOnNetwork.serverName
      = "instanceA._opcua-tcp._tcp.local.".toList ∧
    ((afterSrv sampleDeps (envOk 1 1) dmListening mdnsPrivateData "instanceA._opcua-tcp._tcp.local.".toList (specUri "bar.local".toList 4840)).heap
        mdnsPrivateData.heapNext).serverOnNetwork.discoveryUrl = specUri "bar.local".toList 4840 ∧
    ((afterSrv sampleDeps (envOk 1 1) dmListening mdnsPrivateData "instanceA._opcua-tcp._tcp.local.".toList (specUri "bar.local".toList 4840)).heap mdnsPrivateData.heapNext).srvSet = true ∧
    ((afterSrv sampleDeps (envOk 1 1) dmListening mdnsPrivateData "instanceA._opcua-tcp._tcp.local.".toList (specUri "bar.local".toList 4840)).heap mdnsPrivateData.heapNext).txtSet = false ∧
    (afterSrv sampleDeps (envOk 1 1) dmListening mdnsPrivateData "instanceA._opcua-tcp._tcp.local.".toList (specUri "bar.local".toList 4840)).observed
      = mdnsPrivateData.observed ++
        (if dmListening.serverOnNetworkCallback = true then
          [{ removal := false, entry := mdnsPrivateData.heapNext,
             view := ((afterSrv sampleDeps (envOk 1 1) dmListening mdnsPrivateData "instanceA._opcua-tcp._tcp.local.".toList (specUri "bar.local".toList 4840)).heap
               mdnsPrivateData.heapNext).serverOnNetwork }]
         else []) :=
  C13_srv_creates_iff_url_fits sampleDeps (envOk 1 1) dmListening mdnsPrivateData
    "instanceA._opcua-tcp._tcp.local.".toList [] "bar.local".toList [] 0 0 4840
    (by decide) (by decide) rfl rfl rfl rfl rfl

/-! ## TXT answers -/

theorem strncmp_zero (a b : List Char) : strncmp a b 0 = 0 := by
  simp [strncmp]

theorem strncmp_cons_cons (c1 c2 : Char) (s1 s2 : List Char) (n : Nat) :
    strncmp (c1 :: s1) (c2 :: s2) (n + 1) = 0 ↔
      c1 = c2 ∧ (c1 = NUL ∨ strncmp s1 s2 n = 0) := by
  have e : strncmp (c1 :: s1) (c2 :: s2) (n + 1) =
      (if c1 ≠ c2 then (c1.toNat : Int) - (c2.toNat : Int)
       else if c1 = NUL then 0 else strncmp s1 s2 n) := rfl
  rw [e]
  by_cases h : c1 = c2
  · subst h
    by_cases h0 : c1 = NUL
    · simp [h0]
    · simp [h0]
  · simp only [ne_eq, h, not_false_eq_true, if_true, false_and, iff_false]
    intro e
    exact h (char_sub_eq_zero e)

theorem strncmp_cons_nil (c : Char) (s : List Char) (n : Nat) :
    strncmp (c :: s) [] (n + 1) = 0 ↔ c = NUL := by
  have e : strncmp (c :: s) [] (n + 1) =
      (if c ≠ NUL then (c.toNat : Int) - (NUL.toNat : Int)
       else if c = NUL then 0 else strncmp s [] n) := rfl
  rw [e]
  by_cases h : c = NUL
  · simp [h]
  · simp only [ne_eq, h, not_false_eq_true, if_true, iff_false]
    intro e
    exact h (char_sub_eq_zero e)

theorem keyAccepted_iff (k : List Char) :
    keyAccepted k = true ↔
      (k = ['p'] ∨ k = ['p', 'a'] ∨ k = ['p', 'a', 't'] ∨ k = ['p', 'a', 't', 'h']) ∨
      ∃ rest, k = ['p', 'a', 't', 'h', NUL] ++ rest := by
  have hp : ¬ 'p' = NUL := by decide
  have ha : ¬ 'a' = NUL := by decide
  have ht : ¬ 't' = NUL := by decide
  have hh : ¬ 'h' = NUL := by decide
  have hpath : "path".toList = ['p', 'a', 't', 'h'] := rfl
  rcases k with _ | ⟨a, _ | ⟨b, _ | ⟨c, _ | ⟨d, _ | ⟨e, rest⟩⟩⟩⟩⟩
  · simp [keyAccepted]
  · simp only [keyAccepted, hpath, List.length_cons, List.length_nil, strncmp_cons_cons,
      strncmp_zero]
    by_cases h1 : a = 'p'
    · subst h1; simp
    · simp [h1]
  · simp only [keyAccepted, hpath, List.length_cons, List.length_nil, strncmp_cons_cons,
      strncmp_zero]
    by_cases h1 : a = 'p'
    · subst h1
      by_cases h2 : b = 'a'
      · subst h2; simp
      · simp [h2, hp]
    · simp [h1]
  · simp only [keyAccepted, hpath, List.length_cons, List.length_nil, strncmp_cons_cons,
      strncmp_zero]
    by_cases h1 : a = 'p'
    · subst h1
      by_cases h2 : b = 'a'
      · subst h2
        by_cases h3 : c = 't'
        · subst h3; simp
        · simp [h3, hp, ha]
      · simp [h2, hp]
    · simp [h1]
  · simp only [keyAccepted, hpath, List.length_cons, List.length_nil, strncmp_cons_cons,
      strncmp_zero]
    by_cases h1 : a = 'p'
    · subst h1
      by_cases h2 : b = 'a'
      · subst h2
        by_cases h3 : c = 't'
        · subst h3
          by_cases h4 : d = 'h'
          · subst h4; simp
          · simp [h4, hp, ha, ht]
        · simp [h3, hp, ha]
      · simp [h2, hp]
    · simp [h1]
  · simp only [keyAccepted, hpath, List.length_cons, strncmp_cons_cons, strncmp_cons_nil]
    by_cases h1 : a = 'p'
    · subst h1
      by_cases h2 : b = 'a'
      · subst h2
        by_cases h3 : c = 't'
        · subst h3
          by_cases h4 : d = 'h'
          · subst h4
            by_cases h5 : e = NUL
            · subst h5; simp
            · simp [h5, hp, ha, ht, hh]
          · simp [h4, hp, ha, ht]
        · simp [h3, hp, ha]
      · simp [h2, hp]
    · simp [h1]

theorem txtPair_not_consumed {P : Deps} {env : Env} {fromname : List Char} {st : Registry}
    {t : mdns_record_txt_t} (h : txtConsumed t = false) :
    txtPair P env fromname st t = st := by
  unfold txtPair
  simp only [txtConsumed, keyAccepted, Bool.and_eq_false_iff, decide_eq_false_iff_not] at h
  rcases h with h | h
  · rw [if_neg h]
  · split <;> rfl

theorem txtPair_consumed_new {P : Deps} {env : Env} {fromname : List Char} {st : Registry}
    {t : mdns_record_txt_t} (h : txtConsumed t = true)
    (hnone : chainSearch st.heap fromname
      (st.serverOnNetworkHash (hashIdx P fromname)) = none)
    (ha : env.mallocEntry = true) (hb : env.copyServerName = true)
    (hc : env.mallocHashEntry = true) :
    txtPair P env fromname st t = afterTxt P env st fromname t.value := by
  unfold txtPair
  simp only [txtConsumed, keyAccepted, Bool.and_eq_true, decide_eq_true_eq] at h
  rw [if_pos h.1, if_pos h.2, addEntry_new hnone]
  simp only [ha, hb, hc, and_self, if_true]
  rfl

theorem chainSearch_afterTxt {P : Deps} {env : Env} {st : Registry} {name v : List Char} :
    chainSearch (afterTxt P env st name v).heap name
      ((afterTxt P env st name v).serverOnNetworkHash (hashIdx P name))
      = some st.heapNext := by
  simp [afterTxt, inserted, setAt, chainSearch, freshEntry, namesAgree_self]

theorem foldl_txtPair_first_consumed {P : Deps} {env : Env} {fromname : List Char}
    {st : Registry} {t : mdns_record_txt_t}
    (hnone : chainSearch st.heap fromname
      (st.serverOnNetworkHash (hashIdx P fromname)) = none)
    (ha : env.mallocEntry = true) (hb : env.copyServerName = true)
    (hc : env.mallocHashEntry = true) :
    ∀ (l : List mdns_record_txt_t), l.find? txtConsumed = some t →
      l.foldl (txtPair P env fromname) st = afterTxt P env st fromname t.value := by
  intro l
  induction l with
  | nil => intro h; simp at h
  | cons x l ih =>
    intro h
    rw [List.foldl_cons]
    cases hx : txtConsumed x
    · rw [txtPair_not_consumed hx]
      rw [List.find?_cons, hx] at h
      exact ih h
    · rw [List.find?_cons, hx] at h
      have hxt : x = t := Option.some.inj h
      subst hxt
      rw [txtPair_consumed_new hx hnone ha hb hc]
      exact foldl_txtPair_existing l chainSearch_afterTxt

theorem foldl_txtPair_all_skipped {P : Deps} {env : Env} {fromname : List Char}
    {st : Registry} :
    ∀ (l : List mdns_record_txt_t), (∀ t ∈ l, txtConsumed t = false) →
      l.foldl (txtPair P env fromname) st = st := by
  intro l
  induction l with
  | nil => intro _; rfl
  | cons x l ih =>
    intro h
    rw [List.foldl_cons, txtPair_not_consumed (h x (List.mem_cons_self _ _))]
    exact ih (fun t ht => h t (List.mem_cons_of_mem _ ht))

theorem foldl_txtPair_heap_frame {P : Deps} {env : Env} {fromname : List Char} :
    ∀ (l : List mdns_record_txt_t) (st : Registry) (p : Ptr), p ≠ st.heapNext →
      (l.foldl (txtPair P env fromname) st).heap p = st.heap p := by
  intro l
  induction l with
  | nil => intro st p _; rfl
  | cons x l ih =>
    intro st p hp
    rw [List.foldl_cons]
    have hcase : txtPair P env fromname st x = st ∨
        txtPair P env fromname st x = bumped env st ∨
        txtPair P env fromname st x = afterTxt P env st fromname x.value := by
      unfold txtPair
      split
      · split
        · rcases addEntry_cases P env st fromname fromname with
            ⟨e, _, hr⟩ | ⟨_, hr⟩ | ⟨_, hr⟩ | ⟨hs, hr⟩ <;> rw [hr]
          · exact Or.inl rfl
          · exact Or.inl rfl
          · exact Or.inr (Or.inl rfl)
          · exact Or.inr (Or.inr rfl)
        · exact Or.inl rfl
      · exact Or.inl rfl
    rcases hcase with h | h | h <;> rw [h]
    · exact ih st p hp
    · exact ih (bumped env st) p hp
    · rw [foldl_txtPair_existing l chainSearch_afterTxt]
      simp [afterTxt, inserted, setAt, hp]

/-- C14 (as the code behaves): the key test of the TXT branch,
`strncmp(key, "path", key.length) == 0`, compares only as many bytes as the key
has, so it also passes the keys `p`, `pa` and `pat`.  For every registry state
and every TXT answer (as a record of type answer, owner matched by no entry of
its bucket, allocation succeeding) none of whose pairs has the key `path`, but
whose first 32 pairs hold one that passes the test with a non-empty value, `t`
being the first such: the answer is not ignored, it creates an entry named by
the owner with `txtSet` true and `pathTmp` equal to the value of `t`. -/
theorem C14_key_prefix_is_consumed (P : Deps) (env : Env) (dm : UA_DiscoveryManager)
    (st : Registry) (data : Datagram) (t : mdns_record_txt_t)
    (hnopath : ∀ x ∈ data.txt, x.key ≠ "path".toList)
    (hfind : (data.txt.take 32).find? txtConsumed = some t)
    (hnone : chainSearch st.heap data.fromname
      (st.serverOnNetworkHash (hashIdx P data.fromname)) = none)
    (ha : env.mallocEntry = true) (hb : env.copyServerName = true)
    (hc : env.mallocHashEntry = true) (hd : env.copyPayload = true) :
    (t.key = "p".toList ∨ t.key = "pa".toList ∨ t.key = "pat".toList ∨
      ∃ r, t.key = "path".toList ++ NUL :: r) ∧
    (query_callback P env (some dm) .ANSWER .TXT data st).serverOnNetwork
      = st.heapNext :: st.serverOnNetwork ∧
    ((query_callback P env (some dm) .ANSWER .TXT data st).heap
      st.heapNext).serverOnNetwork.serverName = data.fromname ∧
    ((query_callback P env (some dm) .ANSWER .TXT data st).heap st.heapNext).txtSet = true ∧
    ((query_callback P env (some dm) .ANSWER .TXT data st).heap st.heapNext).pathTmp
      = some t.value := by
  have hq : query_callback P env (some dm) .ANSWER .TXT data st
      = afterTxt P env st data.fromname t.value := by
    unfold query_callback
    simp only [ne_eq, not_true_eq_false, if_false]
    exact foldl_txtPair_first_consumed hnone ha hb hc _ hfind
  have hmem : t ∈ data.txt := (List.take_subset _ _) (List.mem_of_find?_eq_some hfind)
  have hcons : txtConsumed t = true := List.find?_some hfind
  have hkey : keyAccepted t.key = true := by
    simp only [txtConsumed, Bool.and_eq_true] at hcons
    exact hcons.1
  refine ⟨?_, ?_, ?_, ?_, ?_⟩
  · rcases (keyAccepted_iff t.key).1 hkey with (h | h | h | h) | ⟨r, h⟩
    · exact Or.inl h
    · exact Or.inr (Or.inl h)
    · exact Or.inr (Or.inr (Or.inl h))
    · exact absurd h (hnopath t hmem)
    · exact Or.inr (Or.inr (Or.inr ⟨r, h⟩))
  · rw [hq]; rfl
  · rw [hq]; simp [afterTxt, inserted, setAt, freshEntry]
  · rw [hq]; simp [afterTxt, inserted, setAt]
  · rw [hq]; simp [afterTxt, inserted, setAt, hd]

/-- Witness for C14: on the fresh registry, the TXT answer owned by
`x._opcua-tcp._tcp.local.` whose only pair is `p=/x`. -/
theorem C14_key_prefix_is_consumed_witness :
    (mdns_record_txt_t.mk "p".toList "/x".toList).key ≠ "path".toList ∧
    mdnsPrivateData.serverOnNetwork = [] ∧
    ((mdns_record_txt_t.mk "p".toList "/x".toList).key = "p".toList ∨
      (mdns_record_txt_t.mk "p".toList "/x".toList).key = "pa".toList ∨
      (mdns_record_txt_t.mk "p".toList "/x".toList).key = "pat".toList ∨
      ∃ r, (mdns_record_txt_t.mk "p".toList "/x".toList).key = "path".toList ++ NUL :: r) ∧
    (query_callback sampleDeps (envOk 1 1) (some dmListening) .ANSWER .TXT
      { fromname := "x._opcua-tcp._tcp.local.".toList, service := [], srv := ⟨0, 0, 0, []⟩,
        txt := [{ key := "p".toList, value := "/x".toList }] }
      mdnsPrivateData).serverOnNetwork
      = mdnsPrivateData.heapNext :: mdnsPrivateData.serverOnNetwork ∧
    ((query_callback sampleDeps (envOk 1 1) (some dmListening) .ANSWER .TXT
      { fromname := "x._opcua-tcp._tcp.local.".toList, service := [], srv := ⟨0, 0, 0, []⟩,
        txt := [{ key := "p".toList, value := "/x".toList }] }
      mdnsPrivateData).heap mdnsPrivateData.heapNext).serverOnNetwork.serverName
      = "x._opcua-tcp._tcp.local.".toList ∧
    ((query_callback sampleDeps (envOk 1 1) (some dmListening) .ANSWER .TXT
      { fromname := "x._opcua-tcp._tcp.local.".toList, service := [], srv := ⟨0, 0, 0, []⟩,
        txt := [{ key := "p".toList, value := "/x".toList }] }
      mdnsPrivateData).heap mdnsPrivateData.heapNext).txtSet = true ∧
    ((query_callback sampleDeps (envOk 1 1) (some dmListening) .ANSWER .TXT
      { fromname := "x._opcua-tcp._tcp.local.".toList, service := [], srv := ⟨0, 0, 0, []⟩,
        txt := [{ key := "p".toList, value := "/x".toList }] }
      mdnsPrivateData).heap mdnsPrivateData.heapNext).pathTmp = some "/x".toList :=
  ⟨by decide, rfl,
    C14_key_prefix_is_consumed sampleDeps (envOk 1 1) dmListening mdnsPrivateData
      { fromname := "x._opcua-tcp._tcp.local.".toList, service := [], srv := ⟨0, 0, 0, []⟩,
        txt := [{ key := "p".toList, value := "/x".toList }] }
      { key := "p".toList, value := "/x".toList } (by decide) rfl rfl rfl rfl rfl rfl⟩

/-! ## PTR answers -/

theorem startsWith_iff (needle hay : List Char) :
    startsWith needle hay = true ↔ ∃ post, hay = needle ++ post := by
  induction needle generalizing hay with
  | nil => simp [startsWith]
  | cons n ns ih =>
    cases hay with
    | nil => simp [startsWith]
    | cons h hs =>
      simp only [startsWith, Bool.and_eq_true, beq_iff_eq, ih, List.cons_append,
        List.cons.injEq]
      constructor
      · rintro ⟨e, post, hp⟩; exact ⟨post, e.symm, hp⟩
      · rintro ⟨post, e, hp⟩; exact ⟨e.symm, post, hp⟩

theorem strstrFound_iff (hay needle : List Char) :
    strstrFound hay needle = true ↔ Contains hay needle := by
  induction hay with
  | nil =>
    unfold strstrFound Contains
    rw [startsWith_iff]
    constructor
    · rintro ⟨post, hp⟩; exact ⟨[], post, by simpa using hp⟩
    · rintro ⟨pre, post, hp⟩
      have h1 : pre ++ needle ++ post = [] := hp.symm
      simp only [List.append_eq_nil] at h1
      exact ⟨[], by simp [h1.1.2]⟩
  | cons h hs ih =>
    unfold strstrFound
    rw [Bool.or_eq_true, startsWith_iff, ih]
    unfold Contains
    constructor
    · rintro (⟨post, hp⟩ | ⟨pre, post, hp⟩)
      · exact ⟨[], post, by simpa using hp⟩
      · exact ⟨h :: pre, post, by simp [hp]⟩
    · rintro ⟨pre, post, hp⟩
      cases pre with
      | nil => left; exact ⟨post, by simpa using hp⟩
      | cons x pre =>
        right
        simp only [List.cons_append, List.cons.injEq] at hp
        exact ⟨pre, post, hp.2⟩

theorem contains_of_cstr {hay needle : List Char} (h : Contains (cstr hay) needle) :
    Contains hay needle := by
  obtain ⟨pre, post, hp⟩ := h
  refine ⟨pre, post ++ hay.dropWhile (fun c => c != NUL), ?_⟩
  have : hay = cstr hay ++ hay.dropWhile (fun c => c != NUL) :=
    (List.takeWhile_append_dropWhile _ hay).symm
  rw [← List.append_assoc, ← hp]
  exact this

/-- C16: for every registry state, a PTR record whose owner name does not
contain the substring `_opcua-tcp` is dropped: `query_callback` returns the
registry as it was, so the ordered list, all bucket chains, the id counter and
the trace of listener calls are unchanged. -/
theorem C16_foreign_ptr_ignored (P : Deps) (env : Env) (dm : Option UA_DiscoveryManager)
    (entry : mdns_entry_type_t) (data : Datagram) (st : Registry)
    (hno : ¬ Contains data.fromname "_opcua-tcp".toList) :
    query_callback P env dm entry .PTR data st = st := by
  have hf : strstrFound (cstr data.fromname) "_opcua-tcp".toList = false := by
    cases hc : strstrFound (cstr data.fromname) "_opcua-tcp".toList
    · rfl
    · exact absurd (contains_of_cstr ((strstrFound_iff _ _).1 hc)) hno
  unfold query_callback
  cases dm with
  | none => rfl
  | some d =>
    simp only [hf, Bool.not_false, if_true]
    split <;> rfl

/-- Witness for C16: the PTR answer of the printer service on the fresh
registry. -/
theorem C16_foreign_ptr_ignored_witness :
    query_callback sampleDeps (envOk 1 1) (some dmListening) .ANSWER .PTR printerPtr
      mdnsPrivateData = mdnsPrivateData :=
  C16_foreign_ptr_ignored sampleDeps (envOk 1 1) (some dmListening) .ANSWER printerPtr
    mdnsPrivateData (fun h => absurd ((strstrFound_iff _ _).2 h) (by decide))

/-- C15 fails as stated: the registry holds one entry, named `a`; a PTR answer
whose owner contains `_opcua-tcp` and whose target is `adddddddddd` (not empty)
is processed, and afterwards no entry has the server name `adddddddddd`: the
lookup matched the entry of `a` and nothing was created. -/
theorem C15_counterexample :
    aliasFirst.2.2.serverOnNetwork = [1] ∧
    strstrFound "foo._opcua-tcp._tcp.local.".toList "_opcua-tcp".toList = true ∧
    longName ≠ [] ∧
    aliasPtr.serverOnNetwork = [1] ∧
    ¬ (∃ p ∈ aliasPtr.serverOnNetwork, nameOf aliasPtr p = longName) := by
  decide

/-- C15 (amended): for every registry state and every PTR answer whose owner
name (as a C string) contains `_opcua-tcp` and whose target domain `t` is not
empty and is matched by no entry of the chain of its bucket, with allocation
succeeding: after processing there is a new entry with `serverName` `t`, at the
head of the ordered list, and it has `srvSet = false` and `txtSet = false`. -/
theorem C15_ptr_creates_pending_entry (P : Deps) (env : Env) (dm : UA_DiscoveryManager)
    (st : Registry) (owner t : List Char) (srv : mdns_record_srv_t)
    (txt : List mdns_record_txt_t)
    (hown : Contains (cstr owner) "_opcua-tcp".toList) (ht : t.length > 0)
    (hnone : chainSearch st.heap t (st.serverOnNetworkHash (hashIdx P t)) = none)
    (ha : env.mallocEntry = true) (hb : env.copyServerName = true)
    (hc : env.mallocHashEntry = true) :
    (query_callback P env (some dm) .ANSWER .PTR
      { fromname := owner, service := t, srv := srv, txt := txt } st).serverOnNetwork
        = st.heapNext :: st.serverOnNetwork ∧
    ((query_callback P env (some dm) .ANSWER .PTR
      { fromname := owner, service := t, srv := srv, txt := txt }
        st).heap st.heapNext).serverOnNetwork.serverName = t ∧
    ((query_callback P env (some dm) .ANSWER .PTR
      { fromname := owner, service := t, srv := srv, txt := txt }
        st).heap st.heapNext).srvSet = false ∧
    ((query_callback P env (some dm) .ANSWER .PTR
      { fromname := owner, service := t, srv := srv, txt := txt }
        st).heap st.heapNext).txtSet = false := by
  have hs := @ptr_creates P env dm st
    { fromname := owner, service := t, srv := srv, txt := txt }
    ((strstrFound_iff _ _).2 hown) ht hnone ha hb hc
  rw [hs]
  simp [afterPtr, inserted, setAt, freshEntry]

/-- Witness for C15 (amended): the PTR answer `foo._opcua-tcp._tcp.local.` to
`instanceA._opcua-tcp._tcp.local.` on the fresh registry. -/
theorem C15_ptr_creates_pending_entry_witness :
    (query_callback sampleDeps (envOk 1 1) (some dmListening) .ANSWER .PTR
      { fromname := "foo._opcua-tcp._tcp.local.".toList,
        service := "instanceA._opcua-tcp._tcp.local.".toList, srv := ⟨0, 0, 0, []⟩,
        txt := [] } mdnsPrivateData).serverOnNetwork
        = mdnsPrivateData.heapNext :: mdnsPrivateData.serverOnNetwork ∧
    ((query_callback sampleDeps (envOk 1 1) (some dmListening) .ANSWER .PTR
      { fromname := "foo._opcua-tcp._tcp.local.".toList,
        service := "instanceA._opcua-tcp._tcp.local.".toList, srv := ⟨0, 0, 0, []⟩,
        txt := [] } mdnsPrivateData).heap mdnsPrivateData.heapNext).serverOnNetwork.serverName
        = "instanceA._opcua-tcp._tcp.local.".toList ∧
    ((query_callback sampleDeps (envOk 1 1) (some dmListening) .ANSWER .PTR
      { fromname := "foo._opcua-tcp._tcp.local.".toList,
        service := "instanceA._opcua-tcp._tcp.local.".toList, srv := ⟨0, 0, 0, []⟩,
        txt := [] } mdnsPrivateData).heap mdnsPrivateData.heapNext).srvSet = false ∧
    ((query_callback sampleDeps (envOk 1 1) (some dmListening) .ANSWER .PTR
      { fromname := "foo._opcua-tcp._tcp.local.".toList,
        service := "instanceA._opcua-tcp._tcp.local.".toList, srv := ⟨0, 0, 0, []⟩,
        txt := [] } mdnsPrivateData).heap mdnsPrivateData.heapNext).txtSet = false :=
  C15_ptr_creates_pending_entry sampleDeps (envOk 1 1) dmListening mdnsPrivateData
    "foo._opcua-tcp._tcp.local.".toList "instanceA._opcua-tcp._tcp.local.".toList
    ⟨0, 0, 0, []⟩ [] ((strstrFound_iff _ _).1 (by decide)) (by decide) rfl rfl rfl rfl

/-! ## The ordered list under every operation -/

theorem ListOk_init : ListOk mdnsPrivateData :=
  ⟨List.nodup_nil, fun p hp => absurd hp (List.not_mem_nil p)⟩

theorem ListOk.next_not_listed {st : Registry} (h : ListOk st) :
    st.heapNext ∉ st.serverOnNetwork := fun hm =>
  Nat.lt_irrefl _ (h.fresh _ hm)

theorem ListOk_of_list {st st' : Registry} (h : ListOk st)
    (hl : (st'.serverOnNetwork = st.serverOnNetwork ∧ st'.heapNext = st.heapNext) ∨
      (st'.serverOnNetwork = st.heapNext :: st.serverOnNetwork ∧
        st'.heapNext = st.heapNext + 1) ∨
      ∃ e, st'.serverOnNetwork = st.serverOnNetwork.erase e ∧ st'.heapNext = st.heapNext) :
    ListOk st' := by
  rcases hl with ⟨hl, hn⟩ | ⟨hl, hn⟩ | ⟨e, hl, hn⟩
  · exact ⟨hl ▸ h.list_nodup, fun p hp => hn ▸ h.fresh p (hl ▸ hp)⟩
  · constructor
    · rw [hl]
      exact List.nodup_cons.mpr ⟨h.next_not_listed, h.list_nodup⟩
    · intro p hp
      rw [hl] at hp
      rw [hn]
      rcases List.mem_cons.mp hp with e | hm
      · rw [e]; exact Nat.lt_succ_self _
      · exact Nat.lt_succ_of_lt (h.fresh p hm)
  · constructor
    · rw [hl]; exact h.list_nodup.erase e
    · intro p hp
      rw [hl] at hp
      rw [hn]
      exact h.fresh p (List.mem_of_mem_erase hp)

theorem ListOk_txtPair {P : Deps} {env : Env} {fromname : List Char} {st : Registry}
    {t : mdns_record_txt_t} (h : ListOk st) : ListOk (txtPair P env fromname st t) := by
  unfold txtPair
  split
  · split
    · rcases addEntry_cases P env st fromname fromname with
        ⟨e, _, hr⟩ | ⟨_, hr⟩ | ⟨_, hr⟩ | ⟨hs, hr⟩ <;> rw [hr]
      · exact h
      · exact h
      · exact ListOk_of_list h (Or.inl ⟨rfl, rfl⟩)
      · exact ListOk_of_list h (Or.inr (Or.inl ⟨rfl, rfl⟩))
    · exact h
  · exact h

theorem ListOk_foldl_txtPair {P : Deps} {env : Env} {fromname : List Char}
    (l : List mdns_record_txt_t) {st : Registry} (h : ListOk st) :
    ListOk (l.foldl (txtPair P env fromname) st) := by
  induction l generalizing st with
  | nil => exact h
  | cons t l ih => exact ih (ListOk_txtPair h)

theorem ListOk_query_callback {P : Deps} {env : Env} {dm : Option UA_DiscoveryManager}
    {entry : mdns_entry_type_t} {rtype : mdns_record_type_t} {data : Datagram}
    {st : Registry} (h : ListOk st) :
    ListOk (query_callback P env dm entry rtype data st) := by
  unfold query_callback
  cases dm with
  | none => exact h
  | some dm =>
    cases rtype with
    | PTR =>
      simp only
      split
      · exact h
      · split
        · exact h
        · split
          · rcases addEntry_cases P env st data.service data.service with
              ⟨e, _, hr⟩ | ⟨_, hr⟩ | ⟨_, hr⟩ | ⟨hs, hr⟩ <;> rw [hr]
            · exact h
            · exact h
            · exact ListOk_of_list h (Or.inl ⟨rfl, rfl⟩)
            · exact ListOk_of_list h (Or.inr (Or.inl ⟨rfl, rfl⟩))
          · exact h
    | SRV =>
      simp only
      split
      · exact h
      · split
        · split
          · rcases addEntry_cases P env st data.fromname data.fromname with
              ⟨e, _, hr⟩ | ⟨_, hr⟩ | ⟨_, hr⟩ | ⟨hs, hr⟩ <;> rw [hr]
            · exact h
            · exact h
            · exact ListOk_of_list h (Or.inl ⟨rfl, rfl⟩)
            · exact ListOk_of_list h (Or.inr (Or.inl ⟨rfl, rfl⟩))
          · exact h
        · exact h
    | TXT =>
      simp only
      split
      · exact h
      · exact ListOk_foldl_txtPair _ h
    | OTHER => exact h

theorem ListOk_announce {P : Deps} {env : Env} {dm : Option UA_DiscoveryManager}
    {st : Registry} {serverName discoveryUrl : UA_String} {isOnline : Bool}
    (h : ListOk st) :
    ListOk (UA_Discovery_updateMdnsForDiscoveryUrl P env dm st serverName discoveryUrl
      isOnline) := by
  unfold UA_Discovery_updateMdnsForDiscoveryUrl
  cases dm with
  | none => exact h
  | some dm =>
    simp only
    split
    · exact h
    · cases hp : P.UA_parseEndpointUrl discoveryUrl with
      | none => exact h
      | some r =>
        obtain ⟨hostname, port, path⟩ := r
        simp only
        split
        · exact h
        · split
          · exact h
          · split
            · rcases addEntry_cases P env st (serviceDomain serverName hostname)
                (serviceDomain serverName hostname) with
                ⟨e, _, hr⟩ | ⟨_, hr⟩ | ⟨_, hr⟩ | ⟨hs, hr⟩ <;> rw [hr]
              · exact h
              · exact h
              · exact ListOk_of_list h (Or.inl ⟨rfl, rfl⟩)
              · exact ListOk_of_list h (Or.inr (Or.inl ⟨rfl, rfl⟩))
            · exact h

theorem ListOk_removeEntry {P : Deps} {dm : UA_DiscoveryManager} {st : Registry}
    {f : List Char} {s : UA_String} (h : ListOk st) :
    ListOk (UA_DiscoveryManager_removeEntryFromServersOnNetwork P dm st f s).2 := by
  cases hs : chainSearch st.heap s (st.serverOnNetworkHash (hashIdx P f)) with
  | none => rw [removeEntry_none hs]; exact h
  | some e =>
    rw [removeEntry_some hs]
    exact ListOk_of_list h (Or.inr (Or.inr ⟨e, rfl, rfl⟩))

/-- What the loop of `clear()` preserves, whatever its removals find: a
property of states that every removal preserves holds after the loop. -/
theorem clearLoop_preserves {P : Deps} {dm : UA_DiscoveryManager} {past : Ptr → List Char}
    (Inv : Registry → Prop)
    (hrm : ∀ (st : Registry) (f : List Char) (s : UA_String), Inv st →
      Inv (UA_DiscoveryManager_removeEntryFromServersOnNetwork P dm st f s).2) :
    ∀ (n : Nat) (son : Option Ptr) (st : Registry), Inv st →
      Inv (clearLoop P dm past n son st) := by
  intro n
  induction n with
  | zero => intro son st h; exact h
  | succ n ih =>
    intro son st h
    cases son with
    | none => exact h
    | some son =>
      simp only [clearLoop]
      exact ih _ _ (hrm _ _ _ h)

theorem ListOk_step {P : Deps} {st : Registry} (op : Op) (h : ListOk st) :
    ListOk (step P st op) := by
  cases op with
  | answer dm env entry rtype data => exact ListOk_query_callback h
  | announce dm env serverName discoveryUrl isOnline => exact ListOk_announce h
  | findOrInsert env name =>
    simp only [step]
    rcases addEntry_cases P env st name name with
      ⟨e, _, hr⟩ | ⟨_, hr⟩ | ⟨_, hr⟩ | ⟨hs, hr⟩ <;> rw [hr]
    · exact h
    · exact h
    · exact ListOk_of_list h (Or.inl ⟨rfl, rfl⟩)
    · exact ListOk_of_list h (Or.inr (Or.inl ⟨rfl, rfl⟩))
  | remove dm f s => exact ListOk_removeEntry h
  | clear dm past =>
    cases dm with
    | none => exact h
    | some dm =>
      have h1 := @clearLoop_preserves P dm past ListOk
        (fun _ _ _ hi => ListOk_removeEntry hi) st.serverOnNetwork.length
        st.serverOnNetwork.head? st h
      exact ListOk_of_list h1 (Or.inl ⟨rfl, rfl⟩)
  | resetCounter dm env =>
    cases dm with
    | none => exact h
    | some dm => exact ListOk_of_list h (Or.inl ⟨rfl, rfl⟩)

theorem ListOk_run_from {P : Deps} (ops : List Op) {st : Registry} (h : ListOk st) :
    ListOk (run P st ops) := by
  induction ops generalizing st with
  | nil => exact h
  | cons op ops ih => exact ih (ListOk_step op h)

theorem ListOk_run (P : Deps) (ops : List Op) : ListOk (run P mdnsPrivateData ops) :=
  ListOk_run_from ops ListOk_init

/-! ## Entries with `srvSet` have a URL -/

theorem SrvUrl_same {st st' : Registry} (h : SrvUrl st)
    (hl : st'.serverOnNetwork = st.serverOnNetwork)
    (hh : ∀ p ∈ st.serverOnNetwork, st'.heap p = st.heap p) : SrvUrl st' := by
  intro p hp hs
  rw [hl] at hp
  rw [hh p hp] at hs ⊢
  exact h p hp hs

theorem SrvUrl_created {P : Deps} {env : Env} {st : Registry} {f : List Char}
    {s : UA_String} (hWF : ListOk st) (h : SrvUrl st) (e : serverOnNetwork)
    (obs : List Observation)
    (he : e.srvSet = true → 0 < e.serverOnNetwork.discoveryUrl.length) :
    SrvUrl { inserted P env st f s with
      heap := setAt (inserted P env st f s).heap st.heapNext e, observed := obs } := by
  intro p hp hs
  have hp' : p = st.heapNext ∨ p ∈ st.serverOnNetwork := List.mem_cons.mp hp
  rcases hp' with hp' | hp'
  · subst hp'
    simp only [setAt, if_true] at hs ⊢
    exact he hs
  · have hne : p ≠ st.heapNext := fun e => hWF.next_not_listed (e ▸ hp')
    simp only [setAt, inserted, hne, if_false] at hs ⊢
    exact h p hp' hs

theorem SrvUrl_removed {P : Deps} {dm : UA_DiscoveryManager} {st : Registry}
    {f : List Char} {e : Ptr} (hWF : ListOk st) (h : SrvUrl st) :
    SrvUrl (removed P dm st f e) := by
  intro p hp hs
  have hp' : p ≠ e ∧ p ∈ st.serverOnNetwork := hWF.list_nodup.mem_erase_iff.mp hp
  rw [removed_heap_old hp'.1] at hs ⊢
  exact h p hp'.2 hs

theorem SrvUrl_txtPair {P : Deps} {env : Env} {fromname : List Char} {st : Registry}
    {t : mdns_record_txt_t} (hWF : ListOk st) (h : SrvUrl st) :
    SrvUrl (txtPair P env fromname st t) := by
  unfold txtPair
  split
  · split
    · rcases addEntry_cases P env st fromname fromname with
        ⟨e, _, hr⟩ | ⟨_, hr⟩ | ⟨_, hr⟩ | ⟨hs, hr⟩ <;> rw [hr]
      · exact h
      · exact h
      · exact SrvUrl_same h rfl (fun _ _ => rfl)
      · refine SrvUrl_created hWF h _ _ ?_
        simp [inserted, setAt, freshEntry]
    · exact h
  · exact h

theorem SrvUrl_foldl_txtPair {P : Deps} {env : Env} {fromname : List Char}
    (l : List mdns_record_txt_t) {st : Registry} (hWF : ListOk st) (h : SrvUrl st) :
    SrvUrl (l.foldl (txtPair P env fromname) st) := by
  induction l generalizing st with
  | nil => exact h
  | cons t l ih => exact ih (ListOk_txtPair hWF) (SrvUrl_txtPair hWF h)

theorem srvUri_length_pos (srv : mdns_record_srv_t) : 0 < (srvUri srv).length := by
  simp [srvUri]

theorem SrvUrl_query_callback {P : Deps} {env : Env} {dm : Option UA_DiscoveryManager}
    {entry : mdns_entry_type_t} {rtype : mdns_record_type_t} {data : Datagram}
    {st : Registry} (hWF : ListOk st) (h : SrvUrl st) (hok : env.copyPayload = true) :
    SrvUrl (query_callback P env dm entry rtype data st) := by
  unfold query_callback
  cases dm with
  | none => exact h
  | some dm =>
    cases rtype with
    | PTR =>
      simp only
      split
      · exact h
      · split
        · exact h
        · split
          · rcases addEntry_cases P env st data.service data.service with
              ⟨e, _, hr⟩ | ⟨_, hr⟩ | ⟨_, hr⟩ | ⟨hs, hr⟩ <;> rw [hr]
            · exact h
            · exact h
            · exact SrvUrl_same h rfl (fun _ _ => rfl)
            · refine SrvUrl_created hWF h _ _ ?_
              simp
          · exact h
    | SRV =>
      simp only
      split
      · exact h
      · split
        · split
          · rcases addEntry_cases P env st data.fromname data.fromname with
              ⟨e, _, hr⟩ | ⟨_, hr⟩ | ⟨_, hr⟩ | ⟨hs, hr⟩ <;> rw [hr]
            · exact h
            · exact h
            · exact SrvUrl_same h rfl (fun _ _ => rfl)
            · refine SrvUrl_created hWF h _ _ ?_
              intro _
              simp only [hok, if_true]
              exact srvUri_length_pos _
          · exact h
        · exact h
    | TXT =>
      simp only
      split
      · exact h
      · exact SrvUrl_foldl_txtPair _ hWF h
    | OTHER => exact h

theorem SrvUrl_announce {P : Deps} {env : Env} {dm : Option UA_DiscoveryManager}
    {st : Registry} {serverName discoveryUrl : UA_String} {isOnline : Bool}
    (hP : HostWithinUrl P) (hWF : ListOk st) (h : SrvUrl st)
    (hok : env.copyPayload = true) :
    SrvUrl (UA_Discovery_updateMdnsForDiscoveryUrl P env dm st serverName discoveryUrl
      isOnline) := by
  unfold UA_Discovery_updateMdnsForDiscoveryUrl
  cases dm with
  | none => exact h
  | some dm =>
    simp only
    split
    · exact h
    · cases hp : P.UA_parseEndpointUrl discoveryUrl with
      | none => exact h
      | some r =>
        obtain ⟨hostname, port, path⟩ := r
        have hle := hP _ _ _ _ hp
        simp only
        split
        · exact h
        · rename_i hne
          split
          · exact h
          · split
            · rcases addEntry_cases P env st (serviceDomain serverName hostname)
                (serviceDomain serverName hostname) with
                ⟨e, _, hr⟩ | ⟨_, hr⟩ | ⟨_, hr⟩ | ⟨hs, hr⟩ <;> rw [hr]
              · exact h
              · exact h
              · exact SrvUrl_same h rfl (fun _ _ => rfl)
              · refine SrvUrl_created hWF h _ _ ?_
                intro _
                simp only [hok, if_true]
                omega
            · exact h

theorem SrvUrl_removeEntry {P : Deps} {dm : UA_DiscoveryManager} {st : Registry}
    {f : List Char} {s : UA_String} (hWF : ListOk st) (h : SrvUrl st) :
    SrvUrl (UA_DiscoveryManager_removeEntryFromServersOnNetwork P dm st f s).2 := by
  cases hs : chainSearch st.heap s (st.serverOnNetworkHash (hashIdx P f)) with
  | none => rw [removeEntry_none hs]; exact h
  | some e => rw [removeEntry_some hs]; exact SrvUrl_removed hWF h

theorem copyPayload_of_allocOk {env : Env} (h : env.allocOk = true) :
    env.copyPayload = true := by
  simp only [Env.allocOk, Bool.and_eq_true] at h
  exact h.2

theorem SrvUrl_step {P : Deps} {st : Registry} (op : Op) (hP : HostWithinUrl P)
    (hWF : ListOk st) (h : SrvUrl st) (hok : op.allocOk = true) :
    SrvUrl (step P st op) := by
  cases op with
  | answer dm env entry rtype data =>
    exact SrvUrl_query_callback hWF h (copyPayload_of_allocOk hok)
  | announce dm env serverName discoveryUrl isOnline =>
    exact SrvUrl_announce hP hWF h (copyPayload_of_allocOk hok)
  | findOrInsert env name =>
    simp only [step]
    rcases addEntry_cases P env st name name with
      ⟨e, _, hr⟩ | ⟨_, hr⟩ | ⟨_, hr⟩ | ⟨hs, hr⟩ <;> rw [hr]
    · exact h
    · exact h
    · exact SrvUrl_same h rfl (fun _ _ => rfl)
    · have := @SrvUrl_created P env st name name hWF h
        ((inserted P env st name name).heap st.heapNext)
        (inserted P env st name name).observed
        (by simp [inserted, setAt, freshEntry])
      refine SrvUrl_same this rfl (fun p _ => ?_)
      by_cases hp : p = st.heapNext
      · subst hp; simp [setAt]
      · simp [setAt, hp]
  | remove dm f s => exact SrvUrl_removeEntry hWF h
  | clear dm past =>
    cases dm with
    | none => exact h
    | some dm =>
      have h1 := @clearLoop_preserves P dm past (fun s => ListOk s ∧ SrvUrl s)
        (fun _ _ _ hi => ⟨ListOk_removeEntry hi.1, SrvUrl_removeEntry hi.1 hi.2⟩)
        st.serverOnNetwork.length st.serverOnNetwork.head? st ⟨hWF, h⟩
      exact SrvUrl_same h1.2 rfl (fun _ _ => rfl)
  | resetCounter dm env =>
    cases dm with
    | none => exact h
    | some dm => exact SrvUrl_same h rfl (fun _ _ => rfl)

theorem SrvUrl_run_from {P : Deps} (hP : HostWithinUrl P) (ops : List Op) {st : Registry}
    (hWF : ListOk st) (h : SrvUrl st) (hok : ∀ op ∈ ops, op.allocOk = true) :
    SrvUrl (run P st ops) := by
  induction ops generalizing st with
  | nil => exact h
  | cons op ops ih =>
    exact ih (ListOk_step op hWF)
      (SrvUrl_step op hP hWF h (hok op (List.mem_cons_self _ _)))
      (fun o ho => hok o (List.mem_cons_of_mem _ ho))

theorem sampleDeps_hostWithinUrl : HostWithinUrl sampleDeps := by
  intro url h port path hp
  simp only [sampleDeps, sampleParse] at hp
  split at hp
  · simp only [Option.some.injEq, Prod.mk.injEq] at hp
    rw [← hp.1]
    calc (List.takeWhile (fun c => c != ':' && c != '/') (List.drop 10 url)).length
        ≤ (List.drop 10 url).length := (List.takeWhile_sublist _).length_le
      _ ≤ url.length := by simp
  · exact absurd hp (by simp)

/-- C17: in every state reached from the empty registry by a sequence of
operations (PTR/SRV/TXT answers, announcements, insertions, removals, clear,
resetCounter) in which every allocation succeeds, every live entry with
`srvSet = true` has a `discoveryUrl` of length greater than 0.  Of
`UA_parseEndpointUrl`, which is defined outside the file, it is assumed that
the hostname it returns is not longer than the URL. -/
theorem C17_srvSet_entries_have_url (P : Deps) (ops : List Op) (p : Ptr)
    (hP : HostWithinUrl P) (hok : ∀ op ∈ ops, op.allocOk = true)
    (hp : p ∈ (run P mdnsPrivateData ops).serverOnNetwork)
    (hs : ((run P mdnsPrivateData ops).heap p).srvSet = true) :
    0 < ((run P mdnsPrivateData ops).heap p).serverOnNetwork.discoveryUrl.length :=
  SrvUrl_run_from hP ops ListOk_init (fun q hq => absurd hq (List.not_mem_nil q)) hok p hp hs

/-- Witness for C17: after an SRV answer, a TXT answer and an announcement, the
entry the SRV answer created. -/
theorem C17_srvSet_entries_have_url_witness :
    0 < ((run sampleDeps mdnsPrivateData srvThenAnnounce).heap
      1).serverOnNetwork.discoveryUrl.length :=
  C17_srvSet_entries_have_url sampleDeps srvThenAnnounce 1 sampleDeps_hostWithinUrl
    (by decide) (by decide) (by decide)

/-! ## Names are unique -/

theorem cstr_cons (x : Char) (xs : List Char) :
    cstr (x :: xs) = if x = NUL then [] else x :: cstr xs := by
  unfold cstr
  by_cases h : x = NUL
  · simp [List.takeWhile_cons, h]
  · simp [List.takeWhile_cons, h]

theorem strncmp_of_cstr_eq : ∀ (n : Nat) (a b : List Char), cstr a = cstr b →
    strncmp a b n = 0 := by
  intro n
  induction n with
  | zero => intro a b _; exact strncmp_zero a b
  | succ n ih =>
    intro a b h
    cases a with
    | nil =>
      cases b with
      | nil => simp [strncmp]
      | cons y ys =>
        have hy : y = NUL := by
          by_contra hne
          rw [cstr_cons, if_neg hne] at h
          simp [cstr] at h
        subst hy
        simp [strncmp]
    | cons x xs =>
      cases b with
      | nil =>
        rw [strncmp_cons_nil]
        by_contra hne
        rw [cstr_cons, if_neg hne] at h
        simp [cstr] at h
      | cons y ys =>
        rw [strncmp_cons_cons]
        rw [cstr_cons, cstr_cons] at h
        by_cases hx : x = NUL
        · rw [if_pos hx] at h
          by_cases hy : y = NUL
          · exact ⟨hx.trans hy.symm, Or.inl hx⟩
          · rw [if_neg hy] at h; simp at h
        · rw [if_neg hx] at h
          by_cases hy : y = NUL
          · rw [if_pos hy] at h; simp at h
          · rw [if_neg hy] at h
            simp only [List.cons.injEq] at h
            exact ⟨h.1, Or.inr (ih xs ys h.2)⟩

theorem namesAgree_of_cstr_eq {a b : UA_String} (h : cstr a = cstr b) :
    namesAgree a b = true := by
  simp [namesAgree, strncmp_of_cstr_eq _ a b h]

/-- Names are unique when every read of a name as a C string ends where the
name ends: after every such sequence of operations from the empty registry the
server names of the entries of the ordered list are pairwise distinct, and so
are the C strings held in them, which are the keys the entries were hashed
under. -/
theorem names_distinct_of_terminated (P : Deps) (ops : List Op)
    (hops : ∀ op ∈ ops, op.terminated) :
    ((run P mdnsPrivateData ops).serverOnNetwork.map
      (fun p => ((run P mdnsPrivateData ops).heap p).serverOnNetwork.serverName)).Nodup ∧
    ((run P mdnsPrivateData ops).serverOnNetwork.map
      (fun p => cstr ((run P mdnsPrivateData ops).heap p).serverOnNetwork.serverName)).Nodup := by
  have hWF := WF_run P ops hops
  constructor
  · apply List.Nodup.map_on _ hWF.list_nodup
    intro p hp q hq he
    by_contra hne
    have hb : bucketOf P (run P mdnsPrivateData ops) p
        = bucketOf P (run P mdnsPrivateData ops) q := by
      simp only [bucketOf, nameOf, he]
    have := hWF.apart p hp q hq hne hb
    simp only [nameOf, he, namesAgree_self] at this
    exact Bool.noConfusion this
  · apply List.Nodup.map_on _ hWF.list_nodup
    intro p hp q hq he
    by_contra hne
    have hb : bucketOf P (run P mdnsPrivateData ops) p
        = bucketOf P (run P mdnsPrivateData ops) q := by
      simp only [bucketOf, nameOf, hashIdx, he]
    have := hWF.apart p hp q hq hne hb
    rw [nameOf, nameOf, namesAgree_of_cstr_eq he] at this
    exact Bool.noConfusion this

/-- C18 (as the code behaves): an entry is created for `name`, `clear()`
follows, and `name` is inserted again; behind the name buffer lie bytes with
which the name hashes to another bucket than without them.  The removal inside
`clear()` misses the entry, which stays in the ordered list while every chain
is emptied; the second insertion therefore finds nothing and creates a second
entry: two live entries carry the same name. -/
theorem C18_same_name_listed_twice (P : Deps) (env1 env2 : Env) (dm : UA_DiscoveryManager)
    (name : List Char) (past : Ptr → List Char)
    (ha1 : env1.mallocEntry = true) (hb1 : env1.copyServerName = true)
    (hc1 : env1.mallocHashEntry = true)
    (ha2 : env2.mallocEntry = true) (hb2 : env2.copyServerName = true)
    (hc2 : env2.mallocHashEntry = true)
    (hne : hashIdx P (name ++ past 1) ≠ hashIdx P name) :
    (run P mdnsPrivateData
      [.findOrInsert env1 name, .clear (some dm) past,
       .findOrInsert env2 name]).serverOnNetwork = [2, 1] ∧
    ((run P mdnsPrivateData
      [.findOrInsert env1 name, .clear (some dm) past,
       .findOrInsert env2 name]).heap 2).serverOnNetwork.serverName = name ∧
    ((run P mdnsPrivateData
      [.findOrInsert env1 name, .clear (some dm) past,
       .findOrInsert env2 name]).heap 1).serverOnNetwork.serverName = name ∧
    ¬ ((run P mdnsPrivateData
      [.findOrInsert env1 name, .clear (some dm) past,
       .findOrInsert env2 name]).serverOnNetwork.map
        (fun p => ((run P mdnsPrivateData
          [.findOrInsert env1 name, .clear (some dm) past,
           .findOrInsert env2 name]).heap p).serverOnNetwork.serverName)).Nodup := by
  have hrun : run P mdnsPrivateData
      [.findOrInsert env1 name, .clear (some dm) past, .findOrInsert env2 name]
      = step P (run P mdnsPrivateData [.findOrInsert env1 name, .clear (some dm) past])
          (.findOrInsert env2 name) := rfl
  have hstep : step P
      { inserted P env1 mdnsPrivateData name name with
        selfMdnsRecord := []
        serverOnNetworkHash := fun _ => [] } (.findOrInsert env2 name)
      = inserted P env2
          { inserted P env1 mdnsPrivateData name name with
            selfMdnsRecord := []
            serverOnNetworkHash := fun _ => [] } name name := by
    simp only [step]
    rw [addEntry_new (by simp [chainSearch])]
    simp [ha2, hb2, hc2]
  rw [hrun, created_then_clear ha1 hb1 hc1 hne, hstep]
  have h2 : ((inserted P env2
      { inserted P env1 mdnsPrivateData name name with
        selfMdnsRecord := []
        serverOnNetworkHash := fun _ => [] } name name).heap 2).serverOnNetwork.serverName
      = name := by
    simp [inserted, setAt, freshEntry, mdnsPrivateData]
  have h1 : ((inserted P env2
      { inserted P env1 mdnsPrivateData name name with
        selfMdnsRecord := []
        serverOnNetworkHash := fun _ => [] } name name).heap 1).serverOnNetwork.serverName
      = name := by
    simp [inserted, setAt, freshEntry, mdnsPrivateData]
  refine ⟨rfl, h2, h1, ?_⟩
  have hl : (inserted P env2
      { inserted P env1 mdnsPrivateData name name with
        selfMdnsRecord := []
        serverOnNetworkHash := fun _ => [] } name name).serverOnNetwork = [2, 1] := rfl
  rw [hl]
  simp only [List.map_cons, List.map_nil, h1, h2]
  simp

/-- Witness for C18: the name `a` under the byte-sum hash, with the byte `x`
behind its buffer. -/
theorem C18_same_name_listed_twice_witness :
    (run sampleDeps mdnsPrivateData
      [.findOrInsert (envOk 1 1) "a".toList, .clear (some dmListening) strayX,
       .findOrInsert (envOk 2 2) "a".toList]).serverOnNetwork = [2, 1] ∧
    ((run sampleDeps mdnsPrivateData
      [.findOrInsert (envOk 1 1) "a".toList, .clear (some dmListening) strayX,
       .findOrInsert (envOk 2 2) "a".toList]).heap 2).serverOnNetwork.serverName
      = "a".toList ∧
    ((run sampleDeps mdnsPrivateData
      [.findOrInsert (envOk 1 1) "a".toList, .clear (some dmListening) strayX,
       .findOrInsert (envOk 2 2) "a".toList]).heap 1).serverOnNetwork.serverName
      = "a".toList ∧
    ¬ ((run sampleDeps mdnsPrivateData
      [.findOrInsert (envOk 1 1) "a".toList, .clear (some dmListening) strayX,
       .findOrInsert (envOk 2 2) "a".toList]).serverOnNetwork.map
        (fun p => ((run sampleDeps mdnsPrivateData
          [.findOrInsert (envOk 1 1) "a".toList, .clear (some dmListening) strayX,
           .findOrInsert (envOk 2 2) "a".toList]).heap p).serverOnNetwork.serverName)).Nodup :=
  C18_same_name_listed_twice sampleDeps (envOk 1 1) (envOk 2 2) dmListening "a".toList strayX
    rfl rfl rfl rfl rfl rfl (by decide)

/-! ## Freshness -/

theorem chainSearch_eq_find (heap : Ptr → serverOnNetwork) (s : UA_String) (l : List Ptr) :
    chainSearch heap s l = l.find? (fun p => namesAgree (heap p).serverOnNetwork.serverName s) := by
  induction l with
  | nil => rfl
  | cons q l ih =>
    unfold chainSearch
    rw [List.find?_cons]
    cases hq : namesAgree (heap q).serverOnNetwork.serverName s
    · simp only [Bool.false_eq_true, if_false]; exact ih
    · simp only [if_true]

theorem strncmp_of_take_eq : ∀ (n : Nat) (a b : List Char), n ≤ a.length → n ≤ b.length →
    a.take n = b.take n → strncmp a b n = 0 := by
  intro n
  induction n with
  | zero => intro a b _ _ _; exact strncmp_zero a b
  | succ n ih =>
    intro a b ha hb h
    cases a with
    | nil => simp at ha
    | cons x xs =>
      cases b with
      | nil => simp at hb
      | cons y ys =>
        simp only [List.take_succ_cons, List.cons.injEq] at h
        simp only [List.length_cons, Nat.add_le_add_iff_right] at ha hb
        rw [strncmp_cons_cons]
        exact ⟨h.1, Or.inr (ih xs ys ha hb h.2)⟩

theorem take_eq_of_strncmp : ∀ (n : Nat) (a b : List Char), n ≤ a.length → n ≤ b.length →
    NUL ∉ a → strncmp a b n = 0 → a.take n = b.take n := by
  intro n
  induction n with
  | zero => intro a b _ _ _ _; rfl
  | succ n ih =>
    intro a b ha hb hna h
    cases a with
    | nil => simp at ha
    | cons x xs =>
      cases b with
      | nil => simp at hb
      | cons y ys =>
        simp only [List.length_cons, Nat.add_le_add_iff_right] at ha hb
        rw [strncmp_cons_cons] at h
        have hx : x ≠ NUL := fun e => hna (e ▸ List.mem_cons_self _ _)
        have hxs : NUL ∉ xs := fun hm => hna (List.mem_cons_of_mem _ hm)
        rcases h with ⟨hxy, h0 | hrec⟩
        · exact absurd h0 hx
        · simp only [List.take_succ_cons, List.cons.injEq]
          exact ⟨hxy, ih xs ys ha hb hxs hrec⟩

theorem namesAgree_maxLen (a b : UA_String) :
    (if b.length > a.length then a.length else b.length) = min b.length a.length := by
  split <;> omega

theorem namesAgree_of_agreeOnMin {a b : UA_String} (h : agreeOnMin a b = true) :
    namesAgree a b = true := by
  simp only [agreeOnMin, beq_iff_eq] at h
  simp only [namesAgree, namesAgree_maxLen, decide_eq_true_eq]
  exact strncmp_of_take_eq _ a b (Nat.min_le_right _ _) (Nat.min_le_left _ _) h

theorem namesAgree_eq_agreeOnMin {a b : UA_String} (ha : NUL ∉ a) :
    namesAgree a b = agreeOnMin a b := by
  cases h : agreeOnMin a b
  · cases h2 : namesAgree a b
    · rfl
    · simp only [namesAgree, namesAgree_maxLen, decide_eq_true_eq] at h2
      have := take_eq_of_strncmp _ a b (Nat.min_le_right _ _) (Nat.min_le_left _ _) ha h2
      simp [agreeOnMin, this] at h
  · exact namesAgree_of_agreeOnMin h

theorem agreeOnMin_of_extends {a b : UA_String}
    (h : (∃ r, a = b ++ r) ∨ (∃ r, b = a ++ r)) : agreeOnMin a b = true := by
  rcases h with ⟨r, h⟩ | ⟨r, h⟩
  · subst h
    simp [agreeOnMin]
  · subst h
    simp [agreeOnMin]

theorem namesAgree_eq_agreeOnMin_right {a b : UA_String} (hb : NUL ∉ b) :
    namesAgree a b = agreeOnMin a b := by
  rw [namesAgree_comm, namesAgree_eq_agreeOnMin hb]
  simp only [agreeOnMin, Nat.min_comm a.length b.length]
  cases h : (List.take (min b.length a.length) a == List.take (min b.length a.length) b)
  · have h' : ¬ (List.take (min b.length a.length) a = List.take (min b.length a.length) b) := by
      simpa using h
    have : (List.take (min b.length a.length) b == List.take (min b.length a.length) a)
        = false := by
      simpa using fun e => h' e.symm
    exact this
  · have h' : List.take (min b.length a.length) a = List.take (min b.length a.length) b := by
      simpa using h
    simp [h']

/-- C9 fails as stated: under a hash for which `a` and `adddddddddd` fall into
the same bucket, the two names are distinct, yet inserting the second after the
first creates no second entry: the call returns the entry of the first name
with `BadAlreadyExists`, the list has one element, and lookup of the second
name returns the entry of the first. -/
theorem C9_counterexample :
    shortName ≠ longName ∧
    hashIdx sampleDeps shortName = hashIdx sampleDeps longName ∧
    aliasFirst.1 = UA_StatusCode.GOOD ∧
    aliasSecond.1 = UA_StatusCode.BADALREADYEXISTS ∧
    aliasSecond.2.1 = aliasFirst.2.1 ∧
    ¬ (aliasSecond.2.2.serverOnNetwork.length = 2) ∧
    (mdns_record_add_or_get sampleDeps (envOk 3 3) aliasSecond.2.2 longName longName
      false).1 = aliasFirst.2.1 := by
  decide

/-- C9 (amended): for two domain names `f1`, `f2` without NUL bytes (each used
as its own server name) that hash to the same bucket and that differ within
their first `min` of the two lengths bytes (so that neither is an initial
segment of the other): inserting
`f1` and then `f2` into the empty registry creates two entries, lookup of `f1`
returns the entry of `f1` and lookup of `f2` the entry of `f2`, and after
removing either of them the other is still the only element of the list,
unchanged, and still returned by lookup. -/
theorem C9_colliding_names_kept_apart (P : Deps) (env1 env2 env : Env)
    (dm : UA_DiscoveryManager) (f1 f2 : List Char)
    (hN1 : NUL ∉ f1) (hN2 : NUL ∉ f2)
    (hb : hashIdx P f1 = hashIdx P f2)
    (hdiff : f1.take (min f1.length f2.length) ≠ f2.take (min f1.length f2.length))
    (ha1 : env1.mallocEntry = true) (hb1 : env1.copyServerName = true)
    (hc1 : env1.mallocHashEntry = true)
    (ha2 : env2.mallocEntry = true) (hb2 : env2.copyServerName = true)
    (hc2 : env2.mallocHashEntry = true) :
    UA_DiscoveryManager_addEntryToServersOnNetwork P env1 mdnsPrivateData f1 f1
      = (.GOOD, some 1, inserted P env1 mdnsPrivateData f1 f1) ∧
    UA_DiscoveryManager_addEntryToServersOnNetwork P env2
      (inserted P env1 mdnsPrivateData f1 f1) f2 f2
      = (.GOOD, some 2, bothInserted P env1 env2 f1 f2) ∧
    (bothInserted P env1 env2 f1 f2).serverOnNetwork = [2, 1] ∧
    (mdns_record_add_or_get P env (bothInserted P env1 env2 f1 f2) f1 f1 false).1 = some 1 ∧
    (mdns_record_add_or_get P env (bothInserted P env1 env2 f1 f2) f2 f2 false).1 = some 2 ∧
    (UA_DiscoveryManager_removeEntryFromServersOnNetwork P dm
      (bothInserted P env1 env2 f1 f2) f1 f1).1 = UA_StatusCode.GOOD ∧
    (UA_DiscoveryManager_removeEntryFromServersOnNetwork P dm
      (bothInserted P env1 env2 f1 f2) f1 f1).2.serverOnNetwork = [2] ∧
    (UA_DiscoveryManager_removeEntryFromServersOnNetwork P dm
      (bothInserted P env1 env2 f1 f2) f1 f1).2.heap 2
        = (bothInserted P env1 env2 f1 f2).heap 2 ∧
    (mdns_record_add_or_get P env
      (UA_DiscoveryManager_removeEntryFromServersOnNetwork P dm
        (bothInserted P env1 env2 f1 f2) f1 f1).2 f2 f2 false).1 = some 2 ∧
    (UA_DiscoveryManager_removeEntryFromServersOnNetwork P dm
      (bothInserted P env1 env2 f1 f2) f2 f2).1 = UA_StatusCode.GOOD ∧
    (UA_DiscoveryManager_removeEntryFromServersOnNetwork P dm
      (bothInserted P env1 env2 f1 f2) f2 f2).2.serverOnNetwork = [1] ∧
    (UA_DiscoveryManager_removeEntryFromServersOnNetwork P dm
      (bothInserted P env1 env2 f1 f2) f2 f2).2.heap 1
        = (bothInserted P env1 env2 f1 f2).heap 1 ∧
    (mdns_record_add_or_get P env
      (UA_DiscoveryManager_removeEntryFromServersOnNetwork P dm
        (bothInserted P env1 env2 f1 f2) f2 f2).2 f1 f1 false).1 = some 1 := by
  have hna : namesAgree f1 f2 = false := by
    rw [namesAgree_eq_agreeOnMin hN1]
    simp only [agreeOnMin, Nat.min_comm f2.length f1.length]
    simpa using hdiff
  have hna' : namesAgree f2 f1 = false := by
    rw [namesAgree_eq_agreeOnMin hN2]
    simp only [agreeOnMin]
    simpa using fun e => hdiff e.symm
  have hs0 : chainSearch mdnsPrivateData.heap f1
      (mdnsPrivateData.serverOnNetworkHash (hashIdx P f1)) = none := by
    simp [mdnsPrivateData, chainSearch]
  have hs1 : chainSearch (inserted P env1 mdnsPrivateData f1 f1).heap f2
      ((inserted P env1 mdnsPrivateData f1 f1).serverOnNetworkHash (hashIdx P f2)) = none := by
    simp [inserted, mdnsPrivateData, setAt, chainSearch, freshEntry, hb, hna]
  have hl1 : chainSearch (bothInserted P env1 env2 f1 f2).heap f1
      ((bothInserted P env1 env2 f1 f2).serverOnNetworkHash (hashIdx P f1)) = some 1 := by
    simp [bothInserted, inserted, mdnsPrivateData, setAt, chainSearch, freshEntry, hb, hna',
      namesAgree_self]
  have hl2 : chainSearch (bothInserted P env1 env2 f1 f2).heap f2
      ((bothInserted P env1 env2 f1 f2).serverOnNetworkHash (hashIdx P f2)) = some 2 := by
    simp [bothInserted, inserted, mdnsPrivateData, setAt, chainSearch, freshEntry, hb,
      namesAgree_self]
  refine ⟨?_, ?_, rfl, ?_, ?_, ?_, ?_, ?_, ?_, ?_, ?_, ?_, ?_⟩
  · rw [addEntry_new hs0]; simp [ha1, hb1, hc1, mdnsPrivateData]
  · rw [addEntry_new hs1]; simp [ha2, hb2, hc2, bothInserted, inserted, mdnsPrivateData]
  · rw [add_or_get_lookup]; exact hl1
  · rw [add_or_get_lookup]; exact hl2
  · rw [removeEntry_some hl1]
  · rw [removeEntry_some hl1]
    simp [removed, bothInserted, inserted, mdnsPrivateData]
  · rw [removeEntry_some hl1]
    simp [removed, setAt]
  · rw [add_or_get_lookup, removeEntry_some hl1]
    simp [removed, bothInserted, inserted, mdnsPrivateData, setAt, chainSearch, freshEntry,
      hb, namesAgree_self]
  · rw [removeEntry_some hl2]
  · rw [removeEntry_some hl2]
    simp [removed, bothInserted, inserted, mdnsPrivateData]
  · rw [removeEntry_some hl2]
    simp [removed, setAt]
  · rw [add_or_get_lookup, removeEntry_some hl2]
    simp [removed, bothInserted, inserted, mdnsPrivateData, setAt, chainSearch, freshEntry,
      hb, namesAgree_self]

/-- Witness for C9 (amended): the names `ab` and `ba`, which have the same byte
sum and differ in their first byte. -/
theorem C9_colliding_names_kept_apart_witness :
    UA_DiscoveryManager_addEntryToServersOnNetwork sampleDeps (envOk 1 1) mdnsPrivateData "ab".toList "ab".toList
      = (.GOOD, some 1, inserted sampleDeps (envOk 1 1) mdnsPrivateData "ab".toList "ab".toList) ∧
    UA_DiscoveryManager_addEntryToServersOnNetwork sampleDeps (envOk 2 2)
      (inserted sampleDeps (envOk 1 1) mdnsPrivateData "ab".toList "ab".toList) "ba".toList "ba".toList
      = (.GOOD, some 2, bothInserted sampleDeps (envOk 1 1) (envOk 2 2) "ab".toList "ba".toList) ∧
    (bothInserted sampleDeps (envOk 1 1) (envOk 2 2) "ab".toList "ba".toList).serverOnNetwork = [2, 1] ∧
    (mdns_record_add_or_get sampleDeps (envOk 3 3) (bothInserted sampleDeps (envOk 1 1) (envOk 2 2) "ab".toList "ba".toList) "ab".toList "ab".toList false).1 = some 1 ∧
    (mdns_record_add_or_get sampleDeps (envOk 3 3) (bothInserted sampleDeps (envOk 1 1) (envOk 2 2) "ab".toList "ba".toList) "ba".toList "ba".toList false).1 = some 2 ∧
    (UA_DiscoveryManager_removeEntryFromServersOnNetwork sampleDeps dmListening
      (bothInserted sampleDeps (envOk 1 1) (envOk 2 2) "ab".toList "ba".toList) "ab".toList "ab".toList).1 = UA_StatusCode.GOOD ∧
    (UA_DiscoveryManager_removeEntryFromServersOnNetwork sampleDeps dmListening
      (bothInserted sampleDeps (envOk 1 1) (envOk 2 2) "ab".toList "ba".toList) "ab".toList "ab".toList).2.serverOnNetwork = [2] ∧
    (UA_DiscoveryManager_removeEntryFromServersOnNetwork sampleDeps dmListening
      (bothInserted sampleDeps (envOk 1 1) (envOk 2 2) "ab".toList "ba".toList) "ab".toList "ab".toList).2.heap 2
        = (bothInserted sampleDeps (envOk 1 1) (envOk 2 2) "ab".toList "ba".toList).heap 2 ∧
    (mdns_record_add_or_get sampleDeps (envOk 3 3)
      (UA_DiscoveryManager_removeEntryFromServersOnNetwork sampleDeps dmListening
        (bothInserted sampleDeps (envOk 1 1) (envOk 2 2) "ab".toList "ba".toList) "ab".toList "ab".toList).2 "ba".toList "ba".toList false).1 = some 2 ∧
    (UA_DiscoveryManager_removeEntryFromServersOnNetwork sampleDeps dmListening
      (bothInserted sampleDeps (envOk 1 1) (envOk 2 2) "ab".toList "ba".toList) "ba".toList "ba".toList).1 = UA_StatusCode.GOOD ∧
    (UA_DiscoveryManager_removeEntryFromServersOnNetwork sampleDeps dmListening
      (bothInserted sampleDeps (envOk 1 1) (envOk 2 2) "ab".toList "ba".toList) "ba".toList "ba".toList).2.serverOnNetwork = [1] ∧
    (UA_DiscoveryManager_removeEntryFromServersOnNetwork sampleDeps dmListening
      (bothInserted sampleDeps (envOk 1 1) (envOk 2 2) "ab".toList "ba".toList) "ba".toList "ba".toList).2.heap 1
        = (bothInserted sampleDeps (envOk 1 1) (envOk 2 2) "ab".toList "ba".toList).heap 1 ∧
    (mdns_record_add_or_get sampleDeps (envOk 3 3)
      (UA_DiscoveryManager_removeEntryFromServersOnNetwork sampleDeps dmListening
        (bothInserted sampleDeps (envOk 1 1) (envOk 2 2) "ab".toList "ba".toList) "ba".toList "ba".toList).2 "ab".toList "ab".toList false).1 = some 1 :=
  C9_colliding_names_kept_apart sampleDeps (envOk 1 1) (envOk 2 2) (envOk 3 3) dmListening
    "ab".toList "ba".toList (by decide) (by decide) (by decide) (by decide)
    rfl rfl rfl rfl rfl rfl

/-- C20 fails as stated in its consequence: the names `abzzzzzzz0` and
`aczzzzzzz/` are inserted (entries 1 and 2, one bucket), then `a`, which falls
into the same bucket and is a proper initial segment of the name of entry 1.
The insertion returns `BadAlreadyExists` and creates nothing, but the entry it
returns is not entry 1: it is entry 2, the first node of the chain that
compares equal. -/
theorem C20_counterexample :
    tripFirst.2.1 = some 1 ∧ tripSecond.2.1 = some 2 ∧
    hashIdx sampleDeps "a".toList = hashIdx sampleDeps "abzzzzzzz0".toList ∧
    hashIdx sampleDeps "a".toList = hashIdx sampleDeps "aczzzzzzz/".toList ∧
    nameOf tripSecond.2.2 1 = "a".toList ++ "bzzzzzzz0".toList ∧
    tripThird.1 = UA_StatusCode.BADALREADYEXISTS ∧
    ¬ (tripThird.2.1 = some 1) ∧
    tripThird.2.1 = some 2 ∧
    tripThird.2.2.serverOnNetwork = [2, 1] := by
  decide

/-- C20 (amended): lookup (`mdns_record_add_or_get` with `createNew = false`)
for `(f, s)` leaves the registry unchanged and returns the first entry, in chain
order, of the bucket with index `hash(f) mod 1000` whose `serverName` compares
equal to `s` under `strncmp` over the first `min` of the two lengths bytes, and
nothing when the chain has no such entry; when `s` has no NUL byte this is the
first entry whose `serverName` agrees with `s` on those bytes.  Consequently
an insertion with a name that is an initial segment or an extension of the
`serverName` of an entry of that chain creates nothing and returns, with
`BadAlreadyExists`, the first entry of the chain that compares equal; it is
that entry when no other entry of the chain compares equal. -/
theorem C20_lookup_compares_names (P : Deps) (env : Env)
    (st stN stA stB : Registry) (f fN fA fB : List Char) (s sN sA sB : UA_String)
    (eA eB : Ptr)
    (hN : NUL ∉ sN)
    (heA : eA ∈ stA.serverOnNetworkHash (hashIdx P fA))
    (hrelA : (∃ r, nameOf stA eA = sA ++ r) ∨ (∃ r, sA = nameOf stA eA ++ r))
    (heB : eB ∈ stB.serverOnNetworkHash (hashIdx P fB))
    (hrelB : (∃ r, nameOf stB eB = sB ++ r) ∨ (∃ r, sB = nameOf stB eB ++ r))
    (honlyB : ∀ q ∈ stB.serverOnNetworkHash (hashIdx P fB), q ≠ eB →
      namesAgree (nameOf stB q) sB = false) :
    mdns_record_add_or_get P env st f s false
      = ((st.serverOnNetworkHash (hashIdx P f)).find?
          (fun p => namesAgree (nameOf st p) s), st) ∧
    (mdns_record_add_or_get P env stN fN sN false).1 = specLookup P stN fN sN ∧
    UA_DiscoveryManager_addEntryToServersOnNetwork P env stA fA sA
      = (UA_StatusCode.BADALREADYEXISTS,
          (stA.serverOnNetworkHash (hashIdx P fA)).find?
            (fun p => namesAgree (nameOf stA p) sA), stA) ∧
    ((stA.serverOnNetworkHash (hashIdx P fA)).find?
      (fun p => namesAgree (nameOf stA p) sA)).isSome = true ∧
    UA_DiscoveryManager_addEntryToServersOnNetwork P env stB fB sB
      = (UA_StatusCode.BADALREADYEXISTS, some eB, stB) := by
  have hagreeA : namesAgree (nameOf stA eA) sA = true :=
    namesAgree_of_agreeOnMin (agreeOnMin_of_extends hrelA)
  have hagreeB : namesAgree (nameOf stB eB) sB = true :=
    namesAgree_of_agreeOnMin (agreeOnMin_of_extends hrelB)
  have hsomeA : ((stA.serverOnNetworkHash (hashIdx P fA)).find?
      (fun p => namesAgree (nameOf stA p) sA)).isSome = true := by
    rw [List.find?_isSome]
    exact ⟨eA, heA, hagreeA⟩
  refine ⟨?_, ?_, ?_, hsomeA, ?_⟩
  · rw [add_or_get_lookup, chainSearch_eq_find]; rfl
  · rw [add_or_get_lookup, chainSearch_eq_find]
    simp only [specLookup, nameOf]
    congr 1
    funext p
    exact namesAgree_eq_agreeOnMin_right hN
  · obtain ⟨e', he'⟩ := Option.isSome_iff_exists.mp hsomeA
    have hs : chainSearch stA.heap sA (stA.serverOnNetworkHash (hashIdx P fA)) = some e' := by
      rw [chainSearch_eq_find]; exact he'
    rw [addEntry_found hs, he']
  · exact addEntry_found (chainSearch_unique heB hagreeB honlyB)

/-- Witness for C20 (amended): the registry with the entries of `abzzzzzzz0` and
`aczzzzzzz/` and the name `a`; the registry with the entry of `a` and the name
`adddddddddd`. -/
theorem C20_lookup_compares_names_witness :
    mdns_record_add_or_get sampleDeps (envOk 9 9) tripSecond.2.2 "a".toList "a".toList false
      = ((tripSecond.2.2.serverOnNetworkHash (hashIdx sampleDeps "a".toList)).find?
          (fun p => namesAgree (nameOf tripSecond.2.2 p) "a".toList), tripSecond.2.2) ∧
    (mdns_record_add_or_get sampleDeps (envOk 9 9) tripSecond.2.2 "a".toList "a".toList false).1 = specLookup sampleDeps tripSecond.2.2 "a".toList "a".toList ∧
    UA_DiscoveryManager_addEntryToServersOnNetwork sampleDeps (envOk 9 9) tripSecond.2.2 "a".toList "a".toList
      = (UA_StatusCode.BADALREADYEXISTS,
          (tripSecond.2.2.serverOnNetworkHash (hashIdx sampleDeps "a".toList)).find?
            (fun p => namesAgree (nameOf tripSecond.2.2 p) "a".toList), tripSecond.2.2) ∧
    ((tripSecond.2.2.serverOnNetworkHash (hashIdx sampleDeps "a".toList)).find?
      (fun p => namesAgree (nameOf tripSecond.2.2 p) "a".toList)).isSome = true ∧
    UA_DiscoveryManager_addEntryToServersOnNetwork sampleDeps (envOk 9 9) pairFirst.2.2 longName longName
      = (UA_StatusCode.BADALREADYEXISTS, some 1, pairFirst.2.2) :=
  C20_lookup_compares_names sampleDeps (envOk 9 9)
    tripSecond.2.2 tripSecond.2.2 tripSecond.2.2 pairFirst.2.2
    "a".toList "a".toList "a".toList longName "a".toList "a".toList "a".toList longName 1 1
    (by decide) (by decide) (Or.inl ⟨"bzzzzzzz0".toList, rfl⟩) (by decide)
    (Or.inr ⟨"dddddddddd".toList, rfl⟩) (by decide)

/-! ## Enumeration of the ordered list -/

theorem LIST_NEXT_not_mem {l : List Ptr} {p : Ptr} (h : p ∉ l) : LIST_NEXT l p = none := by
  have : l.dropWhile (fun q => q != p) = [] := by
    rw [List.dropWhile_eq_nil_iff]
    intro q hq
    have : q ≠ p := fun e => h (e ▸ hq)
    simpa using this
  simp [LIST_NEXT, this]

theorem LIST_NEXT_append {pre rest : List Ptr} {p : Ptr} (h : p ∉ pre) :
    LIST_NEXT (pre ++ p :: rest) p = rest.head? := by
  induction pre with
  | nil => exact LIST_NEXT_head p rest
  | cons x pre ih =>
    have hx : x ≠ p := fun e => h (e ▸ List.mem_cons_self _ _)
    have hp : p ∉ pre := fun hm => h (List.mem_cons_of_mem _ hm)
    have hb : (x != p) = true := by simpa using hx
    have e : LIST_NEXT (x :: pre ++ p :: rest) p = LIST_NEXT (pre ++ p :: rest) p := by
      simp only [LIST_NEXT, List.cons_append, List.dropWhile_cons, hb, if_true]
    rw [e]
    exact ih hp

theorem traverse_suffix (st : Registry) (hnd : st.serverOnNetwork.Nodup) :
    ∀ (rest pre : List Ptr) (k : Nat), st.serverOnNetwork = pre ++ rest →
      traverse st (rest.length + k) rest.head? = some rest := by
  intro rest
  induction rest with
  | nil => intro pre k _; cases k <;> rfl
  | cons c rest ih =>
    intro pre k hl
    have hc : c ∉ pre := by
      rw [hl] at hnd
      intro hm
      exact (List.nodup_append.mp hnd).2.2 hm (List.mem_cons_self _ _)
    have hnext : UA_DiscoveryManager_getNextServerOnNetworkRecord st c = rest.head? := by
      unfold UA_DiscoveryManager_getNextServerOnNetworkRecord
      rw [hl]
      exact LIST_NEXT_append hc
    have hlen : (c :: rest).length + k = (rest.length + k) + 1 := by
      simp only [List.length_cons]; omega
    rw [hlen]
    show (traverse st (rest.length + k)
      (UA_DiscoveryManager_getNextServerOnNetworkRecord st c)).map _ = _
    rw [hnext, ih (pre ++ [c]) k (by rw [hl]; simp)]
    rfl

theorem NewestFirst_of_list {st st' : Registry} (hWF : ListOk st)
    (h : NewestFirst st)
    (hl : st'.serverOnNetwork = st.serverOnNetwork ∨
      st'.serverOnNetwork = st.heapNext :: st.serverOnNetwork ∨
      ∃ e, st'.serverOnNetwork = st.serverOnNetwork.erase e) : NewestFirst st' := by
  unfold NewestFirst at h ⊢
  rcases hl with hl | hl | ⟨e, hl⟩ <;> rw [hl]
  · exact h
  · exact List.pairwise_cons.mpr ⟨fun q hq => hWF.fresh q hq, h⟩
  · exact h.sublist (List.erase_sublist _ _)

theorem NewestFirst_txtPair {P : Deps} {env : Env} {fromname : List Char} {st : Registry}
    {t : mdns_record_txt_t} (hWF : ListOk st) (h : NewestFirst st) :
    NewestFirst (txtPair P env fromname st t) := by
  unfold txtPair
  split
  · split
    · rcases addEntry_cases P env st fromname fromname with
        ⟨e, _, hr⟩ | ⟨_, hr⟩ | ⟨_, hr⟩ | ⟨hs, hr⟩ <;> rw [hr]
      · exact h
      · exact h
      · exact NewestFirst_of_list hWF h (Or.inl rfl)
      · exact NewestFirst_of_list hWF h (Or.inr (Or.inl rfl))
    · exact h
  · exact h

theorem NewestFirst_foldl_txtPair {P : Deps} {env : Env} {fromname : List Char}
    (l : List mdns_record_txt_t) {st : Registry} (hWF : ListOk st) (h : NewestFirst st) :
    NewestFirst (l.foldl (txtPair P env fromname) st) := by
  induction l generalizing st with
  | nil => exact h
  | cons t l ih => exact ih (ListOk_txtPair hWF) (NewestFirst_txtPair hWF h)

theorem NewestFirst_query_callback {P : Deps} {env : Env} {dm : Option UA_DiscoveryManager}
    {entry : mdns_entry_type_t} {rtype : mdns_record_type_t} {data : Datagram}
    {st : Registry} (hWF : ListOk st) (h : NewestFirst st) :
    NewestFirst (query_callback P env dm entry rtype data st) := by
  unfold query_callback
  cases dm with
  | none => exact h
  | some dm =>
    cases rtype with
    | PTR =>
      simp only
      split
      · exact h
      · split
        · exact h
        · split
          · rcases addEntry_cases P env st data.service data.service with
              ⟨e, _, hr⟩ | ⟨_, hr⟩ | ⟨_, hr⟩ | ⟨hs, hr⟩ <;> rw [hr]
            · exact h
            · exact h
            · exact NewestFirst_of_list hWF h (Or.inl rfl)
            · exact NewestFirst_of_list hWF h (Or.inr (Or.inl rfl))
          · exact h
    | SRV =>
      simp only
      split
      · exact h
      · split
        · split
          · rcases addEntry_cases P env st data.fromname data.fromname with
              ⟨e, _, hr⟩ | ⟨_, hr⟩ | ⟨_, hr⟩ | ⟨hs, hr⟩ <;> rw [hr]
            · exact h
            · exact h
            · exact NewestFirst_of_list hWF h (Or.inl rfl)
            · exact NewestFirst_of_list hWF h (Or.inr (Or.inl rfl))
          · exact h
        · exact h
    | TXT =>
      simp only
      split
      · exact h
      · exact NewestFirst_foldl_txtPair _ hWF h
    | OTHER => exact h

theorem NewestFirst_announce {P : Deps} {env : Env} {dm : Option UA_DiscoveryManager}
    {st : Registry} {serverName discoveryUrl : UA_String} {isOnline : Bool}
    (hWF : ListOk st) (h : NewestFirst st) :
    NewestFirst (UA_Discovery_updateMdnsForDiscoveryUrl P env dm st serverName discoveryUrl
      isOnline) := by
  unfold UA_Discovery_updateMdnsForDiscoveryUrl
  cases dm with
  | none => exact h
  | some dm =>
    simp only
    split
    · exact h
    · cases hp : P.UA_parseEndpointUrl discoveryUrl with
      | none => exact h
      | some r =>
        obtain ⟨hostname, port, path⟩ := r
        simp only
        split
        · exact h
        · split
          · exact h
          · split
            · rcases addEntry_cases P env st (serviceDomain serverName hostname)
                (serviceDomain serverName hostname) with
                ⟨e, _, hr⟩ | ⟨_, hr⟩ | ⟨_, hr⟩ | ⟨hs, hr⟩ <;> rw [hr]
              · exact h
              · exact h
              · exact NewestFirst_of_list hWF h (Or.inl rfl)
              · exact NewestFirst_of_list hWF h (Or.inr (Or.inl rfl))
            · exact h

theorem NewestFirst_removeEntry {P : Deps} {dm : UA_DiscoveryManager} {st : Registry}
    {f : List Char} {s : UA_String} (hWF : ListOk st) (h : NewestFirst st) :
    NewestFirst (UA_DiscoveryManager_removeEntryFromServersOnNetwork P dm st f s).2 := by
  cases hs : chainSearch st.heap s (st.serverOnNetworkHash (hashIdx P f)) with
  | none => rw [removeEntry_none hs]; exact h
  | some e =>
    rw [removeEntry_some hs]
    exact NewestFirst_of_list hWF h (Or.inr (Or.inr ⟨e, rfl⟩))

theorem NewestFirst_step {P : Deps} {st : Registry} (op : Op) (hWF : ListOk st)
    (h : NewestFirst st) : NewestFirst (step P st op) := by
  cases op with
  | answer dm env entry rtype data => exact NewestFirst_query_callback hWF h
  | announce dm env serverName discoveryUrl isOnline => exact NewestFirst_announce hWF h
  | findOrInsert env name =>
    simp only [step]
    rcases addEntry_cases P env st name name with
      ⟨e, _, hr⟩ | ⟨_, hr⟩ | ⟨_, hr⟩ | ⟨hs, hr⟩ <;> rw [hr]
    · exact h
    · exact h
    · exact NewestFirst_of_list hWF h (Or.inl rfl)
    · exact NewestFirst_of_list hWF h (Or.inr (Or.inl rfl))
  | remove dm f s => exact NewestFirst_removeEntry hWF h
  | clear dm past =>
    cases dm with
    | none => exact h
    | some dm =>
      have h1 := @clearLoop_preserves P dm past (fun s => ListOk s ∧ NewestFirst s)
        (fun _ _ _ hi => ⟨ListOk_removeEntry hi.1, NewestFirst_removeEntry hi.1 hi.2⟩)
        st.serverOnNetwork.length st.serverOnNetwork.head? st ⟨hWF, h⟩
      exact h1.2
  | resetCounter dm env =>
    cases dm with
    | none => exact h
    | some dm => exact NewestFirst_of_list hWF h (Or.inl rfl)

theorem NewestFirst_run_from {P : Deps} (ops : List Op) {st : Registry}
    (hWF : ListOk st) (h : NewestFirst st) : NewestFirst (run P st ops) := by
  induction ops generalizing st with
  | nil => exact h
  | cons op ops ih => exact ih (ListOk_step op hWF) (NewestFirst_step op hWF h)

/-- C21: in every state the registry reaches, `first()` followed by repeated
`next(cursor)` visits exactly the entries of the ordered list, each once, and
then gets null (as many calls of `next` as there are entries suffice, and more
change nothing); the order is from the entry created last to the entry created
first: addresses are handed out in increasing order, every live entry lies
below the next address to be handed out, the list is strictly descending, and
a creation puts its new entry in front of the others.  On an empty registry
`first()` is null, and `next` on a cursor that is not a live entry is null. -/
theorem C21_enumeration_newest_first (P : Deps) (ops : List Op) (k : Nat) :
    traverse (run P mdnsPrivateData ops)
        ((run P mdnsPrivateData ops).serverOnNetwork.length + k)
        (UA_DiscoveryManager_getServerOnNetworkList (run P mdnsPrivateData ops))
      = some (run P mdnsPrivateData ops).serverOnNetwork ∧
    (run P mdnsPrivateData ops).serverOnNetwork.Nodup ∧
    NewestFirst (run P mdnsPrivateData ops) ∧
    (∀ p ∈ (run P mdnsPrivateData ops).serverOnNetwork,
      p < (run P mdnsPrivateData ops).heapNext) ∧
    (∀ (env : Env) (name : List Char),
      (UA_DiscoveryManager_addEntryToServersOnNetwork P env (run P mdnsPrivateData ops)
        name name).1 = UA_StatusCode.GOOD →
      (UA_DiscoveryManager_addEntryToServersOnNetwork P env (run P mdnsPrivateData ops)
        name name).2.1 = some (run P mdnsPrivateData ops).heapNext ∧
      (UA_DiscoveryManager_addEntryToServersOnNetwork P env (run P mdnsPrivateData ops)
        name name).2.2.serverOnNetwork
        = (run P mdnsPrivateData ops).heapNext
            :: (run P mdnsPrivateData ops).serverOnNetwork) ∧
    ((run P mdnsPrivateData ops).serverOnNetwork = [] →
      UA_DiscoveryManager_getServerOnNetworkList (run P mdnsPrivateData ops) = none) ∧
    (∀ cursor, cursor ∉ (run P mdnsPrivateData ops).serverOnNetwork →
      UA_DiscoveryManager_getNextServerOnNetworkRecord (run P mdnsPrivateData ops) cursor
        = none) := by
  have hWF := ListOk_run P ops
  have hNF : NewestFirst (run P mdnsPrivateData ops) :=
    NewestFirst_run_from ops ListOk_init List.Pairwise.nil
  refine ⟨?_, hWF.list_nodup, hNF, hWF.fresh, ?_, ?_, ?_⟩
  · exact traverse_suffix _ hWF.list_nodup _ [] k rfl
  · intro env name hgood
    rcases addEntry_cases P env (run P mdnsPrivateData ops) name name with
      ⟨e, _, hr⟩ | ⟨_, hr⟩ | ⟨_, hr⟩ | ⟨_, hr⟩ <;> rw [hr] at hgood ⊢
    · exact UA_StatusCode.noConfusion hgood
    · exact UA_StatusCode.noConfusion hgood
    · exact UA_StatusCode.noConfusion hgood
    · exact ⟨rfl, rfl⟩
  · intro h
    unfold UA_DiscoveryManager_getServerOnNetworkList
    rw [h]
    rfl
  · intro cursor hc
    exact LIST_NEXT_not_mem hc

/-! ## Unlinking the chain node -/

theorem unlinkLoop_spec (entry : Ptr) :
    ∀ (l passed : List Ptr),
      unlinkLoop entry passed l = (decide (entry ∈ l), passed ++ l.erase entry) := by
  intro l
  induction l with
  | nil => intro passed; simp [unlinkLoop]
  | cons node next ih =>
    intro passed
    unfold unlinkLoop
    by_cases h : node = entry
    · subst h
      simp
    · have h' : ¬ entry = node := fun e => h e.symm
      rw [if_neg h, ih (passed ++ [node])]
      have hb : (node == entry) = false := by simpa using h
      simp [List.erase_cons, hb, h']

theorem traverse_tripOther :
    tripOther.2.2.serverOnNetwork = [3, 2, 1] ∧
    traverse tripOther.2.2 3 (UA_DiscoveryManager_getServerOnNetworkList tripOther.2.2)
      = some [3, 2, 1] ∧
    traverse tripOther.2.2 2 (UA_DiscoveryManager_getServerOnNetworkList tripOther.2.2)
      = none ∧
    unlinkLoop 2 [] [3, 2, 1] = (true, [3, 1]) ∧
    unlinkLoop 4 [] [3, 2, 1] = (false, [3, 2, 1]) := by
  decide

/-- C22: whenever the lookup of `remove` finds an entry, the chain of bucket
`hash(fqdn) mod 1000` holds a node that references it: the loop that walks
this chain stops at the first such node with `hash_entry` not null, unlinks it,
and leaves the nodes before and after it in their order; this is the chain the
removal leaves, the other chains are untouched and the removal returns `Good`.
It holds in every state; in a state whose list and chains are in lock-step the
node is the only one that references the entry, the entry is in the ordered
list, and lock-step holds again after the removal. -/
theorem C22_unlink_reaches_node (P : Deps) (env : Env) (dm : UA_DiscoveryManager)
    (st : Registry) (f : List Char) (s : UA_String) (entry : Ptr)
    (hfind : (mdns_record_add_or_get P env st f s false).1 = some entry) :
    ∃ l1 l2,
      st.serverOnNetworkHash (hashIdx P f) = l1 ++ entry :: l2 ∧
      entry ∉ l1 ∧
      unlinkLoop entry [] (st.serverOnNetworkHash (hashIdx P f)) = (true, l1 ++ l2) ∧
      (UA_DiscoveryManager_removeEntryFromServersOnNetwork P dm st f s).1
        = UA_StatusCode.GOOD ∧
      (UA_DiscoveryManager_removeEntryFromServersOnNetwork P dm st f s).2.serverOnNetworkHash
        (hashIdx P f) = l1 ++ l2 ∧
      (∀ i, i ≠ hashIdx P f →
        (UA_DiscoveryManager_removeEntryFromServersOnNetwork P dm st f s).2.serverOnNetworkHash i
          = st.serverOnNetworkHash i) ∧
      (WF P st →
        entry ∉ l1 ++ l2 ∧ entry ∈ st.serverOnNetwork ∧
        WF P (UA_DiscoveryManager_removeEntryFromServersOnNetwork P dm st f s).2) := by
  rw [add_or_get_lookup] at hfind
  have hs : chainSearch st.heap s (st.serverOnNetworkHash (hashIdx P f)) = some entry := hfind
  have hmem : entry ∈ st.serverOnNetworkHash (hashIdx P f) := (chainSearch_some hs).1
  obtain ⟨l1, l2, hnot, hsplit, herase⟩ := List.exists_erase_eq hmem
  refine ⟨l1, l2, hsplit, hnot, ?_, ?_, ?_, ?_, ?_⟩
  · rw [unlinkLoop_spec, herase]
    simp [hmem]
  · rw [removeEntry_some hs]
  · rw [removeEntry_some hs]
    simp only [removed, setAt, if_true]
    exact herase
  · intro i hi
    rw [removeEntry_some hs]
    simp only [removed, setAt, if_neg hi]
  · intro hWF
    refine ⟨?_, ((hWF.mem_chain _ _).1 hmem).1, WF_removeEntry hWF⟩
    rw [← herase]
    exact fun hm => ((hWF.chain_nodup _).mem_erase_iff.mp hm).1 rfl

/-- Witness for C22: the registry with the entries of `abzzzzzzz0`, `aczzzzzzz/` and
`adzzzzzzz.` in one chain (nodes 3, 2, 1) and the removal of `aczzzzzzz/`, whose
lookup finds entry 2, the middle node. -/
theorem C22_unlink_reaches_node_witness :
    ∃ l1 l2,
      tripOther.2.2.serverOnNetworkHash (hashIdx sampleDeps "aczzzzzzz/".toList) = l1 ++ 2 :: l2 ∧
      2 ∉ l1 ∧
      unlinkLoop 2 [] (tripOther.2.2.serverOnNetworkHash (hashIdx sampleDeps "aczzzzzzz/".toList)) = (true, l1 ++ l2) ∧
      (UA_DiscoveryManager_removeEntryFromServersOnNetwork sampleDeps dmListening tripOther.2.2 "aczzzzzzz/".toList "aczzzzzzz/".toList).1
        = UA_StatusCode.GOOD ∧
      (UA_DiscoveryManager_removeEntryFromServersOnNetwork sampleDeps dmListening tripOther.2.2 "aczzzzzzz/".toList "aczzzzzzz/".toList).2.serverOnNetworkHash
        (hashIdx sampleDeps "aczzzzzzz/".toList) = l1 ++ l2 ∧
      (∀ i, i ≠ hashIdx sampleDeps "aczzzzzzz/".toList →
        (UA_DiscoveryManager_removeEntryFromServersOnNetwork sampleDeps dmListening tripOther.2.2 "aczzzzzzz/".toList "aczzzzzzz/".toList).2.serverOnNetworkHash i
          = tripOther.2.2.serverOnNetworkHash i) ∧
      (WF sampleDeps tripOther.2.2 →
        2 ∉ l1 ++ l2 ∧ 2 ∈ tripOther.2.2.serverOnNetwork ∧
        WF sampleDeps (UA_DiscoveryManager_removeEntryFromServersOnNetwork sampleDeps dmListening tripOther.2.2 "aczzzzzzz/".toList "aczzzzzzz/".toList).2) :=
  C22_unlink_reaches_node sampleDeps (envOk 9 9) dmListening tripOther.2.2
    "aczzzzzzz/".toList "aczzzzzzz/".toList 2 (by decide)

end Mdns
